import Mathlib

/-!
# AbyssFramework logger: a shallow embedding of `Log.h` / `Log.cpp`

The logger of `Source/Private/Log.cpp` is embedded as pure functions that pass the
logger state (`Logger`) and the state of the outside world (`World`: the system clock,
the file system, the standard output stream) explicitly.  A ghost `trace` in the world
records every sink event in the order in which it happens.

The embedding of the logger calls is sequential: one thread runs one logger call at a
time, so the mutex `m_Mutex` has no counterpart there.  The order in which
`Logger::write` reads the reentrancy flag and takes the mutex is embedded separately, as
a step relation over the program points of `write` for several threads (`System`).

The container of `containers/BiMap.hpp` and the helper `format_with_commas` are embedded
as well.
-/

namespace Aby

/-! ## `std::format` for the replacement fields the logger uses -/

/-- An argument handed to `std::format`: a string or a (signed) integer. -/
inductive FmtArg where
  | str (s : String)
  | int (i : Int)

/-- Decimal rendering of an integer with the `0` flag and a minimum field width
(`{:02}`, `{:04}`); a sign counts towards the width. Width `0` is the plain `{}`. -/
def zero_pad (width : Nat) (i : Int) : List Char :=
  let ds := Nat.toDigits 10 i.natAbs
  if i < 0 then '-' :: (List.replicate (width - 1 - ds.length) '0' ++ ds)
  else List.replicate (width - ds.length) '0' ++ ds

/-- Reads the decimal width of a format spec. -/
def parse_width : List Char → Nat → Nat
  | [], acc => acc
  | c :: cs, acc => parse_width cs (acc * 10 + (c.toNat - '0'.toNat))

/-- Renders one argument under the format spec found between the braces. -/
def render (spec : List Char) : FmtArg → List Char
  | .str s => s.data
  | .int i =>
    match spec with
    | ':' :: '0' :: ds => zero_pad (parse_width ds 0) i
    | _ => zero_pad 0 i

/-- The scan of a format string: outside a replacement field (`none`) characters are
copied, inside one (`some spec`) the spec is collected up to the closing brace and the
next argument is rendered. -/
def std_format_go : List Char → Option (List Char) → List FmtArg → List Char
  | [], _, _ => []
  | c :: cs, none, args =>
    if c = '\x7b' then std_format_go cs (some []) args
    else c :: std_format_go cs none args
  | c :: cs, some spec, args =>
    if c = '\x7d' then
      match args with
      | a :: rest => render spec a ++ std_format_go cs none rest
      | [] => std_format_go cs none []
    else std_format_go cs (some (spec ++ [c])) args

/-- The function `std::format(fmt, args...)`. -/
def std_format (f : String) (args : List FmtArg) : String :=
  ⟨std_format_go f.data none args⟩

/-! ## `Macros.h` -/

def COLOR_RESET : String := "\x1b[0m"
def COLOR_WHITE : String := "\x1b[37m"
def COLOR_GREEN : String := "\x1b[32m"
def COLOR_YELLOW : String := "\x1b[33m"
def COLOR_RED : String := "\x1b[31m"
def COLOR_CYAN : String := "\x1b[36m"
def STYLE_UNDERLINE : String := "\x1b[4m"

/-- The macro `ABY_SOURCE_FILE` inside `Log.cpp`: the file name after the last path
separator of `__FILE__`. -/
def ABY_SOURCE_FILE : String := "Log.cpp"

/-! ## `Log.h` -/

/-- The enumeration `enum class ELevel`, in declaration order. -/
inductive ELevel where
  | NONE
  | TRACE
  | INFO
  | WARN
  | DEBUG
  | ERROR
  | ASSERT
  | ALL
  deriving DecidableEq, Repr

/-- The conversion `static_cast<int>(level)`: enumerators count from zero. -/
def ELevel.toInt : ELevel → Int
  | .NONE => 0
  | .TRACE => 1
  | .INFO => 2
  | .WARN => 3
  | .DEBUG => 4
  | .ERROR => 5
  | .ASSERT => 6
  | .ALL => 7

/-- The record `struct Message`. -/
structure Message where
  timestamp : String
  text : String
  level : ELevel
  deriving DecidableEq, Repr

/-- The type `Callback`: the optional error string a callback returns for a message.
Callbacks keep the documented contract and make no logger call of their own; a logger
call made during callback dispatch is a call on a logger whose `bInCallbacks` is set. -/
abbrev Callback := Message → Option String

/-- A `std::map<ELevel, std::string>`. -/
abbrev LevelMap := ELevel → Option String

/-- The record `struct Config`. -/
structure Config where
  level : ELevel
  to_console : Bool
  log_files : List String
  callbacks : List Callback
  level_names : LevelMap
  level_colors : LevelMap

/-- The state of `class Logger` (the mutex carries no data). -/
structure Logger where
  m_Cfg : Config
  bInCallbacks : Bool

/-! ## The outside world -/

/-- The fields of `std::tm` that `current_time` reads. -/
structure Tm where
  tm_sec : Int
  tm_min : Int
  tm_hour : Int
  tm_mday : Int
  tm_mon : Int
  tm_year : Int
  deriving DecidableEq, Repr

/-- A broken-down time as `localtime_r` / `localtime_s` deliver it into a zeroed
`std::tm`: the month index is a month index. -/
structure LocalTm where
  tm : Tm
  mon_lo : 0 ≤ tm.tm_mon
  mon_hi : tm.tm_mon < 12

/-- One observable effect of the logger. A callback event records the position of the
callback in `callbacks`, the message it got, what it returned and the value of
`bInCallbacks` while it ran. -/
inductive Event where
  | file_append (path : String) (text : String)
  | console (text : String)
  | callback (idx : Nat) (msg : Message) (ret : Option String) (in_callbacks : Bool)
  deriving DecidableEq, Repr

/-- The environment of the logger. `clock k` is the local time the `k`-th reading of
the system clock yields and `ticks` counts the readings taken; `openable` tells which
paths `std::ofstream(path, std::ios::app)` opens; `files` holds the file contents and
`stdout` the bytes written to the standard output; `func_sig` is what `ABY_FUNC_SIG`
expands to inside `Logger::write` (it depends on the compiler). -/
structure World where
  clock : Nat → LocalTm
  ticks : Nat
  func_sig : String
  openable : String → Bool
  files : String → String
  stdout : String
  trace : List Event

/-- The table `months` of `current_time`. -/
def months : List String :=
  ["Jan", "Feb", "Mar", "Apr", "May", "Jun", "Jul", "Aug", "Sep", "Oct", "Nov", "Dec"]

/-- The read `months[i]` of the C array; `none` is a read outside the array. -/
def months_at (i : Int) : Option String :=
  if 0 ≤ i then months[i.toNat]? else none

/-- The function `current_time` (Log.cpp 183-200) on the broken-down time it obtained
from the clock. The format string is `{:02}-{}-{:04}•{:02}:{:02}:{:02}`. -/
def current_time (tm : Tm) : Option String :=
  match months_at tm.tm_mon with
  | some mon =>
    some (std_format "\x7b:02\x7d-\x7b\x7d-\x7b:04\x7d•\x7b:02\x7d:\x7b:02\x7d:\x7b:02\x7d"
      [.int tm.tm_mday, .str mon, .int (tm.tm_year + 1900),
       .int tm.tm_hour, .int tm.tm_min, .int tm.tm_sec])
  | none => none

/-- The timestamp of a local time: `current_time`, whose table read is in bounds. -/
def LocalTm.timestamp (lt : LocalTm) : String :=
  (current_time lt.tm).get (by
    obtain ⟨tm, h0, h1⟩ := lt
    have h2 : tm.tm_mon.toNat < 12 := by omega
    have h3 : (months[tm.tm_mon.toNat]?).isSome = true := by
      rw [List.getElem?_eq_getElem (by simpa [months] using h2)]; rfl
    simp only [current_time, months_at, h0, if_true]
    cases h4 : months[tm.tm_mon.toNat]? with
    | none => simp [h4] at h3
    | some mon => rfl)

/-- A call of `current_time()`: one reading of the clock. -/
def World.current_time (w : World) : String × World :=
  ((w.clock w.ticks).timestamp, { w with ticks := w.ticks + 1 })

/-- The body of `Logger::write_console`: the bytes go to the standard output. -/
def World.write_console (w : World) (formatted_msg : String) : World :=
  { w with stdout := w.stdout ++ formatted_msg, trace := w.trace ++ [.console formatted_msg] }

/-- The effect of `ofs << formatted_msg; ofs.flush()` on a stream opened in append mode. -/
def World.append_file (w : World) (path : String) (formatted_msg : String) : World :=
  { w with
    files := fun p => if p = path then w.files p ++ formatted_msg else w.files p
    trace := w.trace ++ [.file_append path formatted_msg] }

/-! ## `Log.cpp` -/

/-- The constructor `Logger::Logger` (Log.cpp 9-36). -/
def Logger.ctor : Logger where
  bInCallbacks := false
  m_Cfg :=
    { level := .ALL
      to_console := true
      log_files := []
      callbacks := []
      level_names := fun
        | .NONE => some "<NONE>"
        | .TRACE => some "TRACE"
        | .INFO => some "INFO"
        | .WARN => some "WARN"
        | .DEBUG => some "DEBUG"
        | .ERROR => some "ERROR"
        | .ASSERT => some "ASSERT"
        | .ALL => some "<ALL>"
      level_colors := fun
        | .NONE => some "<NONE>"
        | .TRACE => some COLOR_WHITE
        | .INFO => some COLOR_GREEN
        | .WARN => some COLOR_YELLOW
        | .DEBUG => some COLOR_CYAN
        | .ERROR => some COLOR_RED
        | .ASSERT => some (STYLE_UNDERLINE ++ COLOR_RED)
        | .ALL => some "<ALL>" }

/-- The access `map[key]` of `std::map::operator[]`: a missing key is inserted with a
default-constructed (empty) string, which is the value read. -/
def map_index (m : LevelMap) (key : ELevel) : String × LevelMap :=
  match m key with
  | some v => (v, m)
  | none => ("", fun k => if k = key then some "" else m k)

/-- The function `Logger::format` (Log.cpp 106-113). The format string is
`[{}] [{}{}{}] {}\n`. -/
def Logger.format (lg : Logger) (w : World) (level : ELevel) (msg : String) :
    String × Logger × World :=
  let t := w.current_time
  let c := map_index lg.m_Cfg.level_colors level
  let n := map_index lg.m_Cfg.level_names level
  (std_format "[\x7b\x7d] [\x7b\x7d\x7b\x7d\x7b\x7d] \x7b\x7d\n"
      [.str t.1, .str c.1, .str n.1, .str COLOR_RESET, .str msg],
    { lg with m_Cfg := { lg.m_Cfg with level_colors := c.2, level_names := n.2 } },
    t.2)

/-- The loop of `Logger::write_files` over the remaining paths. -/
def write_files_loop (formatted_msg : String) : List String → World → World
  | [], w => w
  | path :: rest, w =>
    write_files_loop formatted_msg rest
      (if w.openable path then w.append_file path formatted_msg else w)

/-- The function `Logger::write_files` (Log.cpp 115-123). -/
def Logger.write_files (lg : Logger) (w : World) (formatted_msg : String) : World :=
  write_files_loop formatted_msg lg.m_Cfg.log_files w

/-- The loop of `Logger::handle_callbacks` over the remaining callbacks; `idx` is the
position of the next one. -/
def handle_callbacks_loop (msg : Message) : List Callback → Nat → Logger → World → Logger × World
  | [], _, lg, w => (lg, w)
  | cb :: rest, idx, lg, w =>
    let err := cb msg
    let w1 := { w with trace := w.trace ++ [.callback idx msg err lg.bInCallbacks] }
    match err with
    | some e =>
      let f := lg.format w1 .ERROR e
      let w2 := f.2.1.write_files f.2.2 f.1
      let w3 := if f.2.1.m_Cfg.to_console then w2.write_console f.1 else w2
      handle_callbacks_loop msg rest (idx + 1) f.2.1 w3
    | none => handle_callbacks_loop msg rest (idx + 1) lg w1

/-- The function `Logger::handle_callbacks` (Log.cpp 129-141). -/
def Logger.handle_callbacks (lg : Logger) (w : World) (msg : Message) : Logger × World :=
  let lg1 := { lg with bInCallbacks := true }
  let r := handle_callbacks_loop msg lg1.m_Cfg.callbacks 0 lg1 w
  ({ r.1 with bInCallbacks := false }, r.2)

/-- How a logger call ends: it returns, or the process is terminated by `std::abort()`. -/
inductive Outcome where
  | returned (lg : Logger) (w : World)
  | aborted (w : World)

/-- Sequencing of logger calls: nothing runs after an abort. -/
def Outcome.andThen (o : Outcome) (next : Logger → World → Outcome) : Outcome :=
  match o with
  | .returned lg w => next lg w
  | .aborted w => .aborted w

/-- The text of the last diagnostic line of the reentrancy check (Log.cpp 55-56). -/
def reentrancy_error : String :=
  "Cannot call Logger::* functions inside of a callback.\n" ++
  "Use return mechanism if you need to log an error inside a callback."

/-- Lines 52-57 of `Logger::write`: four diagnostic lines go straight to the console,
then `std::abort()`. -/
def Logger.reentrancy_abort (lg : Logger) (w : World) : World :=
  let f1 := lg.format w .ASSERT
    (std_format "File:  \x7b\x7d:\x7b\x7d" [.str ABY_SOURCE_FILE, .int 52])
  let w1 := f1.2.2.write_console f1.1
  let f2 := f1.2.1.format w1 .ASSERT (std_format "Func:  \x7b\x7d" [.str w.func_sig])
  let w2 := f2.2.2.write_console f2.1
  let f3 := f2.2.1.format w2 .ASSERT
    (std_format "Expr:  \x7b\x7d" [.str "Logger::bInCallbacks == true"])
  let w3 := f3.2.2.write_console f3.1
  let f4 := f3.2.1.format w3 .ASSERT (std_format "Error: \x7b\x7d" [.str reentrancy_error])
  f4.2.2.write_console f4.1

/-- The function `Logger::write` (Log.cpp 46-76). -/
def Logger.write (lg : Logger) (w : World) (level : ELevel) (msg : String) : Outcome :=
  if level.toInt > lg.m_Cfg.level.toInt then .returned lg w
  else if lg.bInCallbacks then .aborted (lg.reentrancy_abort w)
  else
    let f := lg.format w level msg
    let w1 := f.2.1.write_files f.2.2 f.1
    let w2 := if f.2.1.m_Cfg.to_console then w1.write_console f.1 else w1
    if !f.2.1.m_Cfg.callbacks.isEmpty then
      let t := w2.current_time
      let r := f.2.1.handle_callbacks t.2 { timestamp := t.1, text := f.1, level := level }
      .returned r.1 r.2
    else .returned f.2.1 w2

def Logger.trace (lg : Logger) (w : World) (msg : String) : Outcome :=
  lg.write w .TRACE msg

def Logger.info (lg : Logger) (w : World) (msg : String) : Outcome :=
  lg.write w .INFO msg

def Logger.warn (lg : Logger) (w : World) (msg : String) : Outcome :=
  lg.write w .WARN msg

def Logger.debug (lg : Logger) (w : World) (msg : String) : Outcome :=
  lg.write w .DEBUG msg

def Logger.error (lg : Logger) (w : World) (msg : String) : Outcome :=
  lg.write w .ERROR msg

/-- The function `Logger::assertion` (Log.cpp 98-103). -/
def Logger.assertion (lg : Logger) (w : World) (file : String) (line : Int) (func : String)
    (expr : String) (msg : String) : Outcome :=
  ((((lg.write w .ASSERT (std_format "File   \x7b\x7d:\x7b\x7d" [.str file, .int line])).andThen
    fun lg1 w1 => lg1.write w1 .ASSERT (std_format "Func:  \x7b\x7d" [.str func])).andThen
    fun lg2 w2 => lg2.write w2 .ASSERT (std_format "Expr:  \x7b\x7d" [.str expr])).andThen
    fun lg3 w3 => lg3.write w3 .ASSERT (std_format "Error: \x7b\x7d" [.str msg]))

def Config.set_level (cfg : Config) (level : ELevel) : Config :=
  { cfg with level := level }

def Config.set_to_console (cfg : Config) (to_console : Bool) : Config :=
  { cfg with to_console := to_console }

def Config.set_color (cfg : Config) (level : ELevel) (color : String) : Config :=
  { cfg with level_colors := fun k => if k = level then some color else cfg.level_colors k }

def Config.set_level_name (cfg : Config) (level : ELevel) (name : String) : Config :=
  { cfg with level_names := fun k => if k = level then some name else cfg.level_names k }

def Config.add_file (cfg : Config) (path : String) : Config :=
  { cfg with log_files := cfg.log_files ++ [path] }

def Config.add_callback (cfg : Config) (callback : Callback) : Config :=
  { cfg with callbacks := cfg.callbacks ++ [callback] }

/-! ## Vocabulary of the specification -/

/-- The order of the severities as the specification lists it. -/
def severity_order : List ELevel :=
  [.NONE, .TRACE, .INFO, .WARN, .DEBUG, .ERROR, .ASSERT, .ALL]

/-- The position of a severity in `severity_order`. -/
def ELevel.position (l : ELevel) : Nat :=
  severity_order.indexOf l

/-- The display name a configuration shows for a severity; empty when there is no entry. -/
def Config.name_of (cfg : Config) (l : ELevel) : String :=
  (cfg.level_names l).getD ""

/-- The display color a configuration shows for a severity; empty when there is no entry. -/
def Config.color_of (cfg : Config) (l : ELevel) : String :=
  (cfg.level_colors l).getD ""

/-- The line layout of the specification: timestamp in brackets, then color, name and
reset in brackets, then the text and a newline. -/
def formatted_line (t color name text : String) : String :=
  "[" ++ t ++ "] [" ++ color ++ name ++ "\x1b[0m" ++ "] " ++ text ++ "\n"

/-- The line a logger shows for a message of severity `l` at timestamp `t`. -/
def Logger.line (lg : Logger) (t : String) (l : ELevel) (text : String) : String :=
  formatted_line t (lg.m_Cfg.color_of l) (lg.m_Cfg.name_of l) text

/-- One message on every enabled sink: an append to each openable entry of the file
list, in list order, then one console write when the console flag is on. -/
def sink_events (lg : Logger) (w : World) (s : String) : List Event :=
  (lg.m_Cfg.log_files.filter w.openable).map (fun p => Event.file_append p s) ++
    (if lg.m_Cfg.to_console then [Event.console s] else [])

/-- A string repeated `n` times. -/
def repeat_string (s : String) : Nat → String
  | 0 => ""
  | n + 1 => s ++ repeat_string s n

/-- Whether an event is a callback invocation. -/
def Event.is_callback : Event → Bool
  | .callback _ _ _ _ => true
  | _ => false

/-- Whether an event is a write to a file or to the console. -/
def Event.is_sink (e : Event) : Bool :=
  !e.is_callback

/-- The record `handle_callbacks` receives from an emitted `write`: the formatted text
comes from the first reading of the clock, the timestamp from the second. -/
def emitted_message (lg : Logger) (w : World) (level : ELevel) (text : String) : Message :=
  { timestamp := (w.clock (w.ticks + 1)).timestamp
    text := lg.line (w.clock w.ticks).timestamp level text
    level := level }

/-- The events of a callback dispatch that starts at callback position `idx` with `k`
clock readings taken: each callback is invoked once, and one that returns an error
string is followed by one `ERROR` line on every enabled sink. -/
def callback_events (lg : Logger) (w : World) (msg : Message) :
    List Callback → Nat → Nat → List Event
  | [], _, _ => []
  | cb :: rest, idx, k =>
    match cb msg with
    | none => Event.callback idx msg none true :: callback_events lg w msg rest (idx + 1) k
    | some e =>
      Event.callback idx msg (some e) true ::
        (sink_events lg w (lg.line (w.clock k).timestamp .ERROR e) ++
          callback_events lg w msg rest (idx + 1) (k + 1))

/-- The world after one message `s` went to every enabled sink, one clock reading having
been taken to format it. -/
def after_message (lg : Logger) (w : World) (s : String) : World :=
  { w with
    ticks := w.ticks + 1
    files := fun p =>
      w.files p ++ repeat_string s ((lg.m_Cfg.log_files.filter w.openable).count p)
    stdout := w.stdout ++ (if lg.m_Cfg.to_console then s else "")
    trace := w.trace ++ sink_events lg w s }

/-- What every step of the logger keeps of a logger state `a` in the later state `b`:
the reentrancy flag, the threshold, the console flag, the file list, the callbacks, and
every entry the display maps hold (formatting can only add entries). -/
def Logger.kept_in (a b : Logger) : Prop :=
  b.bInCallbacks = a.bInCallbacks ∧
  b.m_Cfg.level = a.m_Cfg.level ∧
  b.m_Cfg.to_console = a.m_Cfg.to_console ∧
  b.m_Cfg.log_files = a.m_Cfg.log_files ∧
  b.m_Cfg.callbacks = a.m_Cfg.callbacks ∧
  (∀ l v, a.m_Cfg.level_names l = some v → b.m_Cfg.level_names l = some v) ∧
  (∀ l v, a.m_Cfg.level_colors l = some v → b.m_Cfg.level_colors l = some v)

/-- The four diagnostic lines of the reentrancy check, one per clock reading from the
current one on. -/
def reentrancy_lines (lg : Logger) (w : World) : List Event :=
  [Event.console (lg.line (w.clock w.ticks).timestamp .ASSERT "File:  Log.cpp:52"),
   Event.console (lg.line (w.clock (w.ticks + 1)).timestamp .ASSERT ("Func:  " ++ w.func_sig)),
   Event.console (lg.line (w.clock (w.ticks + 2)).timestamp .ASSERT
     "Expr:  Logger::bInCallbacks == true"),
   Event.console (lg.line (w.clock (w.ticks + 3)).timestamp .ASSERT
     ("Error: " ++ reentrancy_error))]

/-- Registration of a list of callbacks: `config().add_callback(cb)` for each one, in
list order. -/
def Logger.add_callbacks (lg : Logger) (cbs : List Callback) : Logger :=
  { lg with m_Cfg := cbs.foldl Config.add_callback lg.m_Cfg }

/-- The error strings the callbacks return for a message, in callback order. -/
def returned_errors (cbs : List Callback) (msg : Message) : List String :=
  cbs.filterMap (fun cb => cb msg)

/-- A number below one hundred written with two decimal digits. -/
def two_digits (n : Nat) : String :=
  ⟨[Nat.digitChar (n / 10), Nat.digitChar (n % 10)]⟩

/-- A number below ten thousand written with four decimal digits. -/
def four_digits (n : Nat) : String :=
  ⟨[Nat.digitChar (n / 1000), Nat.digitChar (n / 100 % 10), Nat.digitChar (n / 10 % 10),
    Nat.digitChar (n % 10)]⟩

/-- The three-letter English abbreviation of the month with index `i` (January is 0). -/
def month_abbrev : Nat → String
  | 0 => "Jan"
  | 1 => "Feb"
  | 2 => "Mar"
  | 3 => "Apr"
  | 4 => "May"
  | 5 => "Jun"
  | 6 => "Jul"
  | 7 => "Aug"
  | 8 => "Sep"
  | 9 => "Oct"
  | 10 => "Nov"
  | _ => "Dec"

/-- The text the file appends of a trace add to the file at path `p`, in order. -/
def appended_to (p : String) : List Event → String
  | [] => ""
  | .file_append q s :: rest => (if q = p then s else "") ++ appended_to p rest
  | .console _ :: rest => appended_to p rest
  | .callback _ _ _ _ :: rest => appended_to p rest

/-- The text the console writes of a trace add to the standard output, in order. -/
def console_text : List Event → String
  | [] => ""
  | .console s :: rest => s ++ console_text rest
  | .file_append _ _ :: rest => console_text rest
  | .callback _ _ _ _ :: rest => console_text rest

/-- The events of an emitted `write`: the message on every enabled sink, then the
callback dispatch, whose first `ERROR` line is formatted at the third clock reading. -/
def emitted_events (lg : Logger) (w : World) (level : ELevel) (text : String) : List Event :=
  sink_events lg w (lg.line (w.clock w.ticks).timestamp level text) ++
    callback_events lg w (emitted_message lg w level text) lg.m_Cfg.callbacks 0 (w.ticks + 2)

/-- The number of clock readings of an emitted `write`: one for the message, and with
callbacks registered one for the record and one per returned error string. -/
def emitted_ticks (lg : Logger) (w : World) (level : ELevel) (text : String) : Nat :=
  1 + (if lg.m_Cfg.callbacks.isEmpty then 0
    else 1 + (returned_errors lg.m_Cfg.callbacks (emitted_message lg w level text)).length)

/-- The world `w2` is the world `w1` after the events `new` and `n` clock readings: the
trace grew by `new`, the files and the standard output hold what these events wrote, and
the environment is the same. -/
def World.grown_by (w1 w2 : World) (new : List Event) (n : Nat) : Prop :=
  w2.trace = w1.trace ++ new ∧
  (∀ p, w2.files p = w1.files p ++ appended_to p new) ∧
  w2.stdout = w1.stdout ++ console_text new ∧
  w2.ticks = w1.ticks + n ∧
  w2.clock = w1.clock ∧
  w2.openable = w1.openable ∧
  w2.func_sig = w1.func_sig

/-- The logger `b` shows what the logger `a` shows: same reentrancy flag, threshold,
console flag, file list and callbacks, and the same display name and color for every
severity. -/
def Logger.same_view (a b : Logger) : Prop :=
  b.bInCallbacks = a.bInCallbacks ∧
  b.m_Cfg.level = a.m_Cfg.level ∧
  b.m_Cfg.to_console = a.m_Cfg.to_console ∧
  b.m_Cfg.log_files = a.m_Cfg.log_files ∧
  b.m_Cfg.callbacks = a.m_Cfg.callbacks ∧
  (∀ l, b.m_Cfg.name_of l = a.m_Cfg.name_of l) ∧
  (∀ l, b.m_Cfg.color_of l = a.m_Cfg.color_of l)

/-- The logger with the paths that do not open taken out of its file list. -/
def Logger.only_openable (lg : Logger) (w : World) : Logger :=
  { lg with m_Cfg := { lg.m_Cfg with log_files := lg.m_Cfg.log_files.filter w.openable } }

/-- The function `std::to_string` on a signed integer: the decimal digits, after a minus
sign when the value is negative. -/
def to_string (v : Int) : String :=
  ⟨zero_pad 0 v⟩

/-- Consecutive `write` calls of one severity, one per text, in list order. -/
def write_all (level : ELevel) : List String → Logger → World → Outcome
  | [], lg, w => .returned lg w
  | t :: rest, lg, w => (lg.write w level t).andThen (write_all level rest)

/-- The assertion report as the specification words it: four consecutive
`write(ASSERT, .)` calls that carry the file and line, the function signature, the
expression text and the error message. -/
def assertion_spec (lg : Logger) (w : World) (file : String) (line : Int) (func : String)
    (expr : String) (msg : String) : Outcome :=
  write_all .ASSERT
    ["File   " ++ file ++ ":" ++ to_string line, "Func:  " ++ func, "Expr:  " ++ expr,
      "Error: " ++ msg] lg w

/-- The events of consecutive emitted `write` calls: those of the first call, then those
of the remaining calls at the clock readings that follow. -/
def write_all_events (lg : Logger) (w : World) (level : ELevel) : List String → List Event
  | [] => []
  | t :: rest =>
    emitted_events lg w level t ++
      write_all_events lg { w with ticks := w.ticks + emitted_ticks lg w level t } level rest

/-- The number of clock readings of consecutive emitted `write` calls. -/
def write_all_ticks (lg : Logger) (w : World) (level : ELevel) : List String → Nat
  | [] => 0
  | t :: rest =>
    emitted_ticks lg w level t +
      write_all_ticks lg { w with ticks := w.ticks + emitted_ticks lg w level t } level rest

/-- The strings of a list, one after the other. -/
def concat_all : List String → String
  | [] => ""
  | s :: rest => s ++ concat_all rest

/-- The value of a 64-bit pattern read as `int64_t` (two's complement). -/
def wrap_int64 (x : Int) : Int :=
  (x + 2 ^ 63) % 2 ^ 64 - 2 ^ 63

/-- The call `num.insert(index, s)` of `std::string`, for an index inside the string. -/
def string_insert (num : List Char) (index : Nat) (s : List Char) : List Char :=
  num.take index ++ s ++ num.drop index

/-- The loop of `format_with_commas` (Log.cpp 206-209). The first argument bounds the
number of iterations; the position drops by three in each one, so the length of the
string is enough. -/
def insert_commas : Nat → Int → List Char → List Char
  | 0, _, num => num
  | fuel + 1, insert_position, num =>
    if insert_position > 0 then
      insert_commas fuel (insert_position - 3) (string_insert num insert_position.toNat [','])
    else num

/-- The function `format_with_commas` (Log.cpp 203-211). The difference
`num.length() - 3` is taken in `size_t` and stored in an `int64_t`. -/
def format_with_commas (value : Int) : String :=
  let num := to_string value
  let insert_position := wrap_int64 (((num.data.length : Int) - 3) % 2 ^ 64)
  ⟨insert_commas num.data.length insert_position num.data⟩

/-! ## `containers/BiMap.hpp` -/

/-- The lookup `m.find(k)` of a `std::map`, held as a list of its entries. -/
def map_find {A B : Type} [DecidableEq A] : List (A × B) → A → Option B
  | [], _ => none
  | (a, b) :: rest, k => if a = k then some b else map_find rest k

/-- The call `m.count(k)` of a `std::map`: one when the key is there, else zero. -/
def map_count {A B : Type} [DecidableEq A] (m : List (A × B)) (k : A) : Nat :=
  if (map_find m k).isSome then 1 else 0

/-- The assignment `m[k] = v` of a `std::map`: the entry of an existing key is
overwritten, a new key gets a new entry. -/
def map_assign {A B : Type} [DecidableEq A] : List (A × B) → A → B → List (A × B)
  | [], k, v => [(k, v)]
  | (a, b) :: rest, k, v => if a = k then (a, v) :: rest else (a, b) :: map_assign rest k v

/-- The state of `class BiMap<K, V>`: the forward and the reverse `std::map`. The member
templates `at`, `contains` and `erase` pick the direction from the type `KV` of their
argument with an `if constexpr` chain that tests `is_same_v<KV, K> || is_convertible_v<KV,
K>` first. The embedding has one function for an argument of type `K`, which always takes
the first branch, and one for an argument of type `V`, which takes the first branch as
well when `V` converts to `K`: these functions have a parameter `to_key`, the implicit
conversion of a `V` to a `K` when `std::is_convertible_v<V, K>` holds and `none` when it
does not. -/
structure BiMap (K V : Type) where
  m_Fwd : List (K × V)
  m_Rev : List (V × K)

/-- The function `BiMap::insert` (BiMap.hpp 25-32): the returned flag and the map
afterwards. -/
def BiMap.insert {K V : Type} [DecidableEq K] [DecidableEq V] (b : BiMap K V) (k : K) (v : V) :
    Bool × BiMap K V :=
  if map_count b.m_Fwd k != 0 || map_count b.m_Rev v != 0 then (false, b)
  else (true, { m_Fwd := map_assign b.m_Fwd k v, m_Rev := map_assign b.m_Rev v k })

/-- The function `BiMap::at` on a key (BiMap.hpp 34-60). `none` is the path of a missing
key: the debug build logs an error and hands out a default-constructed value, the release
build lets `std::map::at` throw. -/
def BiMap.at_key {K V : Type} [DecidableEq K] (b : BiMap K V) (k : K) : Option V :=
  map_find b.m_Fwd k

/-- The function `BiMap::at` on an argument of type `V` (BiMap.hpp 34-60). When `V`
converts to `K` the first branch is compiled: the argument is converted and looked up in
the forward map, and a `V` comes back (`Sum.inr`). Otherwise the second branch looks the
argument up in the reverse map and a `K` comes back (`Sum.inl`). `none` as for `at_key`. -/
def BiMap.at_value {K V : Type} [DecidableEq K] [DecidableEq V] (b : BiMap K V)
    (to_key : Option (V → K)) (v : V) : Option (K ⊕ V) :=
  match to_key with
  | some c => (map_find b.m_Fwd (c v)).map Sum.inr
  | none => (map_find b.m_Rev v).map Sum.inl

/-- The function `BiMap::contains` on a key (BiMap.hpp 63-72). -/
def BiMap.contains_key {K V : Type} [DecidableEq K] (b : BiMap K V) (k : K) : Bool :=
  decide (map_count b.m_Fwd k > 0)

/-- The function `BiMap::contains` on an argument of type `V` (BiMap.hpp 63-72): the
count in the forward map of the converted argument when `V` converts to `K`, else the
count in the reverse map. -/
def BiMap.contains_value {K V : Type} [DecidableEq K] [DecidableEq V] (b : BiMap K V)
    (to_key : Option (V → K)) (v : V) : Bool :=
  match to_key with
  | some c => decide (map_count b.m_Fwd (c v) > 0)
  | none => decide (map_count b.m_Rev v > 0)

/-- The function `BiMap::size` (BiMap.hpp 139): the size of the forward map. -/
def BiMap.size {K V : Type} (b : BiMap K V) : Nat :=
  b.m_Fwd.length

/-- One use of the public interface of the logger: a `Config` operation on
`Logger::config()` or a logger call. -/
inductive Op where
  | set_level (level : ELevel)
  | set_to_console (to_console : Bool)
  | set_color (level : ELevel) (color : String)
  | set_level_name (level : ELevel) (name : String)
  | add_file (path : String)
  | add_callback (callback : Callback)
  | write (level : ELevel) (msg : String)
  | trace (msg : String)
  | info (msg : String)
  | warn (msg : String)
  | debug (msg : String)
  | error (msg : String)
  | assertion (file : String) (line : Int) (func : String) (expr : String) (msg : String)

/-- The effect of one use of the interface. -/
def Op.run (op : Op) (lg : Logger) (w : World) : Outcome :=
  match op with
  | .set_level level => .returned { lg with m_Cfg := lg.m_Cfg.set_level level } w
  | .set_to_console b => .returned { lg with m_Cfg := lg.m_Cfg.set_to_console b } w
  | .set_color level color => .returned { lg with m_Cfg := lg.m_Cfg.set_color level color } w
  | .set_level_name level name =>
    .returned { lg with m_Cfg := lg.m_Cfg.set_level_name level name } w
  | .add_file path => .returned { lg with m_Cfg := lg.m_Cfg.add_file path } w
  | .add_callback cb => .returned { lg with m_Cfg := lg.m_Cfg.add_callback cb } w
  | .write level msg => lg.write w level msg
  | .trace msg => lg.trace w msg
  | .info msg => lg.info w msg
  | .warn msg => lg.warn w msg
  | .debug msg => lg.debug w msg
  | .error msg => lg.error w msg
  | .assertion file line func expr msg => lg.assertion w file line func expr msg

/-- A sequence of uses of the interface, one after the other. -/
def run_ops : List Op → Logger → World → Outcome
  | [], lg, w => .returned lg w
  | op :: rest, lg, w => (op.run lg w).andThen (run_ops rest)

/-- Every callback invocation among the events ran with the reentrancy flag set. -/
def callbacks_saw_flag (new : List Event) : Prop :=
  ∀ i m r f, Event.callback i m r f ∈ new → f = true

/-- The display maps hold a name and a color for every severity. -/
def Config.has_all_entries (cfg : Config) : Prop :=
  ∀ l, (cfg.level_names l).isSome = true ∧ (cfg.level_colors l).isSome = true

/-- The events of one callback at position `i` of the dispatch of an emitted `write`:
its invocation and, when it returns an error string, the `ERROR` line of that string on
every enabled sink, formatted at clock reading `k`. -/
def one_callback_events (lg : Logger) (w : World) (msg : Message) (i : Nat) (cb : Callback)
    (k : Nat) : List Event :=
  Event.callback i msg (cb msg) true ::
    match cb msg with
    | none => []
    | some e =>
      (lg.m_Cfg.log_files.filter w.openable).map
          (fun q => Event.file_append q (lg.format { w with ticks := k } .ERROR e).1) ++
        (if lg.m_Cfg.to_console then
          [Event.console (lg.format { w with ticks := k } .ERROR e).1] else [])

/-! ## Threads inside `Logger::write` -/

/-- Where a thread stands inside `Logger::write`: before the severity filter (Log.cpp
47), before the read of `bInCallbacks` (51), before the `scoped_lock` (60), holding the
lock before the dispatch (62-73), holding the lock inside `handle_callbacks` with the
flag set (130-140), before the lock is released (76), and after the return. -/
inductive Pc where
  | at_filter
  | at_flag_check
  | at_lock
  | in_dispatch
  | in_callbacks (msg : Message)
  | at_unlock
  | done
  deriving DecidableEq, Repr

/-- A thread that runs one call `write(level, msg)`. -/
structure Thread where
  level : ELevel
  msg : String
  pc : Pc
  deriving DecidableEq, Repr

/-- The process: the shared logger `s_Logger`, the world, the owner of `m_Mutex`, the
threads, and the thread that called `std::abort()`. -/
structure System where
  lg : Logger
  w : World
  mutex : Option Nat
  threads : List Thread
  aborted : Option Nat

/-- The system with thread `t` moved to program point `pc`. -/
def System.goto (s : System) (t : Nat) (pc : Pc) : System :=
  { s with threads := s.threads.modify (fun th => { th with pc := pc }) t }

/-- One step of thread `t`, statement by statement as in `Logger::write`; a thread that
waits for the mutex, a finished thread and every thread of an aborted process stay
where they are. The callback loop of `handle_callbacks` is one step. -/
def System.step (s : System) (t : Nat) : System :=
  if s.aborted.isSome then s
  else
    match s.threads[t]? with
    | none => s
    | some th =>
      match th.pc with
      | .at_filter =>
        if th.level.toInt > s.lg.m_Cfg.level.toInt then s.goto t .done
        else s.goto t .at_flag_check
      | .at_flag_check =>
        if s.lg.bInCallbacks then { s with w := s.lg.reentrancy_abort s.w, aborted := some t }
        else s.goto t .at_lock
      | .at_lock =>
        match s.mutex with
        | none => { s with mutex := some t }.goto t .in_dispatch
        | some _ => s
      | .in_dispatch =>
        let f := s.lg.format s.w th.level th.msg
        let w1 := f.2.1.write_files f.2.2 f.1
        let w2 := if f.2.1.m_Cfg.to_console then w1.write_console f.1 else w1
        if !f.2.1.m_Cfg.callbacks.isEmpty then
          let c := w2.current_time
          { s with lg := { f.2.1 with bInCallbacks := true }, w := c.2 }.goto t
            (.in_callbacks { timestamp := c.1, text := f.1, level := th.level })
        else { s with lg := f.2.1, w := w2 }.goto t .at_unlock
      | .in_callbacks msg =>
        let r := handle_callbacks_loop msg s.lg.m_Cfg.callbacks 0 s.lg s.w
        { s with lg := { r.1 with bInCallbacks := false }, w := r.2 }.goto t .at_unlock
      | .at_unlock => { s with mutex := none }.goto t .done
      | .done => s

/-- A schedule: the threads take steps in the listed order. -/
def System.run (s : System) (schedule : List Nat) : System :=
  schedule.foldl System.step s

/-- A process with one thread about to call `write(level, msg)`. -/
def System.single (lg : Logger) (w : World) (level : ELevel) (msg : String) : System :=
  { lg := lg, w := w, mutex := none, threads := [⟨level, msg, .at_filter⟩], aborted := none }

/-- The call `m.erase(k)` of a `std::map`: the entry of the key is taken out, a map
without the key is left as it is. -/
def map_erase {A B : Type} [DecidableEq A] : List (A × B) → A → List (A × B)
  | [], _ => []
  | (a, b) :: rest, k => if a = k then rest else (a, b) :: map_erase rest k

/-- A default-constructed `BiMap`: both maps empty. -/
def BiMap.ctor {K V : Type} : BiMap K V :=
  { m_Fwd := [], m_Rev := [] }

/-- The function `BiMap::erase` on a key (BiMap.hpp 74-88): the returned flag and the map
afterwards. On a missing key the debug build logs a warning before it returns `false`;
the map is the same in both builds. -/
def BiMap.erase_key {K V : Type} [DecidableEq K] [DecidableEq V] (b : BiMap K V) (k : K) :
    Bool × BiMap K V :=
  match map_find b.m_Fwd k with
  | none => (false, b)
  | some v => (true, { m_Fwd := map_erase b.m_Fwd k, m_Rev := map_erase b.m_Rev v })

/-- The function `BiMap::erase` on an argument of type `V` (BiMap.hpp 74-105): the first
branch (76-88) on the converted argument when `V` converts to `K`, else the second branch
(89-101). -/
def BiMap.erase_value {K V : Type} [DecidableEq K] [DecidableEq V] (b : BiMap K V)
    (to_key : Option (V → K)) (v : V) : Bool × BiMap K V :=
  match to_key with
  | some c => b.erase_key (c v)
  | none =>
    match map_find b.m_Rev v with
    | none => (false, b)
    | some k => (true, { m_Fwd := map_erase b.m_Fwd k, m_Rev := map_erase b.m_Rev v })

/-- The function `BiMap::operator[]` on a key (BiMap.hpp 107-109), `return m_Fwd[k]`: the
value read and the map afterwards. A missing key is inserted into the forward map with a
default-constructed value (`default` stands for `V{}`); the reverse map is not touched. -/
def BiMap.index_key {K V : Type} [DecidableEq K] [Inhabited V] (b : BiMap K V) (k : K) :
    V × BiMap K V :=
  match map_find b.m_Fwd k with
  | some v => (v, b)
  | none => (default, { b with m_Fwd := map_assign b.m_Fwd k default })

/-- The function `BiMap::operator[]` on a value (BiMap.hpp 111-113), `return m_Rev[v]`. The
two `operator[]` are overloads, not branches of one template: this one is the reverse map
for every `V`. -/
def BiMap.index_value {K V : Type} [DecidableEq V] [Inhabited K] (b : BiMap K V) (v : V) :
    K × BiMap K V :=
  match map_find b.m_Rev v with
  | some k => (k, b)
  | none => (default, { b with m_Rev := map_assign b.m_Rev v default })

/-- The function `BiMap::clear` (BiMap.hpp 141). -/
def BiMap.clear {K V : Type} (_b : BiMap K V) : BiMap K V :=
  { m_Fwd := [], m_Rev := [] }

/-- The function `BiMap::left_map` (BiMap.hpp 143). -/
def BiMap.left_map {K V : Type} (b : BiMap K V) : List (K × V) :=
  b.m_Fwd

/-- The function `BiMap::right_map` (BiMap.hpp 144). -/
def BiMap.right_map {K V : Type} (b : BiMap K V) : List (V × K) :=
  b.m_Rev

/-- One public mutating operation of a `BiMap`. -/
inductive BiMapOp (K V : Type) where
  | insert (k : K) (v : V)
  | erase_key (k : K)
  | erase_value (v : V)
  | clear
  | index_key (k : K)
  | index_value (v : V)

/-- The map after one operation; what the operation returns is dropped. -/
def BiMapOp.run {K V : Type} [DecidableEq K] [DecidableEq V] [Inhabited K] [Inhabited V]
    (to_key : Option (V → K)) : BiMapOp K V → BiMap K V → BiMap K V
  | .insert k v, b => (b.insert k v).2
  | .erase_key k, b => (b.erase_key k).2
  | .erase_value v, b => (b.erase_value to_key v).2
  | .clear, b => b.clear
  | .index_key k, b => (b.index_key k).2
  | .index_value v, b => (b.index_value v).2

/-- The map after a sequence of operations, the first of the list first. -/
def run_bimap_ops {K V : Type} [DecidableEq K] [DecidableEq V] [Inhabited K] [Inhabited V]
    (to_key : Option (V → K)) (ops : List (BiMapOp K V)) (b : BiMap K V) : BiMap K V :=
  ops.foldl (fun acc op => op.run to_key acc) b

/-- Whether the operation is one of the two `operator[]`. -/
def BiMapOp.is_index {K V : Type} : BiMapOp K V → Bool
  | .index_key _ => true
  | .index_value _ => true
  | _ => false

/-- The two directions are mutually inverse: the forward map sends `k` to `v` if and only
if the reverse map sends `v` to `k`. -/
def BiMap.mutually_inverse {K V : Type} [DecidableEq K] [DecidableEq V] (b : BiMap K V) :
    Prop :=
  ∀ k v, map_find b.m_Fwd k = some v ↔ map_find b.m_Rev v = some k

/-- No key of the map has two entries, as in every `std::map`. -/
def unique_keys {A B : Type} (m : List (A × B)) : Prop :=
  (m.map Prod.fst).Nodup

/-- The state that `insert`, `erase` and `clear` keep: two maps with unique keys and equally
many entries that are mutually inverse. -/
def BiMap.in_sync {K V : Type} [DecidableEq K] [DecidableEq V] (b : BiMap K V) : Prop :=
  unique_keys b.m_Fwd ∧ unique_keys b.m_Rev ∧ b.mutually_inverse ∧
    b.m_Fwd.length = b.m_Rev.length

/-- For a key with an entry, whether `contains(k)` agrees with `contains(at(k))`. The call
`at(k)` on a key without entry is the error path of `at_key` and is left out. -/
def BiMap.contains_agree {K V : Type} [DecidableEq K] [DecidableEq V] (b : BiMap K V)
    (to_key : Option (V → K)) (k : K) : Bool :=
  match b.at_key k with
  | some v => b.contains_key k == b.contains_value to_key v
  | none => true

/-- The implicit conversion of a `long` to an `int`: the value modulo `2^32` in the range
of a 32-bit two's-complement integer. -/
def long_to_int (v : Int) : Int :=
  (v + 2 ^ 31) % 2 ^ 32 - 2 ^ 31

/-! ## Sample inputs -/

/-- The local time 5 January 2024, 09:08:07. -/
def sample_time : LocalTm :=
  ⟨{ tm_sec := 7, tm_min := 8, tm_hour := 9, tm_mday := 5, tm_mon := 0, tm_year := 124 },
    by decide, by decide⟩

/-- A world whose clock stands still, in which every path opens and nothing has been
written yet. -/
def sample_world : World :=
  { clock := fun _ => sample_time
    ticks := 0
    func_sig := "void aby::log::Logger::write(aby::log::ELevel, const std::string&)"
    openable := fun _ => true
    files := fun _ => ""
    stdout := ""
    trace := [] }

/-- The default logger after `add_file("a.log")` and the registration of a callback that
never returns an error. -/
def sample_logger : Logger :=
  { Logger.ctor with
    m_Cfg := (Logger.ctor.m_Cfg.add_file "a.log").add_callback (fun _ => none) }

/-- The default logger with the threshold set to `WARN` through `set_level`. -/
def warn_logger : Logger :=
  { Logger.ctor with m_Cfg := Logger.ctor.m_Cfg.set_level .WARN }

/-- The three calls `info("x")`, `warn("y")`, `error("z")`, one after the other. -/
def info_warn_error (lg : Logger) (w : World) : Outcome :=
  ((lg.info w "x").andThen fun lg1 w1 => lg1.warn w1 "y").andThen
    fun lg2 w2 => lg2.error w2 "z"

/-- The logger `warn_logger` as a callback sees it: the reentrancy flag is set. -/
def reentrant_logger : Logger :=
  { warn_logger with bInCallbacks := true }

/-- The program of `main.cpp`: one callback that always returns an error string is
registered on the default logger. -/
def main_logger : Logger :=
  Logger.ctor.add_callbacks [fun _ => some "Oh No An Error Occured"]

/-- The default logger with a silent callback and an erring callback registered. -/
def two_callback_logger : Logger :=
  Logger.ctor.add_callbacks [fun _ => none, fun _ => some "failed"]

/-- The default logger with the threshold set to `NONE` through `set_level`. -/
def none_logger : Logger :=
  { Logger.ctor with m_Cfg := Logger.ctor.m_Cfg.set_level .NONE }

/-- The default logger after its `INFO` name entry was erased from `level_names` (the
fields of `Config` are public). -/
def nameless_logger : Logger :=
  { Logger.ctor with
    m_Cfg := { Logger.ctor.m_Cfg with
      level_names := fun l => if l = .INFO then none else Logger.ctor.m_Cfg.level_names l } }

/-- The default logger after `add_file(p1)` and `add_file(p2)`. -/
def two_file_logger (p1 p2 : String) : Logger :=
  { Logger.ctor with m_Cfg := (Logger.ctor.m_Cfg.add_file p1).add_file p2 }

/-- The sample world in which the path `locked.log` does not open. -/
def locked_world : World :=
  { sample_world with openable := fun p => p != "locked.log" }

/-- The default logger after `add_file("locked.log")`, `add_file("a.log")` and the
registration of a callback that always returns an error. -/
def locked_file_logger : Logger :=
  { Logger.ctor with
    m_Cfg := ((Logger.ctor.m_Cfg.add_file "locked.log").add_file "a.log").add_callback
      (fun _ => some "failed") }

/-- The default logger after `add_file("a.log")` twice and the registration of a callback
that always returns an error. -/
def twice_file_logger : Logger :=
  { Logger.ctor with
    m_Cfg := ((Logger.ctor.m_Cfg.add_file "a.log").add_file "a.log").add_callback
      (fun _ => some "failed") }

/-- A map from numbers to names with the pairs (1, one) and (2, two). -/
def sample_bimap : BiMap Nat String :=
  { m_Fwd := [(1, "one"), (2, "two")], m_Rev := [("one", 1), ("two", 2)] }

/-- A session on the interface: a threshold, a color, a file, a callback and two calls. -/
def sample_ops : List Op :=
  [.set_level .DEBUG, .set_color .INFO "", .add_file "a.log", .add_callback (fun _ => some "e"),
    .info "x", .error "dropped", .set_level_name .ERROR "E", .write .TRACE "y"]

/-- The program of `main.cpp` with the file `a.log`, and two threads that each call
`write(INFO, .)`. -/
def race_start : System :=
  { lg := { main_logger with m_Cfg := main_logger.m_Cfg.add_file "a.log" }
    w := sample_world
    mutex := none
    threads := [⟨.INFO, "first", .at_filter⟩, ⟨.INFO, "second", .at_filter⟩]
    aborted := none }

/-- Thread 0 passes the filter and the flag check, takes the lock and dispatches up to
the start of the callback loop; then thread 1 passes the filter and reads the flag. -/
def race_schedule : List Nat :=
  [0, 0, 0, 0, 1, 1]

/-- The default logger with the threshold set to `WARN` and a callback that always
returns an error. -/
def warn_callback_logger : Logger :=
  { warn_logger with
    m_Cfg := (warn_logger.m_Cfg.add_file "a.log").add_callback (fun _ => some "failed") }

/-- The session `BiMap<int, std::string> b; b[1];`. -/
def index_only_ops : List (BiMapOp Nat String) :=
  [.index_key 1]

/-- A session with insertions, a refused insertion, erasures in both directions and a
clear. -/
def sync_ops : List (BiMapOp Nat String) :=
  [.insert 1 "one", .insert 2 "two", .insert 1 "uno", .erase_key 1, .insert 3 "three",
    .erase_value "two", .clear, .insert 4 "four", .insert 5 "five", .erase_key 9]

/-- The session `BiMap<int, std::string> b; b[std::string("x")];`. -/
def index_value_ops : List (BiMapOp Nat String) :=
  [.index_value "x"]

/-- The state of `BiMap<int, long> b; b.insert(1, 100L);`, both types held as `Int`. -/
def long_bimap : BiMap Int Int :=
  { m_Fwd := [(1, 100)], m_Rev := [(100, 1)] }

/-- The state of `BiMap<int, long> b; b.insert(1, 2L); b.insert(2, 5L);`. -/
def long_pairs : BiMap Int Int :=
  { m_Fwd := [(1, 2), (2, 5)], m_Rev := [(2, 1), (5, 2)] }

/-- The two threads of `race_start` on the default logger with the file `a.log` and no
callback. -/
def quiet_race_start : System :=
  { race_start with
    lg := { Logger.ctor with m_Cfg := Logger.ctor.m_Cfg.add_file "a.log" } }

/-- The two threads take turns up to the lock; thread 0 gets it, thread 1 waits, thread 0
dispatches and releases, then thread 1 takes the lock, dispatches and releases. -/
def quiet_schedule : List Nat :=
  [0, 1, 0, 1, 0, 1, 0, 0, 1, 1, 1]

/-! ## Basic facts -/

theorem position_eq_toInt (l : ELevel) : (l.position : Int) = l.toInt := by
  cases l <;> rfl

theorem std_format_line (t c n m : String) :
    std_format "[\x7b\x7d] [\x7b\x7d\x7b\x7d\x7b\x7d] \x7b\x7d\n"
      [.str t, .str c, .str n, .str COLOR_RESET, .str m] = formatted_line t c n m := by
  apply String.ext
  simp [std_format, std_format_go, render, formatted_line, COLOR_RESET]

theorem map_index_fst (m : LevelMap) (k : ELevel) : (map_index m k).1 = (m k).getD "" := by
  unfold map_index
  cases m k <;> rfl

theorem map_index_snd_self (m : LevelMap) (k : ELevel) :
    (map_index m k).2 k = some ((m k).getD "") := by
  unfold map_index
  cases h : m k <;> simp [h]

theorem map_index_snd_getD (m : LevelMap) (k j : ELevel) :
    ((map_index m k).2 j).getD "" = (m j).getD "" := by
  unfold map_index
  cases h : m k
  · by_cases hj : j = k
    · subst hj; simp [h]
    · simp [hj]
  · rfl

theorem format_fst (lg : Logger) (w : World) (l : ELevel) (msg : String) :
    (lg.format w l msg).1 = lg.line (w.clock w.ticks).timestamp l msg := by
  simp only [Logger.format, World.current_time, map_index_fst, std_format_line, Logger.line,
    Config.color_of, Config.name_of]

theorem repeat_string_succ (s : String) (n : Nat) :
    repeat_string s (n + 1) = s ++ repeat_string s n := rfl

theorem write_files_loop_eq (s : String) (paths : List String) (w : World) :
    write_files_loop s paths w =
      { w with
        files := fun p => w.files p ++ repeat_string s ((paths.filter w.openable).count p)
        trace := w.trace ++ (paths.filter w.openable).map (fun p => Event.file_append p s) } := by
  induction paths generalizing w with
  | nil => simp [write_files_loop, repeat_string]
  | cons path rest ih =>
    simp only [write_files_loop]
    by_cases h : w.openable path = true
    · rw [if_pos h, ih]
      simp only [World.append_file, List.filter_cons, h, if_true, List.map_cons,
        List.append_assoc, List.singleton_append, List.count_cons]
      congr 1
      funext p
      by_cases hp : p = path
      · subst hp
        simp [repeat_string_succ, String.append_assoc]
      · have hp2 : (path == p) = false := by simpa using fun h => hp h.symm
        simp [hp, hp2]
    · rw [if_neg h, ih]
      simp [List.filter_cons, h]

theorem emit_eq (lg : Logger) (w : World) (l : ELevel) (text : String) :
    (if (lg.format w l text).2.1.m_Cfg.to_console = true then
        ((lg.format w l text).2.1.write_files (lg.format w l text).2.2
          (lg.format w l text).1).write_console (lg.format w l text).1
      else (lg.format w l text).2.1.write_files (lg.format w l text).2.2 (lg.format w l text).1) =
      after_message lg w (lg.line (w.clock w.ticks).timestamp l text) := by
  rw [format_fst]
  simp only [Logger.write_files, write_files_loop_eq, Logger.format, World.current_time,
    World.write_console, after_message, sink_events]
  cases lg.m_Cfg.to_console <;> simp

theorem handle_callbacks_loop_spec (lg0 : Logger) (w0 : World) (msg : Message)
    (cbs : List Callback) :
    ∀ (idx : Nat) (lg : Logger) (w : World),
      lg.m_Cfg.log_files = lg0.m_Cfg.log_files →
      lg.m_Cfg.to_console = lg0.m_Cfg.to_console →
      (∀ l, lg.m_Cfg.name_of l = lg0.m_Cfg.name_of l) →
      (∀ l, lg.m_Cfg.color_of l = lg0.m_Cfg.color_of l) →
      lg.bInCallbacks = true →
      w.openable = w0.openable →
      w.clock = w0.clock →
      (handle_callbacks_loop msg cbs idx lg w).2.trace =
        w.trace ++ callback_events lg0 w0 msg cbs idx w.ticks := by
  induction cbs with
  | nil => intro idx lg w _ _ _ _ _ _ _; simp [handle_callbacks_loop, callback_events]
  | cons cb rest ih =>
    intro idx lg w hfiles hcon hname hcolor hflag hopen hclock
    simp only [handle_callbacks_loop, callback_events]
    cases hcb : cb msg with
    | none =>
      simp only
      rw [ih (idx + 1) lg _ hfiles hcon hname hcolor hflag (by simpa using hopen)
        (by simpa using hclock)]
      simp [hflag]
    | some e =>
      simp only
      rw [emit_eq]
      rw [ih (idx + 1) _ _ (by simpa [Logger.format] using hfiles)
        (by simpa [Logger.format] using hcon)
        (by intro l; simpa [Logger.format, Config.name_of, map_index_snd_getD] using hname l)
        (by intro l; simpa [Logger.format, Config.color_of, map_index_snd_getD] using hcolor l)
        (by simpa [Logger.format] using hflag)
        (by simpa [after_message] using hopen)
        (by simpa [after_message] using hclock)]
      simp only [after_message, sink_events, Logger.line, hfiles, hcon, hname, hcolor, hopen,
        hclock, hflag, List.append_assoc, List.singleton_append, List.cons_append, List.nil_append]

theorem map_index_snd_mono (m : LevelMap) (k l : ELevel) (v : String) (h : m l = some v) :
    (map_index m k).2 l = some v := by
  unfold map_index
  cases hk : m k
  · by_cases hl : l = k
    · subst hl; rw [hk] at h; cases h
    · simp [hl, h]
  · simpa using h

theorem kept_in_refl (a : Logger) : a.kept_in a :=
  ⟨rfl, rfl, rfl, rfl, rfl, fun _ _ h => h, fun _ _ h => h⟩

theorem kept_in_trans {a b c : Logger} (hab : a.kept_in b) (hbc : b.kept_in c) : a.kept_in c := by
  obtain ⟨h1, h2, h3, h4, h5, h6, h7⟩ := hab
  obtain ⟨k1, k2, k3, k4, k5, k6, k7⟩ := hbc
  exact ⟨k1.trans h1, k2.trans h2, k3.trans h3, k4.trans h4, k5.trans h5,
    fun l v h => k6 l v (h6 l v h), fun l v h => k7 l v (h7 l v h)⟩

theorem format_kept_in (lg : Logger) (w : World) (l : ELevel) (msg : String) :
    lg.kept_in (lg.format w l msg).2.1 :=
  ⟨rfl, rfl, rfl, rfl, rfl, fun j v h => map_index_snd_mono _ l j v h,
    fun j v h => map_index_snd_mono _ l j v h⟩

theorem handle_callbacks_loop_kept_in (msg : Message) (cbs : List Callback) :
    ∀ (idx : Nat) (lg : Logger) (w : World),
      lg.kept_in (handle_callbacks_loop msg cbs idx lg w).1 := by
  induction cbs with
  | nil => intro idx lg w; exact kept_in_refl lg
  | cons cb rest ih =>
    intro idx lg w
    simp only [handle_callbacks_loop]
    cases hcb : cb msg with
    | none => exact ih _ _ _
    | some e => exact kept_in_trans (format_kept_in lg _ .ERROR e) (ih _ _ _)

theorem handle_callbacks_loop_of_none (msg : Message) (cbs : List Callback)
    (hnone : ∀ cb ∈ cbs, cb msg = none) :
    ∀ (idx : Nat) (lg : Logger) (w : World),
      handle_callbacks_loop msg cbs idx lg w =
        (lg, { w with
          trace := w.trace ++
            (cbs.enumFrom idx).map (fun p => Event.callback p.1 msg (p.2 msg) lg.bInCallbacks) }) := by
  induction cbs with
  | nil => intro idx lg w; simp [handle_callbacks_loop]
  | cons cb rest ih =>
    intro idx lg w
    have hcb : cb msg = none := hnone cb (List.mem_cons_self _ _)
    simp only [handle_callbacks_loop, hcb]
    rw [ih (fun c hc => hnone c (List.mem_cons_of_mem _ hc))]
    simp [List.enumFrom_cons, hcb]

theorem write_of_filtered (lg : Logger) (w : World) (S : ELevel) (text : String)
    (h : lg.m_Cfg.level.toInt < S.toInt) : lg.write w S text = .returned lg w := by
  simp [Logger.write, h]

theorem write_of_reentrant (lg : Logger) (w : World) (S : ELevel) (text : String)
    (h : S.toInt ≤ lg.m_Cfg.level.toInt) (hflag : lg.bInCallbacks = true) :
    lg.write w S text = .aborted (lg.reentrancy_abort w) := by
  simp [Logger.write, not_lt.mpr h, hflag]

theorem write_emitted (lg : Logger) (w : World) (S : ELevel) (text : String)
    (hflag : lg.bInCallbacks = false) (h : S.toInt ≤ lg.m_Cfg.level.toInt) :
    ∃ lg' w', lg.write w S text = .returned lg' w' ∧
      (lg.format w S text).2.1.kept_in lg' ∧
      w'.trace = w.trace ++ sink_events lg w (lg.line (w.clock w.ticks).timestamp S text) ++
        callback_events lg w (emitted_message lg w S text) lg.m_Cfg.callbacks 0 (w.ticks + 2) := by
  simp only [Logger.write, not_lt.mpr h, hflag, if_false, Bool.false_eq_true]
  rw [emit_eq]
  cases hcbs : lg.m_Cfg.callbacks with
  | nil =>
    have h1 : (lg.format w S text).2.1.m_Cfg.callbacks = [] := hcbs
    simp only [h1, List.isEmpty_nil, Bool.not_true, Bool.false_eq_true, if_false]
    exact ⟨_, _, rfl, kept_in_refl _, by simp [after_message, callback_events]⟩
  | cons cb rest =>
    have h1 : (lg.format w S text).2.1.m_Cfg.callbacks = cb :: rest := hcbs
    simp only [h1, List.isEmpty_cons, Bool.not_false, if_true]
    refine ⟨_, _, rfl, ?_, ?_⟩
    · simp only [Logger.handle_callbacks]
      obtain ⟨k1, k2, k3, k4, k5, k6, k7⟩ := handle_callbacks_loop_kept_in
        { timestamp := (after_message lg w
            (lg.line (w.clock w.ticks).timestamp S text)).current_time.1,
          text := (lg.format w S text).1, level := S }
        ({ (lg.format w S text).2.1 with bInCallbacks := true }).m_Cfg.callbacks 0
        { (lg.format w S text).2.1 with bInCallbacks := true }
        (after_message lg w (lg.line (w.clock w.ticks).timestamp S text)).current_time.2
      exact ⟨hflag.symm, k2, k3, k4, k5, k6, k7⟩
    · simp only [Logger.handle_callbacks]
      rw [handle_callbacks_loop_spec lg w _ _ 0
        { (lg.format w S text).2.1 with bInCallbacks := true }
        (after_message lg w (lg.line (w.clock w.ticks).timestamp S text)).current_time.2
        rfl rfl
        (by intro l; simp [Logger.format, Config.name_of, map_index_snd_getD])
        (by intro l; simp [Logger.format, Config.color_of, map_index_snd_getD])
        rfl rfl rfl]
      simp only [format_fst, h1, World.current_time, after_message, emitted_message]

theorem position_le_iff (a b : ELevel) : a.position ≤ b.position ↔ a.toInt ≤ b.toInt := by
  rw [← position_eq_toInt, ← position_eq_toInt]
  exact Int.ofNat_le.symm

theorem position_lt_iff (a b : ELevel) : a.position < b.position ↔ a.toInt < b.toInt := by
  rw [← position_eq_toInt, ← position_eq_toInt]
  exact Int.ofNat_lt.symm

theorem count_filter_openable (openable : String → Bool) (paths : List String) (p : String) :
    (paths.filter openable).count p = if openable p then paths.count p else 0 := by
  by_cases hp : openable p = true
  · rw [if_pos hp, List.count_filter hp]
  · rw [if_neg hp, List.count_eq_zero]
    intro hmem
    exact hp (List.mem_filter.mp hmem).2

theorem write_no_callbacks (lg : Logger) (w : World) (S : ELevel) (text : String)
    (hflag : lg.bInCallbacks = false) (h : S.toInt ≤ lg.m_Cfg.level.toInt)
    (hcbs : lg.m_Cfg.callbacks = []) :
    lg.write w S text = .returned (lg.format w S text).2.1
      (after_message lg w (lg.line (w.clock w.ticks).timestamp S text)) := by
  simp only [Logger.write, not_lt.mpr h, hflag, if_false, Bool.false_eq_true]
  rw [emit_eq]
  have h1 : (lg.format w S text).2.1.m_Cfg.callbacks = [] := hcbs
  simp [h1]

theorem emitted_message_eq (lg : Logger) (w : World) (S : ELevel) (text : String) :
    Message.mk (after_message lg w (lg.line (w.clock w.ticks).timestamp S text)).current_time.1
      (lg.format w S text).1 S = emitted_message lg w S text := by
  simp [format_fst, World.current_time, after_message, emitted_message]

theorem write_emitted_of_none (lg : Logger) (w : World) (S : ELevel) (text : String)
    (hflag : lg.bInCallbacks = false) (h : S.toInt ≤ lg.m_Cfg.level.toInt)
    (hnone : ∀ cb ∈ lg.m_Cfg.callbacks, cb (emitted_message lg w S text) = none) :
    lg.write w S text = .returned (lg.format w S text).2.1
      { after_message lg w (lg.line (w.clock w.ticks).timestamp S text) with
        ticks := w.ticks + (if lg.m_Cfg.callbacks.isEmpty then 1 else 2)
        trace := w.trace ++ sink_events lg w (lg.line (w.clock w.ticks).timestamp S text) ++
          lg.m_Cfg.callbacks.enum.map
            (fun p => Event.callback p.1 (emitted_message lg w S text) none true) } := by
  simp only [Logger.write, not_lt.mpr h, hflag, if_false, Bool.false_eq_true]
  rw [emit_eq]
  cases hcbs : lg.m_Cfg.callbacks with
  | nil =>
    have h1 : (lg.format w S text).2.1.m_Cfg.callbacks = [] := hcbs
    simp [h1, after_message]
  | cons cb rest =>
    have h1 : (lg.format w S text).2.1.m_Cfg.callbacks = cb :: rest := hcbs
    have h2 : (lg.format w S text).2.1.bInCallbacks = false := hflag
    have hn : ∀ c ∈ cb :: rest, c (emitted_message lg w S text) = none :=
      fun c hc => hnone c (hcbs ▸ hc)
    simp only [h1, List.isEmpty_cons, Bool.not_false, if_true, Logger.handle_callbacks,
      emitted_message_eq]
    rw [handle_callbacks_loop_of_none _ _ hn]
    simp only [Outcome.returned.injEq]
    constructor
    · cases hf : (lg.format w S text).2.1 with
      | mk cfg flag => rw [hf] at h2; simp at h2; simp [h2]
    · simp only [World.current_time, after_message, List.enum, Bool.false_eq_true, if_false,
        List.append_assoc]
      congr 2
      congr 1
      apply List.map_congr_left
      intro p hp
      rw [hn p.2 (List.snd_mem_of_mem_enumFrom hp)]

/-! ## C1: the severity filter -/

/-- C1. On a logger whose reentrancy flag is clear: a `write` whose severity stands
after the threshold in the order NONE, TRACE, INFO, WARN, DEBUG, ERROR, ASSERT, ALL
returns with the logger and the world untouched (no file append, no console write, no
callback invocation); a `write` whose severity stands at or before the threshold, when no
callback returns an error, appends the formatted message once per openable entry of the
file list, writes it to the console exactly when the console flag is on, and does nothing
else but invoke the callbacks. -/
theorem C1_write_severity_filter (lg : Logger) (w : World) (S : ELevel) (text : String)
    (hflag : lg.bInCallbacks = false) :
    (lg.m_Cfg.level.position < S.position → lg.write w S text = .returned lg w) ∧
    (S.position ≤ lg.m_Cfg.level.position →
      (∀ cb ∈ lg.m_Cfg.callbacks, ∀ m, cb m = none) →
      ∃ lg' w', lg.write w S text = .returned lg' w' ∧
        w'.trace = w.trace ++
          ((lg.m_Cfg.log_files.filter w.openable).map
              (fun p => Event.file_append p (lg.format w S text).1) ++
            (if lg.m_Cfg.to_console then [Event.console (lg.format w S text).1] else [])) ++
          lg.m_Cfg.callbacks.enum.map
            (fun p => Event.callback p.1 (emitted_message lg w S text) none true) ∧
        (∀ p, w'.files p = w.files p ++
          repeat_string (lg.format w S text).1
            (if w.openable p then lg.m_Cfg.log_files.count p else 0)) ∧
        w'.stdout = w.stdout ++ (if lg.m_Cfg.to_console then (lg.format w S text).1 else "")) := by
  constructor
  · intro h
    exact write_of_filtered lg w S text ((position_lt_iff _ _).mp h)
  · intro h hnone
    refine ⟨_, _, write_emitted_of_none lg w S text hflag ((position_le_iff _ _).mp h)
      (fun cb hcb => hnone cb hcb _), ?_, ?_, ?_⟩
    · simp only [format_fst, sink_events]
    · intro p
      simp only [format_fst, after_message, count_filter_openable]
    · simp only [format_fst, after_message]

/-- C1 at the default logger with the file `a.log` and one silent callback, for an INFO
message in the sample world. -/
theorem C1_write_severity_filter_witness :
    sample_logger.bInCallbacks = false ∧
    ELevel.INFO.position ≤ sample_logger.m_Cfg.level.position ∧
    (∀ cb ∈ sample_logger.m_Cfg.callbacks, ∀ m, cb m = none) ∧
    ∃ lg' w', sample_logger.write sample_world .INFO "x" = .returned lg' w' ∧
      w'.trace.length = 3 ∧
      w'.files "a.log" = "[05-Jan-2024•09:08:07] [\x1b[32mINFO\x1b[0m] x\n" ∧
      w'.stdout = "[05-Jan-2024•09:08:07] [\x1b[32mINFO\x1b[0m] x\n" :=
  ⟨rfl, by decide, by intro cb hcb m; simp [sample_logger, Logger.ctor, Config.add_file,
      Config.add_callback] at hcb; rw [hcb], by
    obtain ⟨lg', w', h1, h2, h3, h4⟩ :=
      (C1_write_severity_filter sample_logger sample_world .INFO "x" rfl).2 (by decide)
        (by intro cb hcb m; simp [sample_logger, Logger.ctor, Config.add_file,
          Config.add_callback] at hcb; rw [hcb])
    exact ⟨lg', w', h1, by rw [h2]; rfl, by rw [h3]; decide, by rw [h4]; decide⟩⟩

/-! ## C2: threshold `WARN`, then `info`, `warn`, `error` -/

/-- C2, as stated, fails: with the threshold set to `WARN` on the default logger, the
calls `info("x")`, `warn("y")`, `error("z")` write the INFO line and the WARN line to the
console and nothing for the ERROR message. -/
theorem C2_counterexample :
    ∃ lg' w', info_warn_error warn_logger sample_world = .returned lg' w' ∧
      w'.trace =
        [Event.console "[05-Jan-2024•09:08:07] [\x1b[32mINFO\x1b[0m] x\n",
         Event.console "[05-Jan-2024•09:08:07] [\x1b[33mWARN\x1b[0m] y\n"] ∧
      w'.trace ≠
        [Event.console "[05-Jan-2024•09:08:07] [\x1b[33mWARN\x1b[0m] y\n",
         Event.console "[05-Jan-2024•09:08:07] [\x1b[31mERROR\x1b[0m] z\n"] :=
  ⟨_, _, rfl, by decide, by decide⟩

/-- C2, amended. With the threshold at `WARN`, the console on, no callbacks and the
reentrancy flag clear, the calls `info("x")`, `warn("y")`, `error("z")` return and put
exactly two messages on the enabled sinks, the INFO message and then the WARN message,
and none for the ERROR message; with no file configured these are exactly two console
writes. -/
theorem C2_info_warn_error (lg : Logger) (w : World) (hlevel : lg.m_Cfg.level = .WARN)
    (hconsole : lg.m_Cfg.to_console = true) (hcbs : lg.m_Cfg.callbacks = [])
    (hflag : lg.bInCallbacks = false) :
    ∃ lg' w', info_warn_error lg w = .returned lg' w' ∧
      w'.trace = w.trace ++
        sink_events lg w (lg.format w .INFO "x").1 ++
        sink_events lg w (lg.format { w with ticks := w.ticks + 1 } .WARN "y").1 ∧
      (lg.m_Cfg.log_files = [] →
        w'.trace = w.trace ++
          [Event.console (lg.format w .INFO "x").1,
           Event.console (lg.format { w with ticks := w.ticks + 1 } .WARN "y").1]) := by
  simp only [format_fst]
  have hx := write_no_callbacks lg w .INFO "x" hflag (by rw [hlevel]; decide) hcbs
  have hy := write_no_callbacks (lg.format w .INFO "x").2.1
    (after_message lg w (lg.line (w.clock w.ticks).timestamp .INFO "x")) .WARN "y" hflag
    (by show ELevel.WARN.toInt ≤ lg.m_Cfg.level.toInt; rw [hlevel]) hcbs
  have hz := write_of_filtered
    ((lg.format w .INFO "x").2.1.format
      (after_message lg w (lg.line (w.clock w.ticks).timestamp .INFO "x")) .WARN "y").2.1
    (after_message (lg.format w .INFO "x").2.1
      (after_message lg w (lg.line (w.clock w.ticks).timestamp .INFO "x"))
      ((lg.format w .INFO "x").2.1.line
        ((after_message lg w (lg.line (w.clock w.ticks).timestamp .INFO "x")).clock
          (after_message lg w (lg.line (w.clock w.ticks).timestamp .INFO "x")).ticks).timestamp
        .WARN "y"))
    .ERROR "z" (by show lg.m_Cfg.level.toInt < ELevel.ERROR.toInt; rw [hlevel]; decide)
  have htrace : (after_message (lg.format w .INFO "x").2.1
      (after_message lg w (lg.line (w.clock w.ticks).timestamp .INFO "x"))
      ((lg.format w .INFO "x").2.1.line
        ((after_message lg w (lg.line (w.clock w.ticks).timestamp .INFO "x")).clock
          (after_message lg w (lg.line (w.clock w.ticks).timestamp .INFO "x")).ticks).timestamp
        .WARN "y")).trace = w.trace ++
        sink_events lg w (lg.line (w.clock w.ticks).timestamp .INFO "x") ++
        sink_events lg w (lg.line (w.clock (w.ticks + 1)).timestamp .WARN "y") := by
    simp [after_message, sink_events, Logger.line, Logger.format, Config.name_of,
      Config.color_of, map_index_snd_getD]
  refine ⟨?_, ?_, ?_, ?_, ?_⟩
  rotate_left 2
  · simp only [info_warn_error, Logger.info, Logger.warn, Logger.error, hx, Outcome.andThen, hy]
    exact hz
  · exact htrace
  · intro hfiles
    rw [htrace]
    simp [sink_events, hfiles, hconsole]

/-- C2 amended, at the default logger with the threshold set to `WARN`. -/
theorem C2_info_warn_error_witness :
    warn_logger.m_Cfg.level = .WARN ∧ warn_logger.m_Cfg.to_console = true ∧
    warn_logger.m_Cfg.callbacks = [] ∧ warn_logger.bInCallbacks = false ∧
    ∃ lg' w', info_warn_error warn_logger sample_world = .returned lg' w' ∧
      w'.trace.length = 2 :=
  ⟨rfl, rfl, rfl, rfl, by
    obtain ⟨lg', w', h1, _, h3⟩ := C2_info_warn_error warn_logger sample_world rfl rfl rfl rfl
    exact ⟨lg', w', h1, by rw [h3 rfl]; rfl⟩⟩

/-! ## C3: logger calls while the reentrancy flag is set -/

theorem std_format_one (pre s : String) (hpre : '\x7b' ∉ pre.data) :
    std_format (pre ++ "\x7b\x7d") [.str s] = pre ++ s := by
  apply String.ext
  obtain ⟨cs⟩ := pre
  simp only [std_format, String.data_append]
  change std_format_go (cs ++ ['\x7b', '\x7d']) none [FmtArg.str s] = cs ++ s.data
  induction cs with
  | nil => simp [std_format_go, render]
  | cons c cs ih =>
    have hc : c ≠ '\x7b' := fun hc => hpre (by simp [hc])
    have hcs : '\x7b' ∉ (String.mk cs).data := fun hm => hpre (List.mem_cons_of_mem _ hm)
    simp [std_format_go, hc, ih hcs]

theorem reentrancy_abort_trace (lg : Logger) (w : World) :
    (lg.reentrancy_abort w).trace = w.trace ++ reentrancy_lines lg w ∧
    (lg.reentrancy_abort w).files = w.files := by
  have h1 : std_format "File:  \x7b\x7d:\x7b\x7d" [.str ABY_SOURCE_FILE, .int 52] =
      "File:  Log.cpp:52" := by decide
  have h2 : std_format "Func:  \x7b\x7d" [.str w.func_sig] = "Func:  " ++ w.func_sig :=
    std_format_one "Func:  " _ (by decide)
  have h3 : std_format "Expr:  \x7b\x7d" [.str "Logger::bInCallbacks == true"] =
      "Expr:  Logger::bInCallbacks == true" := by decide
  have h4 : std_format "Error: \x7b\x7d" [.str reentrancy_error] =
      "Error: " ++ reentrancy_error := std_format_one "Error: " _ (by decide)
  simp only [Logger.reentrancy_abort, h1, h2, h3, h4, format_fst]
  simp [Logger.format, World.current_time, World.write_console, reentrancy_lines, Logger.line,
    Config.name_of, Config.color_of, map_index_snd_getD]

/-- C3, as stated, fails: on a logger whose reentrancy flag is set and whose threshold is
`WARN`, the call `write(ERROR, "x")` is filtered out and returns normally; it does not
abort. -/
theorem C3_counterexample :
    reentrant_logger.bInCallbacks = true ∧
    reentrant_logger.write sample_world .ERROR "x" = .returned reentrant_logger sample_world ∧
    reentrant_logger.error sample_world "x" = .returned reentrant_logger sample_world ∧
    ¬ ∃ w', reentrant_logger.write sample_world .ERROR "x" = .aborted w' := by
  refine ⟨rfl, rfl, rfl, ?_⟩
  rintro ⟨w', h⟩
  have h2 : reentrant_logger.write sample_world .ERROR "x" =
      .returned reentrant_logger sample_world := rfl
  rw [h2] at h
  cases h

/-- C3, amended. A logger call made while the reentrancy flag is set aborts the process
when its severity stands at or before the threshold, after four diagnostic lines went to
the console and nothing to a file; this holds for `write`, for each fixed-severity entry
point and for `assertion`. A call whose severity stands after the threshold returns
normally and changes nothing. -/
theorem C3_reentrant_call (lg : Logger) (w : World) (S : ELevel) (text : String)
    (file : String) (line : Int) (func expr : String) (hflag : lg.bInCallbacks = true) :
    (S.position ≤ lg.m_Cfg.level.position →
      lg.write w S text = .aborted (lg.reentrancy_abort w) ∧
      (S = .TRACE → lg.trace w text = .aborted (lg.reentrancy_abort w)) ∧
      (S = .INFO → lg.info w text = .aborted (lg.reentrancy_abort w)) ∧
      (S = .WARN → lg.warn w text = .aborted (lg.reentrancy_abort w)) ∧
      (S = .DEBUG → lg.debug w text = .aborted (lg.reentrancy_abort w)) ∧
      (S = .ERROR → lg.error w text = .aborted (lg.reentrancy_abort w)) ∧
      (S = .ASSERT →
        lg.assertion w file line func expr text = .aborted (lg.reentrancy_abort w)) ∧
      (lg.reentrancy_abort w).trace = w.trace ++ reentrancy_lines lg w ∧
      (lg.reentrancy_abort w).files = w.files) ∧
    (lg.m_Cfg.level.position < S.position → lg.write w S text = .returned lg w) := by
  constructor
  · intro hle
    have hw : ∀ m, lg.write w S m = .aborted (lg.reentrancy_abort w) := fun m =>
      write_of_reentrant lg w S m ((position_le_iff _ _).mp hle) hflag
    refine ⟨hw text, ?_, ?_, ?_, ?_, ?_, ?_, reentrancy_abort_trace lg w⟩
    · intro hS; subst hS; exact hw text
    · intro hS; subst hS; exact hw text
    · intro hS; subst hS; exact hw text
    · intro hS; subst hS; exact hw text
    · intro hS; subst hS; exact hw text
    · intro hS; subst hS
      simp only [Logger.assertion, hw, Outcome.andThen]
  · intro hlt
    exact write_of_filtered lg w S text ((position_lt_iff _ _).mp hlt)

/-- C3 amended, at a logger with threshold `WARN` and the flag set, for `warn`. -/
theorem C3_reentrant_call_witness :
    reentrant_logger.bInCallbacks = true ∧
    ELevel.WARN.position ≤ reentrant_logger.m_Cfg.level.position ∧
    reentrant_logger.warn sample_world "y" =
      .aborted (reentrant_logger.reentrancy_abort sample_world) ∧
    (reentrant_logger.reentrancy_abort sample_world).trace.length = 4 :=
  ⟨rfl, by decide,
    ((C3_reentrant_call reentrant_logger sample_world .WARN "y" "" 0 "" "" rfl).1
      (by decide)).2.2.2.1 rfl,
    by decide⟩

/-! ## C4 and C5: callback dispatch -/

theorem add_callbacks_cfg (cfg : Config) (cbs : List Callback) :
    (cbs.foldl Config.add_callback cfg).callbacks = cfg.callbacks ++ cbs ∧
    (cbs.foldl Config.add_callback cfg).level = cfg.level ∧
    (cbs.foldl Config.add_callback cfg).level_names = cfg.level_names ∧
    (cbs.foldl Config.add_callback cfg).level_colors = cfg.level_colors ∧
    (cbs.foldl Config.add_callback cfg).log_files = cfg.log_files ∧
    (cbs.foldl Config.add_callback cfg).to_console = cfg.to_console := by
  induction cbs generalizing cfg with
  | nil => simp
  | cons cb rest ih =>
    simp only [List.foldl_cons]
    obtain ⟨h1, h2, h3, h4, h5, h6⟩ := ih (cfg.add_callback cb)
    rw [h1, h2, h3, h4, h5, h6]
    simp [Config.add_callback]

theorem filter_is_callback_sink_events (lg : Logger) (w : World) (s : String) :
    (sink_events lg w s).filter Event.is_callback = [] := by
  simp only [sink_events, List.filter_append, List.filter_map]
  have h1 : List.filter (Event.is_callback ∘ fun p => Event.file_append p s)
      (List.filter w.openable lg.m_Cfg.log_files) = [] := by
    apply List.filter_eq_nil_iff.mpr
    intro a _
    simp [Event.is_callback]
  rw [h1]
  cases lg.m_Cfg.to_console <;> simp [Event.is_callback]

theorem filter_is_sink_sink_events (lg : Logger) (w : World) (s : String) :
    (sink_events lg w s).filter Event.is_sink = sink_events lg w s := by
  apply List.filter_eq_self.mpr
  intro e he
  simp only [sink_events, List.mem_append, List.mem_map] at he
  rcases he with ⟨p, _, rfl⟩ | he
  · rfl
  · cases hc : lg.m_Cfg.to_console
    · simp [hc] at he
    · simp [hc] at he; subst he; rfl

theorem filter_is_callback_callback_events (lg : Logger) (w : World) (msg : Message)
    (cbs : List Callback) :
    ∀ idx k, (callback_events lg w msg cbs idx k).filter Event.is_callback =
      (cbs.enumFrom idx).map (fun p => Event.callback p.1 msg (p.2 msg) true) := by
  induction cbs with
  | nil => intro idx k; simp [callback_events]
  | cons cb rest ih =>
    intro idx k
    simp only [callback_events]
    cases hcb : cb msg with
    | none => simp [Event.is_callback, ih, hcb, List.enumFrom_cons]
    | some e =>
      simp [Event.is_callback, ih, hcb, List.enumFrom_cons, filter_is_callback_sink_events]

theorem filter_is_sink_callback_events (lg : Logger) (w : World) (msg : Message)
    (cbs : List Callback) :
    ∀ idx k, (callback_events lg w msg cbs idx k).filter Event.is_sink =
      ((returned_errors cbs msg).enumFrom k).flatMap
        (fun p => sink_events lg w (lg.line (w.clock p.1).timestamp .ERROR p.2)) := by
  induction cbs with
  | nil => intro idx k; simp [callback_events, returned_errors]
  | cons cb rest ih =>
    intro idx k
    simp only [callback_events]
    cases hcb : cb msg with
    | none =>
      simp only [returned_errors, List.filterMap_cons, hcb]
      simpa [Event.is_sink, Event.is_callback, returned_errors] using ih (idx + 1) k
    | some e =>
      simp only [returned_errors, List.filterMap_cons, hcb, List.enumFrom_cons,
        List.flatMap_cons]
      have := ih (idx + 1) (k + 1)
      simp only [returned_errors] at this
      simp [Event.is_sink, Event.is_callback, List.filter_append, this]
      simpa [Event.is_sink] using filter_is_sink_sink_events lg w _

/-- C4. After the callbacks `cbs` were registered with `add_callback` in list order on a
logger whose reentrancy flag is clear, a `write` that passes the severity filter returns
and has invoked every callback of the list (those registered before, then `cbs`) exactly
once, in registration order, each with the message record of this write and whatever it
returns; a `write` that is filtered out changes nothing and invokes none. -/
theorem C4_callbacks_in_registration_order (lg : Logger) (w : World) (S : ELevel)
    (text : String) (cbs : List Callback) (hflag : lg.bInCallbacks = false) :
    (S.position ≤ lg.m_Cfg.level.position →
      ∃ lg' w' new, (lg.add_callbacks cbs).write w S text = .returned lg' w' ∧
        w'.trace = w.trace ++ new ∧
        new.filter Event.is_callback =
          (lg.m_Cfg.callbacks ++ cbs).enum.map (fun p =>
            Event.callback p.1 (emitted_message lg w S text)
              (p.2 (emitted_message lg w S text)) true)) ∧
    (lg.m_Cfg.level.position < S.position →
      (lg.add_callbacks cbs).write w S text = .returned (lg.add_callbacks cbs) w) := by
  obtain ⟨hcbs, hlevel, hnames, hcolors, _, _⟩ := add_callbacks_cfg lg.m_Cfg cbs
  constructor
  · intro hle
    obtain ⟨lg', w', h1, _, h3⟩ := write_emitted (lg.add_callbacks cbs) w S text hflag
      (by
        show S.toInt ≤ (cbs.foldl Config.add_callback lg.m_Cfg).level.toInt
        rw [hlevel]; exact (position_le_iff _ _).mp hle)
    refine ⟨lg', w', _, h1, by rw [h3, List.append_assoc], ?_⟩
    have hc : (lg.add_callbacks cbs).m_Cfg.callbacks = lg.m_Cfg.callbacks ++ cbs := hcbs
    have hm : emitted_message (lg.add_callbacks cbs) w S text = emitted_message lg w S text := by
      simp [emitted_message, Logger.line, Logger.add_callbacks, Config.name_of, Config.color_of,
        hnames, hcolors]
    rw [List.filter_append, filter_is_callback_sink_events,
      filter_is_callback_callback_events, hc, hm]
    rfl
  · intro hlt
    apply write_of_filtered
    show (cbs.foldl Config.add_callback lg.m_Cfg).level.toInt < S.toInt
    rw [hlevel]; exact (position_lt_iff _ _).mp hlt

/-- C4 at the default logger with two callbacks registered, for an INFO message. -/
theorem C4_callbacks_in_registration_order_witness :
    Logger.ctor.bInCallbacks = false ∧
    ELevel.INFO.position ≤ Logger.ctor.m_Cfg.level.position ∧
    ∃ lg' w' new, two_callback_logger.write sample_world .INFO "x" = .returned lg' w' ∧
      w'.trace = sample_world.trace ++ new ∧
      (new.filter Event.is_callback).length = 2 :=
  ⟨rfl, by decide, by
    obtain ⟨lg', w', new, h1, h2, h3⟩ :=
      (C4_callbacks_in_registration_order Logger.ctor sample_world .INFO "x"
        [fun _ => none, fun _ => some "failed"] rfl).1 (by decide)
    exact ⟨lg', w', new, h1, h2, by rw [h3]; rfl⟩⟩

/-- C5. An emitted `write` on a logger whose reentrancy flag is clear returns; besides the
message itself, its writes to the files and the console are exactly one line per error
string `e` a callback returned, in callback order, each equal to `format(ERROR, e)` at the
next clock reading and each on every enabled sink (an append per openable file-list
entry, one console write when the console flag is on); and the callbacks are invoked once
each, so an error line causes no further invocation. -/
theorem C5_callback_error_line (lg : Logger) (w : World) (S : ELevel) (text : String)
    (hflag : lg.bInCallbacks = false) (hle : S.position ≤ lg.m_Cfg.level.position) :
    ∃ lg' w' new, lg.write w S text = .returned lg' w' ∧
      w'.trace = w.trace ++ new ∧
      new.filter Event.is_sink =
        sink_events lg w (lg.format w S text).1 ++
          ((returned_errors lg.m_Cfg.callbacks (emitted_message lg w S text)).enumFrom
              (w.ticks + 2)).flatMap
            (fun p => sink_events lg w (lg.format { w with ticks := p.1 } .ERROR p.2).1) ∧
      (new.filter Event.is_callback).length = lg.m_Cfg.callbacks.length := by
  obtain ⟨lg', w', h1, _, h3⟩ := write_emitted lg w S text hflag ((position_le_iff _ _).mp hle)
  refine ⟨lg', w', _, h1, by rw [h3, List.append_assoc], ?_, ?_⟩
  · simp only [format_fst]
    rw [List.filter_append, filter_is_sink_sink_events, filter_is_sink_callback_events]
  · rw [List.filter_append, filter_is_callback_sink_events,
      filter_is_callback_callback_events]
    simp

/-- C5 at the program of `main.cpp`: the callback returns an error for the INFO message
and one `ERROR` line follows on the console. -/
theorem C5_callback_error_line_witness :
    main_logger.bInCallbacks = false ∧
    ELevel.INFO.position ≤ main_logger.m_Cfg.level.position ∧
    ∃ lg' w' new, main_logger.write sample_world .INFO "Hello World!" = .returned lg' w' ∧
      w'.trace = sample_world.trace ++ new ∧
      new.filter Event.is_sink =
        [Event.console "[05-Jan-2024•09:08:07] [\x1b[32mINFO\x1b[0m] Hello World!\n",
         Event.console
           "[05-Jan-2024•09:08:07] [\x1b[31mERROR\x1b[0m] Oh No An Error Occured\n"] :=
  ⟨rfl, by decide, by
    obtain ⟨lg', w', new, h1, h2, h3, _⟩ :=
      C5_callback_error_line main_logger sample_world .INFO "Hello World!" rfl (by decide)
    exact ⟨lg', w', new, h1, h2, by rw [h3]; decide⟩⟩

/-! ## C6: threshold `NONE` -/

/-- C6, as stated, fails at `S = NONE`: with the threshold set to `NONE` on the default
logger, `write(NONE, "x")` passes the filter and one line goes to the console. -/
theorem C6_counterexample :
    none_logger.m_Cfg.level = .NONE ∧
    ∃ lg' w', none_logger.write sample_world .NONE "x" = .returned lg' w' ∧
      w'.trace = [Event.console "[05-Jan-2024•09:08:07] [<NONE><NONE>\x1b[0m] x\n"] ∧
      w'.stdout = "[05-Jan-2024•09:08:07] [<NONE><NONE>\x1b[0m] x\n" :=
  ⟨rfl, _, _, rfl, by decide, by decide⟩

/-- C6, amended. With the threshold set to `NONE`, `write(S, text)` returns with the
logger and the world untouched (no file append, no console write, no callback
invocation) for every severity `S` other than `NONE`, whatever the reentrancy flag is. -/
theorem C6_threshold_none (lg : Logger) (w : World) (S : ELevel) (text : String)
    (hlevel : lg.m_Cfg.level = .NONE) (hS : S ≠ .NONE) :
    lg.write w S text = .returned lg w := by
  apply write_of_filtered
  rw [hlevel]
  cases S <;> first | exact absurd rfl hS | decide

/-- C6 amended, at the default logger with threshold `NONE`, for an ERROR message. -/
theorem C6_threshold_none_witness :
    none_logger.m_Cfg.level = .NONE ∧ ELevel.ERROR ≠ .NONE ∧
    none_logger.write sample_world .ERROR "x" = .returned none_logger sample_world :=
  ⟨rfl, by decide, C6_threshold_none none_logger sample_world .ERROR "x" rfl (by decide)⟩

/-! ## C7: the layout of a formatted line -/

/-- C7. For a severity `S` with name entry `n` and color entry `c`, `format(S, m)` at a
clock reading whose timestamp is `t` is the string `[t] [c n reset] m` followed by a
newline, where reset is the escape sequence `ESC [0m`; so any two calls with the same `S`,
`m`, entries and timestamp give the same string, and the string ends in a newline. -/
theorem C7_format_layout (lg : Logger) (w : World) (S : ELevel) (m n c t : String)
    (hname : lg.m_Cfg.level_names S = some n) (hcolor : lg.m_Cfg.level_colors S = some c)
    (ht : (w.clock w.ticks).timestamp = t) :
    (lg.format w S m).1 = "[" ++ t ++ "] [" ++ c ++ n ++ "\x1b[0m" ++ "] " ++ m ++ "\n" ∧
    (∀ (lg2 : Logger) (w2 : World), lg2.m_Cfg.level_names S = some n →
      lg2.m_Cfg.level_colors S = some c → (w2.clock w2.ticks).timestamp = t →
      (lg2.format w2 S m).1 = (lg.format w S m).1) ∧
    (lg.format w S m).1.data.getLast? = some '\n' := by
  have key : ∀ (lg2 : Logger) (w2 : World), lg2.m_Cfg.level_names S = some n →
      lg2.m_Cfg.level_colors S = some c → (w2.clock w2.ticks).timestamp = t →
      (lg2.format w2 S m).1 = "[" ++ t ++ "] [" ++ c ++ n ++ "\x1b[0m" ++ "] " ++ m ++ "\n" := by
    intro lg2 w2 h1 h2 h3
    rw [format_fst, Logger.line, Config.name_of, Config.color_of, h1, h2, h3]
    rfl
  refine ⟨key lg w hname hcolor ht, ?_, ?_⟩
  · intro lg2 w2 h1 h2 h3
    rw [key lg2 w2 h1 h2 h3, key lg w hname hcolor ht]
  · rw [key lg w hname hcolor ht, String.data_append]
    exact List.getLast?_concat _

/-- C7 at the default logger, for a WARN message in the sample world. -/
theorem C7_format_layout_witness :
    Logger.ctor.m_Cfg.level_names .WARN = some "WARN" ∧
    Logger.ctor.m_Cfg.level_colors .WARN = some COLOR_YELLOW ∧
    (sample_world.clock sample_world.ticks).timestamp = "05-Jan-2024•09:08:07" ∧
    (Logger.ctor.format sample_world .WARN "y").1 =
      "[" ++ "05-Jan-2024•09:08:07" ++ "] [" ++ COLOR_YELLOW ++ "WARN" ++ "\x1b[0m" ++ "] " ++
        "y" ++ "\n" :=
  ⟨rfl, rfl, by decide,
    (C7_format_layout Logger.ctor sample_world .WARN "y" "WARN" COLOR_YELLOW
      "05-Jan-2024•09:08:07" rfl rfl (by decide)).1⟩

/-! ## C8: the timestamp -/

theorem toDigitsCore_acc (fuel : Nat) : ∀ (n : Nat) (ds : List Char),
    Nat.toDigitsCore 10 fuel n ds = Nat.toDigitsCore 10 fuel n [] ++ ds := by
  induction fuel with
  | zero => intro n ds; simp [Nat.toDigitsCore]
  | succ f ih =>
    intro n ds
    simp only [Nat.toDigitsCore]
    by_cases h : n / 10 = 0
    · simp [h]
    · simp only [h, if_false]
      rw [ih (n / 10) (Nat.digitChar (n % 10) :: ds), ih (n / 10) [Nat.digitChar (n % 10)]]
      simp

theorem toDigitsCore_fuel (fuel : Nat) : ∀ (n : Nat), n < fuel →
    Nat.toDigitsCore 10 fuel n [] = Nat.toDigitsCore 10 (n + 1) n [] := by
  induction fuel using Nat.strong_induction_on with
  | _ fuel ih =>
    intro n hn
    cases fuel with
    | zero => omega
    | succ f =>
      simp only [Nat.toDigitsCore]
      by_cases h : n / 10 = 0
      · simp [h]
      · simp only [h, if_false]
        have h1 : n / 10 < n := Nat.div_lt_self (by omega) (by decide)
        rw [toDigitsCore_acc f, toDigitsCore_acc n]
        rw [ih f (by omega) (n / 10) (by omega), ih n (by omega) (n / 10) h1]

theorem toDigits_lt_ten (n : Nat) (h : n < 10) : Nat.toDigits 10 n = [Nat.digitChar n] := by
  have h1 : n / 10 = 0 := by omega
  have h2 : n % 10 = n := by omega
  simp [Nat.toDigits, Nat.toDigitsCore, h1, h2]

theorem toDigits_ten_le (n : Nat) (h : 10 ≤ n) :
    Nat.toDigits 10 n = Nat.toDigits 10 (n / 10) ++ [Nat.digitChar (n % 10)] := by
  have h1 : n / 10 ≠ 0 := by omega
  have h2 : n / 10 < n := Nat.div_lt_self (by omega) (by decide)
  have e : Nat.toDigitsCore 10 (n + 1) n [] =
      if n / 10 = 0 then [Nat.digitChar (n % 10)]
      else Nat.toDigitsCore 10 n (n / 10) [Nat.digitChar (n % 10)] := rfl
  unfold Nat.toDigits
  rw [e, if_neg h1, toDigitsCore_acc, toDigitsCore_fuel n (n / 10) h2]

theorem zero_pad_two (i : Int) (h0 : 0 ≤ i) (h1 : i ≤ 99) :
    zero_pad 2 i = (two_digits i.toNat).data := by
  obtain ⟨n, rfl⟩ := Int.eq_ofNat_of_zero_le h0
  have hn : n < 100 := by omega
  simp only [zero_pad, Int.natAbs_ofNat, Int.toNat_ofNat, two_digits]
  rw [if_neg (by omega)]
  by_cases h : n < 10
  · rw [toDigits_lt_ten n h]
    have : n / 10 = 0 := by omega
    have h2 : n % 10 = n := by omega
    simp [this, h2]
    rfl
  · rw [toDigits_ten_le n (by omega), toDigits_lt_ten (n / 10) (by omega)]
    simp

theorem zero_pad_four (i : Int) (h0 : 0 ≤ i) (h1 : i ≤ 9999) :
    zero_pad 4 i = (four_digits i.toNat).data := by
  obtain ⟨n, rfl⟩ := Int.eq_ofNat_of_zero_le h0
  have hn : n < 10000 := by omega
  simp only [zero_pad, Int.natAbs_ofNat, Int.toNat_ofNat, four_digits]
  rw [if_neg (by omega)]
  by_cases h : n < 10
  · rw [toDigits_lt_ten n h]
    have e1 : n / 1000 = 0 := by omega
    have e2 : n / 100 % 10 = 0 := by omega
    have e3 : n / 10 % 10 = 0 := by omega
    have e4 : n % 10 = n := by omega
    simp [e1, e2, e3, e4]
    decide
  · by_cases h' : n < 100
    · rw [toDigits_ten_le n (by omega), toDigits_lt_ten (n / 10) (by omega)]
      have e1 : n / 1000 = 0 := by omega
      have e2 : n / 100 % 10 = 0 := by omega
      have e3 : n / 10 % 10 = n / 10 := by omega
      simp [e1, e2, e3]
      decide
    · by_cases h'' : n < 1000
      · rw [toDigits_ten_le n (by omega), toDigits_ten_le (n / 10) (by omega),
          toDigits_lt_ten (n / 10 / 10) (by omega)]
        have e1 : n / 1000 = 0 := by omega
        have e2 : n / 100 % 10 = n / 10 / 10 := by omega
        simp [e1, e2]
        rfl
      · rw [toDigits_ten_le n (by omega), toDigits_ten_le (n / 10) (by omega),
          toDigits_ten_le (n / 10 / 10) (by omega), toDigits_lt_ten (n / 10 / 10 / 10) (by omega)]
        have e1 : n / 1000 = n / 10 / 10 / 10 := by omega
        have e2 : n / 100 % 10 = n / 10 / 10 % 10 := by omega
        simp [e1, e2]

/-- C8. For a broken-down local time with day 1..31, month index 0..11, year 0..9999
(`tm_year + 1900`), hour 0..23, minute and second 0..59, the read of the month table is
in bounds and `current_time` builds: the day in two digits, a hyphen, the three-letter
month abbreviation, a hyphen, the year in four digits, the separator glyph, then hour,
minute and second in two digits each, separated by colons. -/
theorem C8_current_time_layout (tm : Tm)
    (hday : 1 ≤ tm.tm_mday ∧ tm.tm_mday ≤ 31) (hmon : 0 ≤ tm.tm_mon ∧ tm.tm_mon ≤ 11)
    (hyear : 0 ≤ tm.tm_year + 1900 ∧ tm.tm_year + 1900 ≤ 9999)
    (hhour : 0 ≤ tm.tm_hour ∧ tm.tm_hour ≤ 23) (hmin : 0 ≤ tm.tm_min ∧ tm.tm_min ≤ 59)
    (hsec : 0 ≤ tm.tm_sec ∧ tm.tm_sec ≤ 59) :
    months_at tm.tm_mon = some (month_abbrev tm.tm_mon.toNat) ∧
    current_time tm = some (two_digits tm.tm_mday.toNat ++ "-" ++
      month_abbrev tm.tm_mon.toNat ++ "-" ++ four_digits (tm.tm_year + 1900).toNat ++ "•" ++
      two_digits tm.tm_hour.toNat ++ ":" ++ two_digits tm.tm_min.toNat ++ ":" ++
      two_digits tm.tm_sec.toNat) := by
  have hm : months_at tm.tm_mon = some (month_abbrev tm.tm_mon.toNat) := by
    obtain ⟨n, hn⟩ := Int.eq_ofNat_of_zero_le hmon.1
    have hn2 : n ≤ 11 := by omega
    rw [hn]
    simp only [months_at, Int.toNat_ofNat]
    rw [if_pos (by omega)]
    interval_cases n <;> rfl
  refine ⟨hm, ?_⟩
  simp only [current_time, hm]
  congr 1
  apply String.ext
  simp [std_format, std_format_go, render, parse_width, String.data_append,
    zero_pad_two _ (by omega : (0:Int) ≤ tm.tm_mday) (by omega : tm.tm_mday ≤ 99),
    zero_pad_two _ hhour.1 (by omega : tm.tm_hour ≤ 99),
    zero_pad_two _ hmin.1 (by omega : tm.tm_min ≤ 99),
    zero_pad_two _ hsec.1 (by omega : tm.tm_sec ≤ 99),
    zero_pad_four _ hyear.1 hyear.2]

/-- C8 at 5 January 2024, 09:08:07. -/
theorem C8_current_time_layout_witness :
    (1 ≤ sample_time.tm.tm_mday ∧ sample_time.tm.tm_mday ≤ 31) ∧
    (0 ≤ sample_time.tm.tm_mon ∧ sample_time.tm.tm_mon ≤ 11) ∧
    (0 ≤ sample_time.tm.tm_year + 1900 ∧ sample_time.tm.tm_year + 1900 ≤ 9999) ∧
    (0 ≤ sample_time.tm.tm_hour ∧ sample_time.tm.tm_hour ≤ 23) ∧
    (0 ≤ sample_time.tm.tm_min ∧ sample_time.tm.tm_min ≤ 59) ∧
    (0 ≤ sample_time.tm.tm_sec ∧ sample_time.tm.tm_sec ≤ 59) ∧
    current_time sample_time.tm = some "05-Jan-2024•09:08:07" :=
  ⟨by decide, by decide, by decide, by decide, by decide, by decide, by
    rw [(C8_current_time_layout sample_time.tm (by decide) (by decide) (by decide) (by decide)
      (by decide) (by decide)).2]
    decide⟩


/-! ## C9: a missing display entry -/

/-- C9, as stated, fails: on a logger without a name entry for `INFO`, the call
`write(INFO, "x")` returns normally, the line it writes has an empty name between the
color and the reset sequence, and afterwards `level_names` holds an empty entry for
`INFO`. -/
theorem C9_counterexample :
    nameless_logger.m_Cfg.level_names .INFO = none ∧
    ∃ lg' w', nameless_logger.write sample_world .INFO "x" = .returned lg' w' ∧
      w'.stdout = "[05-Jan-2024•09:08:07] [\x1b[32m\x1b[0m] x\n" ∧
      lg'.m_Cfg.level_names .INFO = some "" :=
  ⟨rfl, _, _, rfl, by decide, by decide⟩

/-- C9, amended. When the configuration has no name entry or no color entry for severity
`S`, an emitted `write(S, text)` on a logger whose reentrancy flag is clear does not fail:
it returns normally, the line it puts on the enabled sinks has the empty string in place
of the missing name or color, and afterwards both maps hold an entry for `S` (the empty
string where there was none), so a map that lacked the entry has changed. -/
theorem C9_missing_entry (lg : Logger) (w : World) (S : ELevel) (text : String)
    (hflag : lg.bInCallbacks = false) (hle : S.position ≤ lg.m_Cfg.level.position)
    (hmissing : lg.m_Cfg.level_names S = none ∨ lg.m_Cfg.level_colors S = none) :
    ∃ lg' w' new, lg.write w S text = .returned lg' w' ∧
      w'.trace = w.trace ++
        sink_events lg w
          (formatted_line (w.clock w.ticks).timestamp ((lg.m_Cfg.level_colors S).getD "")
            ((lg.m_Cfg.level_names S).getD "") text) ++ new ∧
      (lg.format w S text).1 =
        formatted_line (w.clock w.ticks).timestamp ((lg.m_Cfg.level_colors S).getD "")
          ((lg.m_Cfg.level_names S).getD "") text ∧
      lg'.m_Cfg.level_names S = some ((lg.m_Cfg.level_names S).getD "") ∧
      lg'.m_Cfg.level_colors S = some ((lg.m_Cfg.level_colors S).getD "") ∧
      (lg'.m_Cfg.level_names ≠ lg.m_Cfg.level_names ∨
        lg'.m_Cfg.level_colors ≠ lg.m_Cfg.level_colors) := by
  obtain ⟨lg', w', h1, h2, h3⟩ := write_emitted lg w S text hflag ((position_le_iff _ _).mp hle)
  obtain ⟨_, _, _, _, _, k6, k7⟩ := h2
  have hn : lg'.m_Cfg.level_names S = some ((lg.m_Cfg.level_names S).getD "") :=
    k6 S _ (map_index_snd_self lg.m_Cfg.level_names S)
  have hc : lg'.m_Cfg.level_colors S = some ((lg.m_Cfg.level_colors S).getD "") :=
    k7 S _ (map_index_snd_self lg.m_Cfg.level_colors S)
  refine ⟨lg', w', _, h1, h3, format_fst lg w S text, hn, hc, ?_⟩
  rcases hmissing with hm | hm
  · left
    intro heq
    rw [heq, hm] at hn
    cases hn
  · right
    intro heq
    rw [heq, hm] at hc
    cases hc

/-- C9 amended, at the logger without a name entry for `INFO`. -/
theorem C9_missing_entry_witness :
    nameless_logger.bInCallbacks = false ∧
    ELevel.INFO.position ≤ nameless_logger.m_Cfg.level.position ∧
    (nameless_logger.m_Cfg.level_names .INFO = none ∨
      nameless_logger.m_Cfg.level_colors .INFO = none) ∧
    ∃ lg' w', nameless_logger.write sample_world .INFO "x" = .returned lg' w' ∧
      lg'.m_Cfg.level_names .INFO = some "" :=
  ⟨rfl, by decide, Or.inl rfl, by
    obtain ⟨lg', w', _, h1, _, _, h4, _⟩ :=
      C9_missing_entry nameless_logger sample_world .INFO "x" rfl (by decide) (Or.inl rfl)
    exact ⟨lg', w', h1, h4⟩⟩

/-! ## C10: two files, one `error` call -/

theorem digitChar_ne_newline (n : Nat) (h : n < 10) : Nat.digitChar n ≠ '\n' := by
  interval_cases n <;> decide

theorem toDigitsCore_no_newline (fuel : Nat) : ∀ (n : Nat) (ds : List Char),
    '\n' ∉ ds → '\n' ∉ Nat.toDigitsCore 10 fuel n ds := by
  induction fuel with
  | zero => intro n ds h; simpa [Nat.toDigitsCore] using h
  | succ f ih =>
    intro n ds h
    have hd : '\n' ∉ Nat.digitChar (n % 10) :: ds := by
      intro hm
      rcases List.mem_cons.mp hm with h1 | h1
      · exact digitChar_ne_newline (n % 10) (Nat.mod_lt _ (by decide)) h1.symm
      · exact h h1
    simp only [Nat.toDigitsCore]
    by_cases h0 : n / 10 = 0
    · simpa [h0] using hd
    · simp only [h0, if_false]
      exact ih _ _ hd

theorem zero_pad_no_newline (width : Nat) (i : Int) : '\n' ∉ zero_pad width i := by
  have hd : '\n' ∉ Nat.toDigits 10 i.natAbs := toDigitsCore_no_newline _ _ _ (by simp)
  unfold zero_pad
  by_cases h : i < 0
  · simp only [h, if_true]
    intro hm
    rcases List.mem_cons.mp hm with h1 | h1
    · exact absurd h1 (by decide)
    · rcases List.mem_append.mp h1 with h2 | h2
      · exact absurd (List.eq_of_mem_replicate h2) (by decide)
      · exact hd h2
  · simp only [h, if_false]
    intro hm
    rcases List.mem_append.mp hm with h2 | h2
    · exact absurd (List.eq_of_mem_replicate h2) (by decide)
    · exact hd h2

theorem timestamp_no_newline (lt : LocalTm) : '\n' ∉ lt.timestamp.data := by
  obtain ⟨tm, h0, h1⟩ := lt
  have hs : ∀ s, current_time tm = some s → '\n' ∉ s.data := by
    intro s hs
    obtain ⟨n, hn⟩ := Int.eq_ofNat_of_zero_le h0
    have hn2 : n < 12 := by omega
    simp only [current_time, months_at, hn, Int.toNat_ofNat] at hs
    rw [if_pos (by omega)] at hs
    have key : ∀ mon ∈ months, '\n' ∉ (std_format
        "\x7b:02\x7d-\x7b\x7d-\x7b:04\x7d•\x7b:02\x7d:\x7b:02\x7d:\x7b:02\x7d"
        [.int tm.tm_mday, .str mon, .int (tm.tm_year + 1900),
          .int tm.tm_hour, .int tm.tm_min, .int tm.tm_sec]).data := by
      intro mon hmon
      have hmon2 : '\n' ∉ mon.data := by
        simp only [months, List.mem_cons, List.mem_singleton, List.not_mem_nil, or_false] at hmon
        rcases hmon with h | h | h | h | h | h | h | h | h | h | h | h <;> subst h <;> decide
      simp [std_format, std_format_go, render, parse_width, zero_pad_no_newline, hmon2]
    cases hget : months[n]? with
    | none => simp [hget] at hs
    | some mon =>
      simp only [hget, Option.some.injEq] at hs
      rw [← hs]
      exact key mon (List.getElem?_mem hget)
  simp only [LocalTm.timestamp]
  exact hs _ (Option.some_get _).symm

/-- C10. On the default logger (threshold `ALL`, no callbacks) with two distinct paths
registered through `add_file`, both openable and both empty, one call `error("boom")`
returns and leaves in each of the two files exactly the string `format(ERROR, "boom")`:
the bracketed timestamp, the `ERROR` name in its color, then `boom` and a newline, which is
the only newline of the string. -/
theorem C10_error_boom_two_files (w : World) (p1 p2 : String) (hne : p1 ≠ p2)
    (hopen1 : w.openable p1 = true) (hopen2 : w.openable p2 = true)
    (hempty1 : w.files p1 = "") (hempty2 : w.files p2 = "") :
    ∃ lg' w', (two_file_logger p1 p2).error w "boom" = .returned lg' w' ∧
      w'.files p1 = ((two_file_logger p1 p2).format w .ERROR "boom").1 ∧
      w'.files p2 = ((two_file_logger p1 p2).format w .ERROR "boom").1 ∧
      ((two_file_logger p1 p2).format w .ERROR "boom").1 =
        "[" ++ (w.clock w.ticks).timestamp ++ "] [" ++ COLOR_RED ++ "ERROR" ++ COLOR_RESET ++
          "] " ++ "boom\n" ∧
      ((two_file_logger p1 p2).format w .ERROR "boom").1.data.count '\n' = 1 := by
  have hw := write_no_callbacks (two_file_logger p1 p2) w .ERROR "boom" rfl
    (by show ELevel.ERROR.toInt ≤ ELevel.ALL.toInt; decide) rfl
  have hline : ((two_file_logger p1 p2).format w .ERROR "boom").1 =
      "[" ++ (w.clock w.ticks).timestamp ++ "] [" ++ COLOR_RED ++ "ERROR" ++ COLOR_RESET ++
        "] " ++ "boom\n" := by
    rw [format_fst]
    apply String.ext
    simp [Logger.line, formatted_line, two_file_logger, Logger.ctor, Config.add_file,
      Config.name_of, Config.color_of, COLOR_RED, COLOR_RESET, String.data_append]
  have hfiles : (two_file_logger p1 p2).m_Cfg.log_files = [p1, p2] := rfl
  refine ⟨_, _, hw, ?_, ?_, hline, ?_⟩
  · rw [format_fst]
    simp [after_message, hfiles, hopen1, hopen2, hempty1, hne, Ne.symm hne, List.count_cons,
      repeat_string]
  · rw [format_fst]
    simp [after_message, hfiles, hopen1, hopen2, hempty2, hne, Ne.symm hne, List.count_cons,
      repeat_string]
  · rw [hline]
    have ht := timestamp_no_newline (w.clock w.ticks)
    simp [String.data_append, COLOR_RED, COLOR_RESET, List.count_cons, List.count_append,
      List.count_eq_zero.mpr ht]

/-- C10 in the sample world with the files `a.log` and `b.log`. -/
theorem C10_error_boom_two_files_witness :
    "a.log" ≠ "b.log" ∧ sample_world.openable "a.log" = true ∧
    sample_world.openable "b.log" = true ∧ sample_world.files "a.log" = "" ∧
    sample_world.files "b.log" = "" ∧
    ∃ lg' w', (two_file_logger "a.log" "b.log").error sample_world "boom" = .returned lg' w' ∧
      w'.files "a.log" = "[05-Jan-2024•09:08:07] [\x1b[31mERROR\x1b[0m] boom\n" ∧
      w'.files "b.log" = "[05-Jan-2024•09:08:07] [\x1b[31mERROR\x1b[0m] boom\n" :=
  ⟨by decide, rfl, rfl, rfl, rfl, by
    obtain ⟨lg', w', h1, h2, h3, _, _⟩ :=
      C10_error_boom_two_files sample_world "a.log" "b.log" (by decide) rfl rfl rfl rfl
    exact ⟨lg', w', h1, by rw [h2]; decide, by rw [h3]; decide⟩⟩

/-! ## The world after an emitted write -/

theorem appended_to_append (p : String) (a b : List Event) :
    appended_to p (a ++ b) = appended_to p a ++ appended_to p b := by
  induction a with
  | nil => simp [appended_to]
  | cons e rest ih => cases e <;> simp [appended_to, ih, String.append_assoc]

theorem console_text_append (a b : List Event) :
    console_text (a ++ b) = console_text a ++ console_text b := by
  induction a with
  | nil => simp [console_text]
  | cons e rest ih => cases e <;> simp [console_text, ih, String.append_assoc]

theorem appended_to_file_appends (p s : String) (paths : List String) :
    appended_to p (paths.map (fun q => Event.file_append q s)) =
      repeat_string s (paths.count p) := by
  induction paths with
  | nil => rfl
  | cons q rest ih =>
    simp only [List.map_cons, appended_to, ih, List.count_cons]
    by_cases h : q = p
    · subst h; simp [repeat_string_succ]
    · have h2 : (q == p) = false := by simpa using h
      simp [h, h2]

theorem console_text_file_appends (s : String) (paths : List String) :
    console_text (paths.map (fun q => Event.file_append q s)) = "" := by
  induction paths with
  | nil => rfl
  | cons q rest ih => simpa [console_text] using ih

theorem appended_to_sink_events (lg : Logger) (w : World) (s p : String) :
    appended_to p (sink_events lg w s) =
      repeat_string s ((lg.m_Cfg.log_files.filter w.openable).count p) := by
  simp only [sink_events, appended_to_append, appended_to_file_appends]
  cases lg.m_Cfg.to_console <;> simp [appended_to]

theorem console_text_sink_events (lg : Logger) (w : World) (s : String) :
    console_text (sink_events lg w s) = if lg.m_Cfg.to_console then s else "" := by
  simp only [sink_events, console_text_append, console_text_file_appends]
  cases lg.m_Cfg.to_console <;> simp [console_text]

theorem grown_by_refl (w : World) : w.grown_by w [] 0 := by
  simp [World.grown_by, appended_to, console_text]

theorem grown_by_trans {w1 w2 w3 : World} {e1 e2 : List Event} {n1 n2 : Nat}
    (h12 : w1.grown_by w2 e1 n1) (h23 : w2.grown_by w3 e2 n2) :
    w1.grown_by w3 (e1 ++ e2) (n1 + n2) := by
  obtain ⟨a1, a2, a3, a4, a5, a6, a7⟩ := h12
  obtain ⟨b1, b2, b3, b4, b5, b6, b7⟩ := h23
  refine ⟨?_, ?_, ?_, ?_, b5.trans a5, b6.trans a6, b7.trans a7⟩
  · rw [b1, a1, List.append_assoc]
  · intro p; rw [b2, a2, appended_to_append, String.append_assoc]
  · rw [b3, a3, console_text_append, String.append_assoc]
  · rw [b4, a4, Nat.add_assoc]

theorem after_message_grown_by (lg : Logger) (w : World) (s : String) :
    w.grown_by (after_message lg w s) (sink_events lg w s) 1 := by
  refine ⟨rfl, ?_, ?_, rfl, rfl, rfl, rfl⟩
  · intro p; simp [after_message, appended_to_sink_events]
  · simp [after_message, console_text_sink_events]

theorem same_view_refl (a : Logger) : a.same_view a :=
  ⟨rfl, rfl, rfl, rfl, rfl, fun _ => rfl, fun _ => rfl⟩

theorem same_view_trans {a b c : Logger} (hab : a.same_view b) (hbc : b.same_view c) :
    a.same_view c := by
  obtain ⟨h1, h2, h3, h4, h5, h6, h7⟩ := hab
  obtain ⟨k1, k2, k3, k4, k5, k6, k7⟩ := hbc
  exact ⟨k1.trans h1, k2.trans h2, k3.trans h3, k4.trans h4, k5.trans h5,
    fun l => (k6 l).trans (h6 l), fun l => (k7 l).trans (h7 l)⟩

theorem format_same_view (lg : Logger) (w : World) (l : ELevel) (msg : String) :
    lg.same_view (lg.format w l msg).2.1 :=
  ⟨rfl, rfl, rfl, rfl, rfl,
    fun j => by simp [Logger.format, Config.name_of, map_index_snd_getD],
    fun j => by simp [Logger.format, Config.color_of, map_index_snd_getD]⟩

theorem sink_events_congr (a b : Logger) (w1 w2 : World)
    (hcon : b.m_Cfg.to_console = a.m_Cfg.to_console)
    (hfiles : b.m_Cfg.log_files.filter w2.openable = a.m_Cfg.log_files.filter w1.openable)
    (s : String) : sink_events b w2 s = sink_events a w1 s := by
  simp only [sink_events, hcon, hfiles]

theorem line_congr (a b : Logger) (hname : ∀ l, b.m_Cfg.name_of l = a.m_Cfg.name_of l)
    (hcolor : ∀ l, b.m_Cfg.color_of l = a.m_Cfg.color_of l) (t : String) (l : ELevel)
    (text : String) : b.line t l text = a.line t l text := by
  simp only [Logger.line, hname, hcolor]

theorem callback_events_congr (a b : Logger) (w1 w2 : World)
    (hcon : b.m_Cfg.to_console = a.m_Cfg.to_console)
    (hfiles : b.m_Cfg.log_files.filter w2.openable = a.m_Cfg.log_files.filter w1.openable)
    (hname : ∀ l, b.m_Cfg.name_of l = a.m_Cfg.name_of l)
    (hcolor : ∀ l, b.m_Cfg.color_of l = a.m_Cfg.color_of l)
    (hclock : w2.clock = w1.clock) (msg : Message) (cbs : List Callback) :
    ∀ idx k, callback_events b w2 msg cbs idx k = callback_events a w1 msg cbs idx k := by
  induction cbs with
  | nil => intro idx k; rfl
  | cons cb rest ih =>
    intro idx k
    simp only [callback_events]
    cases cb msg with
    | none => simp only [ih]
    | some e =>
      simp only [ih, sink_events_congr a b w1 w2 hcon hfiles, line_congr a b hname hcolor, hclock]

theorem handle_callbacks_loop_same_view (msg : Message) (cbs : List Callback) :
    ∀ (idx : Nat) (lg : Logger) (w : World),
      lg.same_view (handle_callbacks_loop msg cbs idx lg w).1 := by
  induction cbs with
  | nil => intro idx lg w; exact same_view_refl lg
  | cons cb rest ih =>
    intro idx lg w
    simp only [handle_callbacks_loop]
    cases hcb : cb msg with
    | none => exact ih _ _ _
    | some e => exact same_view_trans (format_same_view lg _ .ERROR e) (ih _ _ _)

theorem handle_callbacks_loop_grown_by (msg : Message) (cbs : List Callback) :
    ∀ (idx : Nat) (lg : Logger) (w : World), lg.bInCallbacks = true →
      w.grown_by (handle_callbacks_loop msg cbs idx lg w).2
        (callback_events lg w msg cbs idx w.ticks) (returned_errors cbs msg).length := by
  induction cbs with
  | nil => intro idx lg w _; exact grown_by_refl w
  | cons cb rest ih =>
    intro idx lg w hflag
    simp only [handle_callbacks_loop, callback_events, returned_errors, List.filterMap_cons]
    cases hcb : cb msg with
    | none =>
      simp only
      have h1 : w.grown_by { w with trace := w.trace ++ [.callback idx msg none lg.bInCallbacks] }
          [Event.callback idx msg none true] 0 := by
        refine ⟨by simp [hflag], ?_, ?_, rfl, rfl, rfl, rfl⟩
        · intro p; simp [appended_to]
        · simp [console_text]
      have h2 := ih (idx + 1) lg
        { w with trace := w.trace ++ [.callback idx msg none lg.bInCallbacks] } hflag
      have h3 := grown_by_trans h1 h2
      rw [callback_events_congr lg lg w
        { w with trace := w.trace ++ [.callback idx msg none lg.bInCallbacks] }
        rfl rfl (fun _ => rfl) (fun _ => rfl) rfl] at h3
      simpa [returned_errors] using h3
    | some e =>
      simp only
      rw [emit_eq]
      set w1 : World :=
        { w with trace := w.trace ++ [.callback idx msg (some e) lg.bInCallbacks] } with hw1
      set w2 : World := after_message lg w1 (lg.line (w1.clock w1.ticks).timestamp .ERROR e)
        with hw2
      have h1 : w.grown_by w1 [Event.callback idx msg (some e) true] 0 := by
        refine ⟨by simp [hw1, hflag], ?_, ?_, rfl, rfl, rfl, rfl⟩
        · intro p; simp [hw1, appended_to]
        · simp [hw1, console_text]
      have h2 : w1.grown_by w2 (sink_events lg w (lg.line (w.clock w.ticks).timestamp .ERROR e)) 1 :=
        after_message_grown_by lg w1 _
      have h3 : w2.grown_by (handle_callbacks_loop msg rest (idx + 1) (lg.format w1 .ERROR e).2.1 w2).2
          (callback_events lg w msg rest (idx + 1) (w.ticks + 1))
          (returned_errors rest msg).length := by
        have := ih (idx + 1) (lg.format w1 .ERROR e).2.1 w2 hflag
        rw [callback_events_congr lg (lg.format w1 .ERROR e).2.1 w w2 rfl rfl
          (format_same_view lg w1 .ERROR e).2.2.2.2.2.1
          (format_same_view lg w1 .ERROR e).2.2.2.2.2.2 rfl] at this
        exact this
      have h4 := grown_by_trans (grown_by_trans h1 h2) h3
      have h6 : 0 + 1 + (returned_errors rest msg).length =
          (returned_errors rest msg).length + 1 := by omega
      rw [h6] at h4
      simpa [returned_errors] using h4

theorem write_emitted_full (lg : Logger) (w : World) (S : ELevel) (text : String)
    (hflag : lg.bInCallbacks = false) (h : S.toInt ≤ lg.m_Cfg.level.toInt) :
    ∃ lg' w', lg.write w S text = .returned lg' w' ∧ lg.same_view lg' ∧
      (lg.format w S text).2.1.kept_in lg' ∧
      w.grown_by w' (emitted_events lg w S text) (emitted_ticks lg w S text) := by
  simp only [Logger.write, not_lt.mpr h, hflag, if_false, Bool.false_eq_true]
  rw [emit_eq]
  have hm := after_message_grown_by lg w (lg.line (w.clock w.ticks).timestamp S text)
  cases hcbs : lg.m_Cfg.callbacks with
  | nil =>
    have h1 : (lg.format w S text).2.1.m_Cfg.callbacks = [] := hcbs
    simp only [h1, List.isEmpty_nil, Bool.not_true, Bool.false_eq_true, if_false]
    refine ⟨_, _, rfl, format_same_view lg w S text, kept_in_refl _, ?_⟩
    simpa [emitted_events, emitted_ticks, hcbs, callback_events] using hm
  | cons cb rest =>
    have h1 : (lg.format w S text).2.1.m_Cfg.callbacks = cb :: rest := hcbs
    simp only [h1, List.isEmpty_cons, Bool.not_false, if_true, Logger.handle_callbacks,
      emitted_message_eq]
    set w1 : World := after_message lg w (lg.line (w.clock w.ticks).timestamp S text) with hw1
    set lg1 : Logger := { (lg.format w S text).2.1 with bInCallbacks := true } with hlg1
    obtain ⟨_, s2, s3, s4, s5, s6, s7⟩ := handle_callbacks_loop_same_view
      (emitted_message lg w S text) (cb :: rest) 0 lg1 w1.current_time.2
    obtain ⟨_, f2, f3, f4, f5, f6, f7⟩ := format_same_view lg w S text
    obtain ⟨_, k2, k3, k4, k5, k6, k7⟩ := handle_callbacks_loop_kept_in
      (emitted_message lg w S text) (cb :: rest) 0 lg1 w1.current_time.2
    refine ⟨_, _, rfl, ?_, ?_, ?_⟩
    · exact ⟨hflag.symm, s2.trans f2, s3.trans f3, s4.trans f4, s5.trans f5,
        fun l => (s6 l).trans (f6 l), fun l => (s7 l).trans (f7 l)⟩
    · exact ⟨hflag.symm, k2, k3, k4, k5, k6, k7⟩
    · have ht : w1.grown_by w1.current_time.2 [] 1 := by
        refine ⟨by simp [World.current_time], ?_, ?_, rfl, rfl, rfl, rfl⟩
        · intro p; simp [World.current_time, appended_to]
        · simp [World.current_time, console_text]
      have hl := handle_callbacks_loop_grown_by (emitted_message lg w S text) (cb :: rest) 0
        lg1 w1.current_time.2 rfl
      rw [callback_events_congr lg lg1 w w1.current_time.2 f3 rfl f6 f7 rfl] at hl
      have hall := grown_by_trans (grown_by_trans hm ht) hl
      have e1 : w1.current_time.2.ticks = w.ticks + 2 := rfl
      rw [e1] at hall
      have e2 : emitted_ticks lg w S text =
          1 + 1 + (returned_errors (cb :: rest) (emitted_message lg w S text)).length := by
        simp [emitted_ticks, hcbs]; omega
      rw [e2]
      simpa [emitted_events, hcbs] using hall

/-! ## C11: a path that cannot be opened -/

theorem grown_by_unique {w a b : World} {e : List Event} {n : Nat}
    (ha : w.grown_by a e n) (hb : w.grown_by b e n) : a = b := by
  obtain ⟨a1, a2, a3, a4, a5, a6, a7⟩ := ha
  obtain ⟨b1, b2, b3, b4, b5, b6, b7⟩ := hb
  cases a
  cases b
  simp only [World.mk.injEq]
  simp only at a1 a2 a3 a4 a5 a6 a7 b1 b2 b3 b4 b5 b6 b7
  refine ⟨a5.trans b5.symm, a4.trans b4.symm, a7.trans b7.symm, a6.trans b6.symm, ?_,
    a3.trans b3.symm, a1.trans b1.symm⟩
  funext p
  rw [a2, b2]

theorem emitted_only_openable (lg : Logger) (w : World) (S : ELevel) (text : String) :
    emitted_events (lg.only_openable w) w S text = emitted_events lg w S text ∧
    emitted_ticks (lg.only_openable w) w S text = emitted_ticks lg w S text := by
  have hf : (lg.only_openable w).m_Cfg.log_files.filter w.openable =
      lg.m_Cfg.log_files.filter w.openable := by
    simp [Logger.only_openable, List.filter_filter]
  have hm : emitted_message (lg.only_openable w) w S text = emitted_message lg w S text := rfl
  constructor
  · simp only [emitted_events, hm]
    rw [sink_events_congr lg (lg.only_openable w) w w rfl hf,
      callback_events_congr lg (lg.only_openable w) w w rfl hf (fun _ => rfl) (fun _ => rfl) rfl]
    rfl
  · rfl

theorem file_append_mem_sink_events (lg : Logger) (w : World) (s p t : String) :
    Event.file_append p t ∈ sink_events lg w s ↔
      (p ∈ lg.m_Cfg.log_files ∧ w.openable p = true ∧ t = s) := by
  simp only [sink_events, List.mem_append, List.mem_map, List.mem_filter]
  constructor
  · rintro (⟨q, ⟨hq, ho⟩, heq⟩ | h)
    · cases heq; exact ⟨hq, ho, rfl⟩
    · cases lg.m_Cfg.to_console <;> simp at h
  · rintro ⟨hq, ho, rfl⟩
    exact Or.inl ⟨p, ⟨hq, ho⟩, rfl⟩

theorem file_append_mem_callback_events (lg : Logger) (w : World) (msg : Message)
    (cbs : List Callback) (p t : String) :
    ∀ idx k, Event.file_append p t ∈ callback_events lg w msg cbs idx k →
      w.openable p = true := by
  induction cbs with
  | nil => intro idx k h; simp [callback_events] at h
  | cons cb rest ih =>
    intro idx k h
    simp only [callback_events] at h
    cases hcb : cb msg with
    | none =>
      simp only [hcb, List.mem_cons] at h
      rcases h with h | h
      · cases h
      · exact ih _ _ h
    | some e =>
      simp only [hcb, List.mem_cons, List.mem_append] at h
      rcases h with h | h | h
      · cases h
      · exact ((file_append_mem_sink_events lg w _ p t).mp h).2.1
      · exact ih _ _ h

theorem appended_to_eq_empty (p : String) (l : List Event)
    (h : ∀ s, Event.file_append p s ∉ l) : appended_to p l = "" := by
  induction l with
  | nil => rfl
  | cons e rest ih =>
    have hrest : ∀ s, Event.file_append p s ∉ rest := fun s hm => h s (List.mem_cons_of_mem _ hm)
    cases e with
    | file_append q t =>
      have hq : q ≠ p := by
        intro hq
        subst hq
        exact h t (List.mem_cons_self _ _)
      simp [appended_to, hq, ih hrest]
    | console t => simpa [appended_to] using ih hrest
    | callback i m r f => simpa [appended_to] using ih hrest

/-- C11. For an emitted `write` on a logger whose reentrancy flag is clear, whatever the
file list: the call returns normally; a path that does not open keeps its content and no
append to it is among the events; every file-list entry that opens gets the formatted
message appended, the console gets it when the console flag is on, and every callback
is invoked; and the world after the call is the very world the same call leaves on the
logger whose file list holds only the paths that open. -/
theorem C11_unopenable_path_skipped (lg : Logger) (w : World) (S : ELevel) (text : String)
    (hflag : lg.bInCallbacks = false) (hle : S.position ≤ lg.m_Cfg.level.position) :
    ∃ lg' w' lg2 new, lg.write w S text = .returned lg' w' ∧
      w'.trace = w.trace ++ new ∧
      (∀ p, w.openable p = false →
        w'.files p = w.files p ∧ ∀ s, Event.file_append p s ∉ new) ∧
      (∀ p ∈ lg.m_Cfg.log_files, w.openable p = true →
        Event.file_append p (lg.format w S text).1 ∈ new) ∧
      (lg.m_Cfg.to_console = true → Event.console (lg.format w S text).1 ∈ new) ∧
      (new.filter Event.is_callback).length = lg.m_Cfg.callbacks.length ∧
      (lg.only_openable w).write w S text = .returned lg2 w' := by
  have h := (position_le_iff _ _).mp hle
  obtain ⟨lg', w', h1, _, _, hg⟩ := write_emitted_full lg w S text hflag h
  obtain ⟨lg2, w2, k1, _, _, kg⟩ := write_emitted_full (lg.only_openable w) w S text hflag h
  rw [(emitted_only_openable lg w S text).1, (emitted_only_openable lg w S text).2] at kg
  have hw : w2 = w' := grown_by_unique kg hg
  rw [hw] at k1
  have hnot : ∀ p, w.openable p = false → ∀ s,
      Event.file_append p s ∉ emitted_events lg w S text := by
    intro p hp s hmem
    simp only [emitted_events, List.mem_append] at hmem
    rcases hmem with hmem | hmem
    · rw [((file_append_mem_sink_events lg w _ p s).mp hmem).2.1] at hp; cases hp
    · rw [file_append_mem_callback_events lg w _ _ p s _ _ hmem] at hp; cases hp
  refine ⟨lg', w', lg2, emitted_events lg w S text, h1, hg.1, ?_, ?_, ?_, ?_, k1⟩
  · intro p hp
    refine ⟨?_, hnot p hp⟩
    rw [hg.2.1 p, appended_to_eq_empty p _ (hnot p hp), String.append_empty]
  · intro p hp ho
    rw [format_fst]
    exact List.mem_append_left _ ((file_append_mem_sink_events lg w _ p _).mpr ⟨hp, ho, rfl⟩)
  · intro hc
    rw [format_fst]
    apply List.mem_append_left
    simp [sink_events, hc]
  · simp only [emitted_events]
    rw [List.filter_append, filter_is_callback_sink_events, filter_is_callback_callback_events]
    simp

/-- C11 at a logger whose first file does not open, with an erring callback. -/
theorem C11_unopenable_path_skipped_witness :
    locked_file_logger.bInCallbacks = false ∧
    ELevel.INFO.position ≤ locked_file_logger.m_Cfg.level.position ∧
    locked_world.openable "locked.log" = false ∧
    ∃ lg' w', locked_file_logger.write locked_world .INFO "x" = .returned lg' w' ∧
      w'.files "locked.log" = "" ∧
      w'.files "a.log" =
        "[05-Jan-2024•09:08:07] [\x1b[32mINFO\x1b[0m] x\n" ++
          "[05-Jan-2024•09:08:07] [\x1b[31mERROR\x1b[0m] failed\n" :=
  ⟨rfl, by decide, by decide, by
    obtain ⟨lg', w', _, new, h1, _, h3, _, _, _, _⟩ :=
      C11_unopenable_path_skipped locked_file_logger locked_world .INFO "x" rfl (by decide)
    refine ⟨lg', w', h1, (h3 "locked.log" (by decide)).1, ?_⟩
    have h2 : locked_file_logger.write locked_world .INFO "x" = .returned _ _ := rfl
    rw [h2] at h1
    cases h1
    decide⟩

/-! ## C12: the assertion report -/

theorem emitted_congr (a b : Logger) (w1 w2 : World) (hv : a.same_view b)
    (hopen : w2.openable = w1.openable) (hclock : w2.clock = w1.clock)
    (hticks : w2.ticks = w1.ticks) (S : ELevel) (text : String) :
    emitted_events b w2 S text = emitted_events a w1 S text ∧
    emitted_ticks b w2 S text = emitted_ticks a w1 S text := by
  obtain ⟨_, _, h3, h4, h5, h6, h7⟩ := hv
  have hm : emitted_message b w2 S text = emitted_message a w1 S text := by
    simp only [emitted_message, hclock, hticks, line_congr a b h6 h7]
  have hf : b.m_Cfg.log_files.filter w2.openable = a.m_Cfg.log_files.filter w1.openable := by
    rw [h4, hopen]
  constructor
  · simp only [emitted_events, hm, h5, hticks, hclock, line_congr a b h6 h7,
      sink_events_congr a b w1 w2 h3 hf,
      callback_events_congr a b w1 w2 h3 hf h6 h7 hclock]
  · simp only [emitted_ticks, hm, h5]

theorem write_all_congr (a b : Logger) (level : ELevel) (texts : List String) :
    ∀ (w1 w2 : World), a.same_view b → w2.openable = w1.openable → w2.clock = w1.clock →
      w2.ticks = w1.ticks →
      write_all_events b w2 level texts = write_all_events a w1 level texts ∧
      write_all_ticks b w2 level texts = write_all_ticks a w1 level texts := by
  induction texts with
  | nil => intro w1 w2 _ _ _ _; exact ⟨rfl, rfl⟩
  | cons t rest ih =>
    intro w1 w2 hv hopen hclock hticks
    obtain ⟨e1, e2⟩ := emitted_congr a b w1 w2 hv hopen hclock hticks level t
    obtain ⟨r1, r2⟩ := ih { w1 with ticks := w1.ticks + emitted_ticks a w1 level t }
      { w2 with ticks := w2.ticks + emitted_ticks b w2 level t } hv hopen hclock
      (by show w2.ticks + _ = w1.ticks + _; rw [hticks, e2])
    simp only [write_all_events, write_all_ticks]
    rw [r1, r2, e1, e2]
    exact ⟨rfl, rfl⟩

theorem write_all_emitted (level : ELevel) (texts : List String) :
    ∀ (lg : Logger) (w : World), lg.bInCallbacks = false →
      level.toInt ≤ lg.m_Cfg.level.toInt →
      ∃ lg' w', write_all level texts lg w = .returned lg' w' ∧ lg.same_view lg' ∧
        w.grown_by w' (write_all_events lg w level texts) (write_all_ticks lg w level texts) := by
  induction texts with
  | nil => intro lg w _ _; exact ⟨lg, w, rfl, same_view_refl lg, grown_by_refl w⟩
  | cons t rest ih =>
    intro lg w hflag hle
    obtain ⟨lg1, w1, h1, hv1, _, hg1⟩ := write_emitted_full lg w level t hflag hle
    obtain ⟨lg2, w2, h2, hv2, hg2⟩ := ih lg1 w1 (hv1.1.trans hflag)
      (by rw [hv1.2.1]; exact hle)
    refine ⟨lg2, w2, ?_, same_view_trans hv1 hv2, ?_⟩
    · simp only [write_all, h1, Outcome.andThen, h2]
    · obtain ⟨c1, c2⟩ := write_all_congr lg lg1 level rest
        { w with ticks := w.ticks + emitted_ticks lg w level t } w1 hv1 hg1.2.2.2.2.2.1
        hg1.2.2.2.2.1 hg1.2.2.2.1
      rw [c1, c2] at hg2
      exact grown_by_trans hg1 hg2

theorem write_all_filtered (level : ELevel) (texts : List String) (lg : Logger) (w : World)
    (h : lg.m_Cfg.level.toInt < level.toInt) :
    write_all level texts lg w = .returned lg w := by
  induction texts with
  | nil => rfl
  | cons t rest ih => simp only [write_all, write_of_filtered lg w level t h, Outcome.andThen, ih]

theorem assertion_eq_spec (lg : Logger) (w : World) (file : String) (line : Int)
    (func expr msg : String) :
    lg.assertion w file line func expr msg = assertion_spec lg w file line func expr msg := by
  have h1 : std_format "File   \x7b\x7d:\x7b\x7d" [.str file, .int line] =
      "File   " ++ file ++ ":" ++ to_string line := by
    apply String.ext
    simp [std_format, std_format_go, render, to_string, String.data_append]
  have h2 : ∀ s, std_format "Func:  \x7b\x7d" [.str s] = "Func:  " ++ s :=
    fun s => std_format_one "Func:  " s (by decide)
  have h3 : ∀ s, std_format "Expr:  \x7b\x7d" [.str s] = "Expr:  " ++ s :=
    fun s => std_format_one "Expr:  " s (by decide)
  have h4 : ∀ s, std_format "Error: \x7b\x7d" [.str s] = "Error: " ++ s :=
    fun s => std_format_one "Error: " s (by decide)
  simp only [Logger.assertion, assertion_spec, write_all, h1, h2, h3, h4]
  cases lg.write w .ASSERT ("File   " ++ file ++ ":" ++ to_string line) with
  | aborted w1 => rfl
  | returned lg1 w1 =>
    simp only [Outcome.andThen]
    cases lg1.write w1 .ASSERT ("Func:  " ++ func) with
    | aborted w2 => rfl
    | returned lg2 w2 =>
      simp only [Outcome.andThen]
      cases lg2.write w2 .ASSERT ("Expr:  " ++ expr) with
      | aborted w3 => rfl
      | returned lg3 w3 =>
        simp only [Outcome.andThen]
        cases lg3.write w3 .ASSERT ("Error: " ++ msg) with
        | aborted w4 => rfl
        | returned lg4 w4 => rfl

/-- C12. The call `assertion(file, line, func, expr, msg)` is the four consecutive calls
`write(ASSERT, .)` with the file and line, the function signature, the expression text
and the error message, in this order. With the threshold before `ASSERT` in the order it
returns with nothing changed; with the threshold at `ASSERT` or `ALL` and the reentrancy
flag clear it returns after the events of four emitted writes, one after the other, which
without callbacks are exactly the four formatted `ASSERT` lines, each on every enabled
sink, at four consecutive clock readings. -/
theorem C12_assertion_four_writes (lg : Logger) (w : World) (file : String) (line : Int)
    (func expr msg : String) :
    lg.assertion w file line func expr msg = assertion_spec lg w file line func expr msg ∧
    (lg.m_Cfg.level.position < ELevel.ASSERT.position →
      lg.assertion w file line func expr msg = .returned lg w) ∧
    (ELevel.ASSERT.position ≤ lg.m_Cfg.level.position → lg.bInCallbacks = false →
      ∃ lg' w', lg.assertion w file line func expr msg = .returned lg' w' ∧
        w'.trace = w.trace ++
          write_all_events lg w .ASSERT
            ["File   " ++ file ++ ":" ++ to_string line, "Func:  " ++ func, "Expr:  " ++ expr,
              "Error: " ++ msg] ∧
        (lg.m_Cfg.callbacks = [] →
          w'.trace = w.trace ++
            sink_events lg w
              (lg.format w .ASSERT ("File   " ++ file ++ ":" ++ to_string line)).1 ++
            sink_events lg w
              (lg.format { w with ticks := w.ticks + 1 } .ASSERT ("Func:  " ++ func)).1 ++
            sink_events lg w
              (lg.format { w with ticks := w.ticks + 2 } .ASSERT ("Expr:  " ++ expr)).1 ++
            sink_events lg w
              (lg.format { w with ticks := w.ticks + 3 } .ASSERT ("Error: " ++ msg)).1)) := by
  refine ⟨assertion_eq_spec lg w file line func expr msg, ?_, ?_⟩
  · intro hlt
    rw [assertion_eq_spec]
    exact write_all_filtered _ _ lg w ((position_lt_iff _ _).mp hlt)
  · intro hle hflag
    obtain ⟨lg', w', h1, _, hg⟩ := write_all_emitted .ASSERT
      ["File   " ++ file ++ ":" ++ to_string line, "Func:  " ++ func, "Expr:  " ++ expr,
        "Error: " ++ msg] lg w hflag ((position_le_iff _ _).mp hle)
    refine ⟨lg', w', by rw [assertion_eq_spec]; exact h1, hg.1, ?_⟩
    intro hcbs
    rw [hg.1]
    simp [write_all_events, emitted_events, emitted_ticks, hcbs, callback_events, format_fst,
      sink_events]

/-- C12 at the default logger: the four lines of an assertion report on the console. -/
theorem C12_assertion_four_writes_witness :
    ELevel.ASSERT.position ≤ Logger.ctor.m_Cfg.level.position ∧
    Logger.ctor.bInCallbacks = false ∧
    ∃ lg' w', Logger.ctor.assertion sample_world "main.cpp" 7 "int main()" "x > 0" "bad x" =
        .returned lg' w' ∧
      w'.stdout =
        "[05-Jan-2024•09:08:07] [\x1b[4m\x1b[31mASSERT\x1b[0m] File   main.cpp:7\n" ++
        "[05-Jan-2024•09:08:07] [\x1b[4m\x1b[31mASSERT\x1b[0m] Func:  int main()\n" ++
        "[05-Jan-2024•09:08:07] [\x1b[4m\x1b[31mASSERT\x1b[0m] Expr:  x > 0\n" ++
        "[05-Jan-2024•09:08:07] [\x1b[4m\x1b[31mASSERT\x1b[0m] Error: bad x\n" :=
  ⟨by decide, rfl, by
    obtain ⟨lg', w', h1, _, _⟩ :=
      (C12_assertion_four_writes Logger.ctor sample_world "main.cpp" 7 "int main()" "x > 0"
        "bad x").2.2 (by decide) rfl
    refine ⟨lg', w', h1, ?_⟩
    have h2 : Logger.ctor.assertion sample_world "main.cpp" 7 "int main()" "x > 0" "bad x" =
        .returned _ _ := rfl
    rw [h2] at h1
    cases h1
    rfl⟩

/-! ## C13: `add_file` and repeated paths -/

theorem appended_to_callback_events (lg : Logger) (w : World) (msg : Message)
    (cbs : List Callback) (p : String) :
    ∀ idx k, appended_to p (callback_events lg w msg cbs idx k) =
      concat_all (((returned_errors cbs msg).enumFrom k).map fun e =>
        repeat_string (lg.line (w.clock e.1).timestamp .ERROR e.2)
          ((lg.m_Cfg.log_files.filter w.openable).count p)) := by
  induction cbs with
  | nil => intro idx k; rfl
  | cons cb rest ih =>
    intro idx k
    simp only [callback_events, returned_errors, List.filterMap_cons]
    cases hcb : cb msg with
    | none =>
      simp only [appended_to]
      exact ih (idx + 1) k
    | some e =>
      simp only [appended_to, appended_to_append, appended_to_sink_events, List.enumFrom_cons,
        List.map_cons, concat_all]
      rw [ih (idx + 1) (k + 1)]
      rfl

/-- C13, as stated, fails in its second half: with `a.log` twice in the file list and a
callback that returns an error, one emitted `write` appends the INFO line twice and then
the `ERROR` line of the callback twice, which is more than the formatted message repeated
once per occurrence of the path. -/
theorem C13_counterexample :
    ∃ lg' w', twice_file_logger.write sample_world .INFO "x" = .returned lg' w' ∧
      w'.files "a.log" =
        "[05-Jan-2024•09:08:07] [\x1b[32mINFO\x1b[0m] x\n" ++
        "[05-Jan-2024•09:08:07] [\x1b[32mINFO\x1b[0m] x\n" ++
        "[05-Jan-2024•09:08:07] [\x1b[31mERROR\x1b[0m] failed\n" ++
        "[05-Jan-2024•09:08:07] [\x1b[31mERROR\x1b[0m] failed\n" ∧
      w'.files "a.log" ≠
        sample_world.files "a.log" ++
          repeat_string (twice_file_logger.format sample_world .INFO "x").1
            (twice_file_logger.m_Cfg.log_files.count "a.log") :=
  ⟨_, _, rfl, by rfl, by decide⟩

/-- C13, amended. The call `add_file(p)` puts `p` at the end of the file list, also when
`p` is already in it: the list grows by one, the earlier entries keep their order and
every other field of the configuration is unchanged. For every emitted `write` on a
logger whose reentrancy flag is clear, what the call appends to an openable path is the
formatted message repeated once per occurrence of the path in the file list, followed,
for each error string a callback returned, by the `ERROR` line of that error repeated
once per occurrence likewise; when no callback returns an error it is the repeated
message alone. -/
theorem C13_add_file_no_dedup (cfg : Config) (q : String) (lg : Logger) (w : World)
    (S : ELevel) (text : String) (p : String) (hflag : lg.bInCallbacks = false)
    (hle : S.position ≤ lg.m_Cfg.level.position) (hopen : w.openable p = true) :
    ((cfg.add_file q).log_files = cfg.log_files ++ [q] ∧
      (cfg.add_file q).log_files.length = cfg.log_files.length + 1 ∧
      (cfg.add_file q).log_files.count q = cfg.log_files.count q + 1 ∧
      (cfg.add_file q).level = cfg.level ∧
      (cfg.add_file q).to_console = cfg.to_console ∧
      (cfg.add_file q).callbacks = cfg.callbacks ∧
      (cfg.add_file q).level_names = cfg.level_names ∧
      (cfg.add_file q).level_colors = cfg.level_colors) ∧
    ∃ lg' w', lg.write w S text = .returned lg' w' ∧
      w'.files p = w.files p ++
        repeat_string (lg.format w S text).1 (lg.m_Cfg.log_files.count p) ++
        concat_all
          (((returned_errors lg.m_Cfg.callbacks (emitted_message lg w S text)).enumFrom
              (w.ticks + 2)).map fun e =>
            repeat_string (lg.format { w with ticks := e.1 } .ERROR e.2).1
              (lg.m_Cfg.log_files.count p)) ∧
      ((∀ cb ∈ lg.m_Cfg.callbacks, cb (emitted_message lg w S text) = none) →
        w'.files p = w.files p ++
          repeat_string (lg.format w S text).1 (lg.m_Cfg.log_files.count p)) := by
  refine ⟨⟨rfl, by simp [Config.add_file], by simp [Config.add_file], rfl, rfl, rfl, rfl, rfl⟩,
    ?_⟩
  obtain ⟨lg', w', h1, _, _, hg⟩ :=
    write_emitted_full lg w S text hflag ((position_le_iff _ _).mp hle)
  have hcount : (lg.m_Cfg.log_files.filter w.openable).count p = lg.m_Cfg.log_files.count p :=
    List.count_filter hopen
  have hfiles : w'.files p = w.files p ++
      repeat_string (lg.format w S text).1 (lg.m_Cfg.log_files.count p) ++
      concat_all
        (((returned_errors lg.m_Cfg.callbacks (emitted_message lg w S text)).enumFrom
            (w.ticks + 2)).map fun e =>
          repeat_string (lg.format { w with ticks := e.1 } .ERROR e.2).1
            (lg.m_Cfg.log_files.count p)) := by
    rw [hg.2.1 p]
    simp only [emitted_events, appended_to_append, appended_to_sink_events,
      appended_to_callback_events, hcount, format_fst, String.append_assoc]
  refine ⟨lg', w', h1, hfiles, ?_⟩
  intro hnone
  have herr : returned_errors lg.m_Cfg.callbacks (emitted_message lg w S text) = [] := by
    simp only [returned_errors, List.filterMap_eq_nil_iff]
    exact hnone
  rw [hfiles, herr]
  simp [concat_all]

/-- C13 amended, at the logger with `a.log` twice and an erring callback. -/
theorem C13_add_file_no_dedup_witness :
    twice_file_logger.bInCallbacks = false ∧
    ELevel.INFO.position ≤ twice_file_logger.m_Cfg.level.position ∧
    sample_world.openable "a.log" = true ∧
    ((Logger.ctor.m_Cfg.add_file "a.log").add_file "a.log").log_files.count "a.log" = 2 ∧
    ∃ lg' w', twice_file_logger.write sample_world .INFO "x" = .returned lg' w' ∧
      w'.files "a.log" =
        "[05-Jan-2024•09:08:07] [\x1b[32mINFO\x1b[0m] x\n" ++
        "[05-Jan-2024•09:08:07] [\x1b[32mINFO\x1b[0m] x\n" ++
        "[05-Jan-2024•09:08:07] [\x1b[31mERROR\x1b[0m] failed\n" ++
        "[05-Jan-2024•09:08:07] [\x1b[31mERROR\x1b[0m] failed\n" :=
  ⟨rfl, by decide, rfl, by
    rw [(C13_add_file_no_dedup (Logger.ctor.m_Cfg.add_file "a.log") "a.log" twice_file_logger
      sample_world .INFO "x" "a.log" rfl (by decide) rfl).1.2.2.1]
    rfl, by
    obtain ⟨lg', w', h1, h2, _⟩ :=
      (C13_add_file_no_dedup Logger.ctor.m_Cfg "a.log" twice_file_logger sample_world .INFO
        "x" "a.log" rfl (by decide) rfl).2
    exact ⟨lg', w', h1, by rw [h2]; rfl⟩⟩

/-! ## C15: `format_with_commas` -/

theorem insert_commas_fuel (fuel : Nat) : ∀ (insert_position : Int) (num : List Char),
    insert_position ≤ fuel →
    insert_commas (fuel + 1) insert_position num = insert_commas fuel insert_position num := by
  induction fuel with
  | zero =>
    intro pos num h
    have h0 : ¬ pos > 0 := by omega
    simp [insert_commas, h0]
  | succ f ih =>
    intro pos num h
    have e1 : insert_commas (f + 1 + 1) pos num =
        if pos > 0 then
          insert_commas (f + 1) (pos - 3) (string_insert num pos.toNat [','])
        else num := rfl
    have e2 : insert_commas (f + 1) pos num =
        if pos > 0 then insert_commas f (pos - 3) (string_insert num pos.toNat [','])
        else num := rfl
    rw [e1, e2]
    by_cases hp : pos > 0
    · rw [if_pos hp, if_pos hp]
      exact ih _ _ (by omega)
    · rw [if_neg hp, if_neg hp]

theorem digitChar_ne_comma (n : Nat) (h : n < 10) : Nat.digitChar n ≠ ',' := by
  interval_cases n <;> decide

theorem toDigitsCore_no_comma (fuel : Nat) : ∀ (n : Nat) (ds : List Char),
    ',' ∉ ds → ',' ∉ Nat.toDigitsCore 10 fuel n ds := by
  induction fuel with
  | zero => intro n ds h; simpa [Nat.toDigitsCore] using h
  | succ f ih =>
    intro n ds h
    have hd : ',' ∉ Nat.digitChar (n % 10) :: ds := by
      intro hm
      rcases List.mem_cons.mp hm with h1 | h1
      · exact digitChar_ne_comma (n % 10) (Nat.mod_lt _ (by decide)) h1.symm
      · exact h h1
    simp only [Nat.toDigitsCore]
    by_cases h0 : n / 10 = 0
    · simpa [h0] using hd
    · simp only [h0, if_false]
      exact ih _ _ hd

theorem to_string_no_comma (v : Int) : ',' ∉ (to_string v).data := by
  have hd : ',' ∉ Nat.toDigits 10 v.natAbs := toDigitsCore_no_comma _ _ _ (by simp)
  simp only [to_string, zero_pad]
  by_cases h : v < 0
  · simp only [h, if_true]
    intro hm
    rcases List.mem_cons.mp hm with h1 | h1
    · exact absurd h1 (by decide)
    · rcases List.mem_append.mp h1 with h2 | h2
      · exact absurd (List.eq_of_mem_replicate h2) (by decide)
      · exact hd h2
  · simp only [h, if_false]
    intro hm
    rcases List.mem_append.mp hm with h2 | h2
    · exact absurd (List.eq_of_mem_replicate h2) (by decide)
    · exact hd h2

theorem insert_commas_filter (fuel : Nat) : ∀ (insert_position : Int) (num : List Char),
    (insert_commas fuel insert_position num).filter (fun c => c != ',') =
      num.filter (fun c => c != ',') := by
  induction fuel with
  | zero => intro pos num; rfl
  | succ f ih =>
    intro pos num
    have e : insert_commas (f + 1) pos num =
        if pos > 0 then insert_commas f (pos - 3) (string_insert num pos.toNat [','])
        else num := rfl
    rw [e]
    by_cases hp : pos > 0
    · rw [if_pos hp, ih]
      simp only [string_insert, List.filter_append]
      have hc : List.filter (fun c => c != ',') [','] = [] := by decide
      rw [hc, List.append_nil, ← List.filter_append, List.take_append_drop]
    · rw [if_neg hp]

/-- C15 on concrete values. For `-123` and `-123456` the function puts a comma directly
after the minus sign; `-1234`, `0`, `999`, `1000`, `1234567` and the largest 64-bit value
come out grouped in threes from the right. For every value the commas are the only
characters added: without them the result is `std::to_string(v)`. -/
theorem C15_format_with_commas_values :
    format_with_commas (-123) = "-,123" ∧
    format_with_commas (-123456) = "-,123,456" ∧
    format_with_commas (-1234) = "-1,234" ∧
    format_with_commas 0 = "0" ∧
    format_with_commas 999 = "999" ∧
    format_with_commas 1000 = "1,000" ∧
    format_with_commas 1234567 = "1,234,567" ∧
    format_with_commas 9223372036854775807 = "9,223,372,036,854,775,807" ∧
    ∀ v : Int, (format_with_commas v).data.filter (fun c => c != ',') = (to_string v).data := by
  refine ⟨by decide, by decide, by decide, by decide, by decide, by decide, by decide,
    by decide, ?_⟩
  intro v
  simp only [format_with_commas]
  rw [insert_commas_filter]
  apply List.filter_eq_self.mpr
  intro c hc
  have := to_string_no_comma v
  simp only [bne_iff_ne, ne_eq]
  intro h
  rw [h] at hc
  exact this hc

/-! ## C16: `BiMap::insert` -/

theorem map_find_assign_self {A B : Type} [DecidableEq A] (m : List (A × B)) (k : A) (v : B) :
    map_find (map_assign m k v) k = some v := by
  induction m with
  | nil => simp [map_assign, map_find]
  | cons p rest ih =>
    obtain ⟨a, b⟩ := p
    by_cases h : a = k
    · simp [map_assign, map_find, h]
    · simp [map_assign, map_find, h, ih]

theorem map_find_assign_of_ne {A B : Type} [DecidableEq A] (m : List (A × B)) (k j : A)
    (v : B) (h : j ≠ k) : map_find (map_assign m k v) j = map_find m j := by
  induction m with
  | nil => simp [map_assign, map_find, Ne.symm h]
  | cons p rest ih =>
    obtain ⟨a, b⟩ := p
    by_cases h1 : a = k
    · subst h1
      simp [map_assign, map_find, Ne.symm h]
    · by_cases h2 : a = j
      · subst h2
        simp [map_assign, map_find, h]
      · simp [map_assign, map_find, h1, h2, ih]

theorem map_assign_length_of_new {A B : Type} [DecidableEq A] (m : List (A × B)) (k : A)
    (v : B) (h : map_find m k = none) : (map_assign m k v).length = m.length + 1 := by
  induction m with
  | nil => rfl
  | cons p rest ih =>
    obtain ⟨a, b⟩ := p
    by_cases h1 : a = k
    · simp [map_find, h1] at h
    · simp only [map_find, h1, if_false] at h
      simp [map_assign, h1, ih h]

theorem map_count_eq_zero_iff {A B : Type} [DecidableEq A] (m : List (A × B)) (k : A) :
    map_count m k = 0 ↔ map_find m k = none := by
  unfold map_count
  cases map_find m k <;> simp

/-- C16 (code defect): on a `BiMap<int, long>`, `insert(1, 100L)` on the empty map returns
true and writes the pair into both maps, `at(1)` is 100 and `contains(1)` holds; but
`contains(100L)` is false and `at(100L)` finds nothing, because a `long` converts to an
`int` and the calls are compiled to the forward-map branch. With the pairs (1, 2) and
(2, 5), `at(2L)` hands out the value 5 of the key 2 instead of the key 1. For key and
value types where the value type does not convert to the key type the claim holds: when
`k` is already a key or `v` is already a value, `insert(k, v)` returns false and leaves
both directions as they are; otherwise it returns true and afterwards `at(k)` is `v`,
`at(v)` is `k`, `contains(k)` and `contains(v)` hold, `size()` is one more than before and
every pair present before is still present in its direction. -/
theorem C16_value_lookup_reads_forward {K V : Type} [DecidableEq K] [DecidableEq V]
    (b : BiMap K V) (k : K) (v : V) :
    ((BiMap.ctor : BiMap Int Int).insert 1 100 = (true, long_bimap) ∧
      long_bimap.m_Fwd = [(1, 100)] ∧ long_bimap.m_Rev = [(100, 1)] ∧
      long_bimap.at_key 1 = some 100 ∧
      long_bimap.contains_key 1 = true ∧
      long_bimap.contains_value (some long_to_int) 100 = false ∧
      long_bimap.at_value (some long_to_int) 100 = none ∧
      ((BiMap.ctor : BiMap Int Int).insert 1 2).2.insert 2 5 = (true, long_pairs) ∧
      long_pairs.at_value (some long_to_int) 2 = some (.inr 5)) ∧
    ((b.contains_key k = true ∨ b.contains_value none v = true) →
      b.insert k v = (false, b)) ∧
    (b.contains_key k = false → b.contains_value none v = false →
      (b.insert k v).1 = true ∧
      (b.insert k v).2.at_key k = some v ∧
      (b.insert k v).2.at_value none v = some (.inl k) ∧
      (b.insert k v).2.contains_key k = true ∧
      (b.insert k v).2.contains_value none v = true ∧
      (b.insert k v).2.size = b.size + 1 ∧
      (∀ k' v', b.at_key k' = some v' → (b.insert k v).2.at_key k' = some v') ∧
      (∀ v' k', b.at_value none v' = some (.inl k') →
        (b.insert k v).2.at_value none v' = some (.inl k'))) := by
  refine ⟨⟨rfl, rfl, rfl, rfl, rfl, rfl, rfl, rfl, rfl⟩, ?_, ?_⟩
  · intro h
    simp only [BiMap.contains_key, BiMap.contains_value, decide_eq_true_eq] at h
    have hc : (map_count b.m_Fwd k != 0 || map_count b.m_Rev v != 0) = true := by
      rcases h with h | h
      · simp [Nat.pos_iff_ne_zero.mp h]
      · simp [Nat.pos_iff_ne_zero.mp h]
    simp [BiMap.insert, hc]
  · intro hk hv
    simp only [BiMap.contains_key, BiMap.contains_value, decide_eq_false_iff_not,
      Nat.pos_iff_ne_zero, ne_eq, not_not] at hk hv
    have hfk : map_find b.m_Fwd k = none := (map_count_eq_zero_iff _ _).mp hk
    have hfv : map_find b.m_Rev v = none := (map_count_eq_zero_iff _ _).mp hv
    have hins : b.insert k v =
        (true, { m_Fwd := map_assign b.m_Fwd k v, m_Rev := map_assign b.m_Rev v k }) := by
      simp [BiMap.insert, hk, hv]
    rw [hins]
    refine ⟨rfl, map_find_assign_self _ _ _, ?_, ?_, ?_,
      map_assign_length_of_new _ _ _ hfk, ?_, ?_⟩
    · simp [BiMap.at_value, map_find_assign_self]
    · simp [BiMap.contains_key, map_count, map_find_assign_self]
    · simp [BiMap.contains_value, map_count, map_find_assign_self]
    · intro k' v' h
      have hne : k' ≠ k := by
        intro e
        rw [e] at h
        simp only [BiMap.at_key] at h
        rw [hfk] at h
        cases h
      simpa [BiMap.at_key, map_find_assign_of_ne _ _ _ _ hne] using h
    · intro v' k' h
      have hne : v' ≠ v := by
        intro e
        rw [e] at h
        simp only [BiMap.at_value] at h
        rw [hfv] at h
        cases h
      simpa [BiMap.at_value, map_find_assign_of_ne _ _ _ _ hne] using h

/-- C16 on the sample map from numbers to names, where the value type does not convert to
the key type: a new pair goes in, a pair with a known key does not. -/
theorem C16_value_lookup_reads_forward_witness :
    sample_bimap.contains_key 3 = false ∧ sample_bimap.contains_value none "three" = false ∧
    (sample_bimap.insert 3 "three").1 = true ∧
    (sample_bimap.insert 3 "three").2.at_value none "three" = some (.inl 3) ∧
    (sample_bimap.insert 3 "three").2.size = 3 ∧
    sample_bimap.insert 1 "uno" = (false, sample_bimap) :=
  ⟨by decide, by decide,
    ((C16_value_lookup_reads_forward sample_bimap 3 "three").2.2 (by decide) (by decide)).1,
    ((C16_value_lookup_reads_forward sample_bimap 3 "three").2.2 (by decide)
      (by decide)).2.2.1,
    by
      rw [((C16_value_lookup_reads_forward sample_bimap 3 "three").2.2 (by decide)
        (by decide)).2.2.2.2.2.1]
      rfl,
    (C16_value_lookup_reads_forward sample_bimap 1 "uno").2.1 (Or.inl (by decide))⟩

/-! ## C17 and C18: what the interface keeps -/

theorem callbacks_saw_flag_append {a b : List Event} (ha : callbacks_saw_flag a)
    (hb : callbacks_saw_flag b) : callbacks_saw_flag (a ++ b) := by
  intro i m r f h
  rcases List.mem_append.mp h with h | h
  · exact ha i m r f h
  · exact hb i m r f h

theorem callbacks_saw_flag_sink_events (lg : Logger) (w : World) (s : String) :
    callbacks_saw_flag (sink_events lg w s) := by
  intro i m r f h
  simp only [sink_events, List.mem_append, List.mem_map] at h
  rcases h with ⟨p, _, hp⟩ | h
  · cases hp
  · cases lg.m_Cfg.to_console <;> simp at h

theorem callbacks_saw_flag_callback_events (lg : Logger) (w : World) (msg : Message)
    (cbs : List Callback) : ∀ idx k, callbacks_saw_flag (callback_events lg w msg cbs idx k) := by
  induction cbs with
  | nil => intro idx k i m r f h; simp [callback_events] at h
  | cons cb rest ih =>
    intro idx k i m r f h
    simp only [callback_events] at h
    cases hcb : cb msg with
    | none =>
      simp only [hcb, List.mem_cons] at h
      rcases h with h | h
      · cases h; rfl
      · exact ih _ _ i m r f h
    | some e =>
      simp only [hcb, List.mem_cons, List.mem_append] at h
      rcases h with h | h | h
      · cases h; rfl
      · exact callbacks_saw_flag_sink_events lg w _ i m r f h
      · exact ih _ _ i m r f h

theorem write_returns (lg : Logger) (w : World) (S : ELevel) (text : String)
    (hflag : lg.bInCallbacks = false) :
    ∃ lg' w' new, lg.write w S text = .returned lg' w' ∧ lg.kept_in lg' ∧
      w'.trace = w.trace ++ new ∧ callbacks_saw_flag new := by
  by_cases h : S.toInt ≤ lg.m_Cfg.level.toInt
  · obtain ⟨lg', w', h1, _, h3, hg⟩ := write_emitted_full lg w S text hflag h
    exact ⟨lg', w', _, h1, kept_in_trans (format_kept_in lg w S text) h3, hg.1,
      callbacks_saw_flag_append (callbacks_saw_flag_sink_events lg w _)
        (callbacks_saw_flag_callback_events lg w _ _ _ _)⟩
  · refine ⟨lg, w, [], write_of_filtered lg w S text (not_le.mp h), kept_in_refl lg, by simp, ?_⟩
    intro i m r f hm
    cases hm

theorem write_all_returns (level : ELevel) (texts : List String) :
    ∀ (lg : Logger) (w : World), lg.bInCallbacks = false →
      ∃ lg' w' new, write_all level texts lg w = .returned lg' w' ∧ lg.kept_in lg' ∧
        w'.trace = w.trace ++ new ∧ callbacks_saw_flag new := by
  induction texts with
  | nil =>
    intro lg w _
    exact ⟨lg, w, [], rfl, kept_in_refl lg, by simp, fun i m r f hm => by cases hm⟩
  | cons t rest ih =>
    intro lg w hflag
    obtain ⟨lg1, w1, n1, h1, k1, t1, c1⟩ := write_returns lg w level t hflag
    obtain ⟨lg2, w2, n2, h2, k2, t2, c2⟩ := ih lg1 w1 (k1.1.trans hflag)
    refine ⟨lg2, w2, n1 ++ n2, ?_, kept_in_trans k1 k2, ?_, callbacks_saw_flag_append c1 c2⟩
    · simp only [write_all, h1, Outcome.andThen, h2]
    · rw [t2, t1, List.append_assoc]

theorem op_run_returns (op : Op) (lg : Logger) (w : World) (hflag : lg.bInCallbacks = false) :
    ∃ lg' w' new, op.run lg w = .returned lg' w' ∧ lg'.bInCallbacks = false ∧
      (lg.m_Cfg.has_all_entries → lg'.m_Cfg.has_all_entries) ∧
      w'.trace = w.trace ++ new ∧ callbacks_saw_flag new := by
  have hkeep : ∀ lg' : Logger, lg.kept_in lg' →
      lg'.bInCallbacks = false ∧ (lg.m_Cfg.has_all_entries → lg'.m_Cfg.has_all_entries) := by
    intro lg' hk
    obtain ⟨k1, _, _, _, _, k6, k7⟩ := hk
    refine ⟨k1.trans hflag, ?_⟩
    intro hall l
    obtain ⟨hn, hc⟩ := hall l
    obtain ⟨n, hn'⟩ := Option.isSome_iff_exists.mp hn
    obtain ⟨c, hc'⟩ := Option.isSome_iff_exists.mp hc
    rw [k6 l n hn', k7 l c hc']
    exact ⟨rfl, rfl⟩
  have hcall : ∀ S text, ∃ lg' w' new, lg.write w S text = .returned lg' w' ∧
      lg'.bInCallbacks = false ∧ (lg.m_Cfg.has_all_entries → lg'.m_Cfg.has_all_entries) ∧
      w'.trace = w.trace ++ new ∧ callbacks_saw_flag new := by
    intro S text
    obtain ⟨lg', w', new, h1, hk, ht, hc⟩ := write_returns lg w S text hflag
    exact ⟨lg', w', new, h1, (hkeep lg' hk).1, (hkeep lg' hk).2, ht, hc⟩
  have hnil : callbacks_saw_flag [] := fun i m r f hm => by cases hm
  cases op with
  | set_level level => exact ⟨_, w, [], rfl, hflag, fun h => h, by simp, hnil⟩
  | set_to_console b => exact ⟨_, w, [], rfl, hflag, fun h => h, by simp, hnil⟩
  | set_color level color =>
    refine ⟨_, w, [], rfl, hflag, ?_, by simp, hnil⟩
    intro hall l
    refine ⟨(hall l).1, ?_⟩
    simp only [Config.set_color]
    by_cases hl : l = level
    · simp [hl]
    · simpa [hl] using (hall l).2
  | set_level_name level name =>
    refine ⟨_, w, [], rfl, hflag, ?_, by simp, hnil⟩
    intro hall l
    refine ⟨?_, (hall l).2⟩
    simp only [Config.set_level_name]
    by_cases hl : l = level
    · simp [hl]
    · simpa [hl] using (hall l).1
  | add_file path => exact ⟨_, w, [], rfl, hflag, fun h => h, by simp, hnil⟩
  | add_callback cb => exact ⟨_, w, [], rfl, hflag, fun h => h, by simp, hnil⟩
  | write level msg => exact hcall level msg
  | trace msg => exact hcall .TRACE msg
  | info msg => exact hcall .INFO msg
  | warn msg => exact hcall .WARN msg
  | debug msg => exact hcall .DEBUG msg
  | error msg => exact hcall .ERROR msg
  | assertion file line func expr msg =>
    obtain ⟨lg', w', new, h1, hk, ht, hc⟩ := write_all_returns .ASSERT
      ["File   " ++ file ++ ":" ++ to_string line, "Func:  " ++ func, "Expr:  " ++ expr,
        "Error: " ++ msg] lg w hflag
    refine ⟨lg', w', new, ?_, (hkeep lg' hk).1, (hkeep lg' hk).2, ht, hc⟩
    show lg.assertion w file line func expr msg = _
    rw [assertion_eq_spec]
    exact h1

theorem run_ops_returns (ops : List Op) : ∀ (lg : Logger) (w : World),
    lg.bInCallbacks = false →
    ∃ lg' w' new, run_ops ops lg w = .returned lg' w' ∧ lg'.bInCallbacks = false ∧
      (lg.m_Cfg.has_all_entries → lg'.m_Cfg.has_all_entries) ∧
      w'.trace = w.trace ++ new ∧ callbacks_saw_flag new := by
  induction ops with
  | nil =>
    intro lg w hflag
    exact ⟨lg, w, [], rfl, hflag, fun h => h, by simp, fun i m r f hm => by cases hm⟩
  | cons op rest ih =>
    intro lg w hflag
    obtain ⟨lg1, w1, n1, h1, f1, e1, t1, c1⟩ := op_run_returns op lg w hflag
    obtain ⟨lg2, w2, n2, h2, f2, e2, t2, c2⟩ := ih lg1 w1 f1
    refine ⟨lg2, w2, n1 ++ n2, ?_, f2, fun h => e2 (e1 h), ?_,
      callbacks_saw_flag_append c1 c2⟩
    · simp only [run_ops, h1, Outcome.andThen, h2]
    · rw [t2, t1, List.append_assoc]

theorem ctor_has_all_entries : Logger.ctor.m_Cfg.has_all_entries := by
  intro l
  cases l <;> exact ⟨rfl, rfl⟩

theorem format_of_has_all_entries (lg : Logger) (h : lg.m_Cfg.has_all_entries) (w : World)
    (l : ELevel) (m : String) : (lg.format w l m).2.1 = lg := by
  obtain ⟨hn, hc⟩ := h l
  obtain ⟨n, hn'⟩ := Option.isSome_iff_exists.mp hn
  obtain ⟨c, hc'⟩ := Option.isSome_iff_exists.mp hc
  simp only [Logger.format, map_index, hn', hc']

/-- C17. The reentrancy flag is false in the logger the constructor builds. On a logger
whose flag is false every use of the interface (a `Config` operation, `write`, a
fixed-severity entry point, `assertion`) returns with the flag false, for every
configuration, severity and callback result, and so does every sequence of uses from the
constructed logger. Every callback invocation of such a call ran with the flag true:
`handle_callbacks` sets the flag, invokes the callbacks and hands back a logger with the
flag false. -/
theorem C17_reentrancy_flag (lg : Logger) (w : World) (op : Op) (ops : List Op)
    (msg : Message) (hflag : lg.bInCallbacks = false) :
    Logger.ctor.bInCallbacks = false ∧
    (∃ lg' w' new, op.run lg w = .returned lg' w' ∧ lg'.bInCallbacks = false ∧
      w'.trace = w.trace ++ new ∧ callbacks_saw_flag new) ∧
    (∃ lg' w' new, run_ops ops Logger.ctor w = .returned lg' w' ∧ lg'.bInCallbacks = false ∧
      w'.trace = w.trace ++ new ∧ callbacks_saw_flag new) ∧
    (lg.handle_callbacks w msg).1.bInCallbacks = false ∧
    (∃ new, (lg.handle_callbacks w msg).2.trace = w.trace ++ new ∧
      new.filter Event.is_callback =
        lg.m_Cfg.callbacks.enum.map (fun p => Event.callback p.1 msg (p.2 msg) true)) := by
  refine ⟨rfl, ?_, ?_, rfl, ?_⟩
  · obtain ⟨lg', w', new, h1, h2, _, h4, h5⟩ := op_run_returns op lg w hflag
    exact ⟨lg', w', new, h1, h2, h4, h5⟩
  · obtain ⟨lg', w', new, h1, h2, _, h4, h5⟩ := run_ops_returns ops Logger.ctor w rfl
    exact ⟨lg', w', new, h1, h2, h4, h5⟩
  · refine ⟨_, handle_callbacks_loop_spec { lg with bInCallbacks := true } w msg
      lg.m_Cfg.callbacks 0 { lg with bInCallbacks := true } w rfl rfl (fun _ => rfl)
      (fun _ => rfl) rfl rfl rfl, ?_⟩
    rw [filter_is_callback_callback_events]
    rfl

/-- C17 at the program of `main.cpp`: after the INFO call the flag is false, and the one
callback invocation ran with the flag true. -/
theorem C17_reentrancy_flag_witness :
    main_logger.bInCallbacks = false ∧
    ∃ lg' w' new, (Op.info "Hello World!").run main_logger sample_world = .returned lg' w' ∧
      lg'.bInCallbacks = false ∧ w'.trace = sample_world.trace ++ new ∧
      callbacks_saw_flag new ∧ (new.filter Event.is_callback).length = 1 :=
  ⟨rfl, by
    obtain ⟨lg', w', new, h1, h2, h3, h4⟩ :=
      (C17_reentrancy_flag main_logger sample_world (.info "Hello World!") []
        ⟨"", "", .NONE⟩ rfl).2.1
    refine ⟨lg', w', new, h1, h2, h3, h4, ?_⟩
    have e : (Op.info "Hello World!").run main_logger sample_world = .returned _ _ := rfl
    rw [e] at h1
    cases h1
    have hn : new = _ := List.append_cancel_left h3.symm
    rw [hn]
    rfl⟩

/-- C18. From the logger the constructor builds, every sequence of `Config` operations
(`set_level`, `set_to_console`, `set_color`, `set_level_name`, `add_file`,
`add_callback`) and logger calls returns and leaves a name entry and a color entry for
every severity; on the logger it leaves, `format` finds both entries for every severity
and changes nothing in the logger. -/
theorem C18_display_entries_kept (ops : List Op) (w : World) :
    ∃ lg' w', run_ops ops Logger.ctor w = .returned lg' w' ∧
      (∀ l, (lg'.m_Cfg.level_names l).isSome = true ∧
        (lg'.m_Cfg.level_colors l).isSome = true) ∧
      (∀ (w2 : World) (l : ELevel) (m : String), (lg'.format w2 l m).2.1 = lg') := by
  obtain ⟨lg', w', _, h1, _, h3, _, _⟩ := run_ops_returns ops Logger.ctor w rfl
  have hall := h3 ctor_has_all_entries
  exact ⟨lg', w', h1, hall, fun w2 l m => format_of_has_all_entries lg' hall w2 l m⟩

/-- C18 on a sample session: the entries are there afterwards, the renamed one included. -/
theorem C18_display_entries_kept_witness :
    ∃ lg' w', run_ops sample_ops Logger.ctor sample_world = .returned lg' w' ∧
      lg'.m_Cfg.level_names .ERROR = some "E" ∧ lg'.m_Cfg.level_colors .INFO = some "" ∧
      (∀ l, (lg'.m_Cfg.level_names l).isSome = true ∧
        (lg'.m_Cfg.level_colors l).isSome = true) := by
  obtain ⟨lg', w', h1, h2, _⟩ := C18_display_entries_kept sample_ops sample_world
  refine ⟨lg', w', h1, ?_, ?_, h2⟩
  · have e : run_ops sample_ops Logger.ctor sample_world = .returned _ _ := rfl
    rw [e] at h1
    cases h1
    rfl
  · have e : run_ops sample_ops Logger.ctor sample_world = .returned _ _ := rfl
    rw [e] at h1
    cases h1
    rfl

/-! ## C19: the order of the sink events -/

theorem callback_events_flatMap (lg : Logger) (w : World) (msg : Message)
    (cbs : List Callback) :
    ∀ idx k, callback_events lg w msg cbs idx k =
      (cbs.enumFrom idx).flatMap (fun p =>
        one_callback_events lg w msg p.1 p.2
          (k + (returned_errors (cbs.take (p.1 - idx)) msg).length)) := by
  induction cbs with
  | nil => intro idx k; rfl
  | cons cb rest ih =>
    intro idx k
    simp only [List.enumFrom_cons, List.flatMap_cons]
    have htail : ∀ k', k' = k + (returned_errors [cb] msg).length →
        (rest.enumFrom (idx + 1)).flatMap (fun p =>
          one_callback_events lg w msg p.1 p.2
            (k' + (returned_errors (rest.take (p.1 - (idx + 1))) msg).length)) =
        (rest.enumFrom (idx + 1)).flatMap (fun p =>
          one_callback_events lg w msg p.1 p.2
            (k + (returned_errors ((cb :: rest).take (p.1 - idx)) msg).length)) := by
      intro k' hk'
      apply List.flatMap_congr
      intro p hp
      have hge : idx + 1 ≤ p.1 := List.le_fst_of_mem_enumFrom hp
      have hsub : p.1 - idx = (p.1 - (idx + 1)) + 1 := by omega
      rw [hsub, List.take_succ_cons, hk']
      have hlen : (returned_errors (cb :: rest.take (p.1 - (idx + 1))) msg).length =
          (returned_errors [cb] msg).length +
            (returned_errors (rest.take (p.1 - (idx + 1))) msg).length := by
        simp only [returned_errors, List.filterMap_cons]
        cases cb msg <;> simp [Nat.add_comm]
      rw [hlen, Nat.add_assoc]
    simp only [callback_events]
    cases hcb : cb msg with
    | none =>
      rw [ih (idx + 1) k, htail k (by simp [returned_errors, hcb])]
      simp [one_callback_events, hcb, returned_errors]
    | some e =>
      rw [ih (idx + 1) (k + 1), htail (k + 1) (by simp [returned_errors, hcb])]
      simp [one_callback_events, hcb, returned_errors, format_fst, sink_events]

/-- C19. The events of an emitted `write` on a logger whose reentrancy flag is clear
are, in this order: the appends of the formatted message to the openable entries of the
file list in list order, the console write when the console flag is on, and then for
each callback in registration order its invocation directly followed, when it returns an
error string, by the `ERROR` line of that string on the files and then the console,
before the next callback is invoked. -/
theorem C19_sink_event_order (lg : Logger) (w : World) (S : ELevel) (text : String)
    (hflag : lg.bInCallbacks = false) (hle : S.position ≤ lg.m_Cfg.level.position) :
    ∃ lg' w', lg.write w S text = .returned lg' w' ∧
      w'.trace = w.trace ++
        ((lg.m_Cfg.log_files.filter w.openable).map
            (fun p => Event.file_append p (lg.format w S text).1) ++
          (if lg.m_Cfg.to_console then [Event.console (lg.format w S text).1] else []) ++
          lg.m_Cfg.callbacks.enum.flatMap (fun p =>
            one_callback_events lg w (emitted_message lg w S text) p.1 p.2
              (w.ticks + 2 +
                (returned_errors (lg.m_Cfg.callbacks.take p.1)
                  (emitted_message lg w S text)).length))) := by
  obtain ⟨lg', w', h1, _, h3⟩ := write_emitted lg w S text hflag ((position_le_iff _ _).mp hle)
  refine ⟨lg', w', h1, ?_⟩
  rw [h3, callback_events_flatMap, List.append_assoc, format_fst]
  simp only [sink_events, List.enum, Nat.sub_zero]

/-- C19 at the logger with an unopenable file, the file `a.log` and an erring callback:
file, console, callback, then the error line on file and console. -/
theorem C19_sink_event_order_witness :
    locked_file_logger.bInCallbacks = false ∧
    ELevel.INFO.position ≤ locked_file_logger.m_Cfg.level.position ∧
    ∃ lg' w', locked_file_logger.write locked_world .INFO "x" = .returned lg' w' ∧
      w'.trace =
        [Event.file_append "a.log" "[05-Jan-2024•09:08:07] [\x1b[32mINFO\x1b[0m] x\n",
         Event.console "[05-Jan-2024•09:08:07] [\x1b[32mINFO\x1b[0m] x\n",
         Event.callback 0
           ⟨"05-Jan-2024•09:08:07", "[05-Jan-2024•09:08:07] [\x1b[32mINFO\x1b[0m] x\n", .INFO⟩
           (some "failed") true,
         Event.file_append "a.log" "[05-Jan-2024•09:08:07] [\x1b[31mERROR\x1b[0m] failed\n",
         Event.console "[05-Jan-2024•09:08:07] [\x1b[31mERROR\x1b[0m] failed\n"] :=
  ⟨rfl, by decide, by
    obtain ⟨lg', w', h1, h2⟩ :=
      C19_sink_event_order locked_file_logger locked_world .INFO "x" rfl (by decide)
    exact ⟨lg', w', h1, by rw [h2]; rfl⟩⟩

/-! ## C20: the reentrancy flag and the mutex -/

theorem single_thread_is_write (lg : Logger) (w : World) (level : ELevel) (msg : String) :
    match lg.write w level msg with
    | .returned lg' w' =>
      ((System.single lg w level msg).run [0, 0, 0, 0, 0, 0]).lg = lg' ∧
      ((System.single lg w level msg).run [0, 0, 0, 0, 0, 0]).w = w' ∧
      ((System.single lg w level msg).run [0, 0, 0, 0, 0, 0]).threads = [⟨level, msg, .done⟩] ∧
      ((System.single lg w level msg).run [0, 0, 0, 0, 0, 0]).mutex = none ∧
      ((System.single lg w level msg).run [0, 0, 0, 0, 0, 0]).aborted = none
    | .aborted w' =>
      ((System.single lg w level msg).run [0, 0, 0, 0, 0, 0]).w = w' ∧
      ((System.single lg w level msg).run [0, 0, 0, 0, 0, 0]).aborted = some 0 := by
  by_cases hf : level.toInt > lg.m_Cfg.level.toInt
  · simp [Logger.write, hf, System.single, System.run, System.step, System.goto]
  · by_cases hb : lg.bInCallbacks = true
    · simp [Logger.write, hf, hb, System.single, System.run, System.step, System.goto]
    · by_cases hc : (lg.format w level msg).2.1.m_Cfg.callbacks.isEmpty = true
      · simp [Logger.write, hf, hb, hc, System.single, System.run, System.step, System.goto]
      · simp [Logger.write, hf, hb, hc, System.single, System.run, System.step, System.goto,
          Logger.handle_callbacks]

/-- C20 on a concrete run. Two threads call `write(INFO, .)` on the logger of `main.cpp`.
Thread 0 holds the mutex and stands inside `handle_callbacks` with the flag set; thread 1,
which holds no lock and has run no callback, reads the flag before it reaches the lock,
finds it set and aborts the process. -/
theorem C20_second_thread_aborts :
    (race_start.run race_schedule).aborted = some 1 ∧
    (race_start.run [0, 0, 0, 0, 1]).aborted = none ∧
    (race_start.run [0, 0, 0, 0, 1]).mutex = some 0 ∧
    (race_start.run [0, 0, 0, 0, 1]).lg.bInCallbacks = true ∧
    (race_start.run [0, 0, 0, 0, 1]).threads.map (fun th => th.pc) =
      [.in_callbacks
          ⟨"05-Jan-2024•09:08:07", "[05-Jan-2024•09:08:07] [\x1b[32mINFO\x1b[0m] first\n",
            .INFO⟩,
        .at_flag_check] ∧
    (race_start.run race_schedule).w.files "a.log" =
      "[05-Jan-2024•09:08:07] [\x1b[32mINFO\x1b[0m] first\n" := by
  refine ⟨by rfl, by rfl, by rfl, by rfl, by decide, by rfl⟩

/-! ## C14: the lines of concurrent threads in the file -/

theorem step_of_aborted (s : System) (t : Nat) (h : s.aborted.isSome = true) :
    s.step t = s := by
  simp [System.step, h]

theorem run_of_aborted (s : System) (schedule : List Nat) (h : s.aborted.isSome = true) :
    s.run schedule = s := by
  induction schedule with
  | nil => rfl
  | cons t rest ih =>
    show (s.step t).run rest = s
    rw [step_of_aborted s t h]
    exact ih

theorem run_append (s : System) (a b : List Nat) : s.run (a ++ b) = (s.run a).run b := by
  simp [System.run, List.foldl_append]

/-- C14 (code defect), for two threads with one call each. Both calls pass the filter of
the logger of `main.cpp`, which has the file `a.log`. After `race_schedule` thread 1 has
aborted the process, and however the threads are scheduled from there on, `a.log` holds
the one line of thread 0 and not two lines. On the same logger without the callback the
two threads, interleaved up to the lock, both finish and `a.log` holds the two complete
lines, one after the other. -/
theorem C14_aborted_run_keeps_one_line (rest : List Nat) :
    race_start.lg.m_Cfg.log_files = ["a.log"] ∧
    race_start.threads.all
      (fun th => decide (th.level.position ≤ race_start.lg.m_Cfg.level.position)) = true ∧
    (race_start.run (race_schedule ++ rest)).aborted = some 1 ∧
    (race_start.run (race_schedule ++ rest)).w.files "a.log" =
      "[05-Jan-2024•09:08:07] [\x1b[32mINFO\x1b[0m] first\n" ∧
    (quiet_race_start.run quiet_schedule).aborted = none ∧
    (quiet_race_start.run quiet_schedule).mutex = none ∧
    (quiet_race_start.run quiet_schedule).threads.map (fun th => th.pc) = [.done, .done] ∧
    (quiet_race_start.run quiet_schedule).w.files "a.log" =
      "[05-Jan-2024•09:08:07] [\x1b[32mINFO\x1b[0m] first\n" ++
        "[05-Jan-2024•09:08:07] [\x1b[32mINFO\x1b[0m] second\n" := by
  have h : (race_start.run race_schedule).aborted.isSome = true := by rfl
  rw [run_append, run_of_aborted _ rest h]
  refine ⟨by rfl, by rfl, by rfl, by rfl, by rfl, by rfl, by decide, by rfl⟩

/-! ## C21: the error line of a callback and the severity filter -/

/-- C21. For an emitted `write` on a logger whose reentrancy flag is clear, whatever the
threshold: when the callback at position `i` returns the error string `e`, the line
`format(ERROR, e)` is appended to every file-list entry that opens and, when the console
flag is on, written to the console. This is so also under a threshold that stands before
`ERROR` in the order, under which a call `write(ERROR, .)` returns with nothing
written. -/
theorem C21_error_line_not_filtered (lg : Logger) (w : World) (S : ELevel) (text : String)
    (i : Nat) (cb : Callback) (e : String) (hflag : lg.bInCallbacks = false)
    (hle : S.position ≤ lg.m_Cfg.level.position)
    (hcb : lg.m_Cfg.callbacks[i]? = some cb)
    (herr : cb (emitted_message lg w S text) = some e) :
    (∃ lg' w' new k, lg.write w S text = .returned lg' w' ∧
      w'.trace = w.trace ++ new ∧
      (∀ p ∈ lg.m_Cfg.log_files, w.openable p = true →
        Event.file_append p (lg.format { w with ticks := k } .ERROR e).1 ∈ new) ∧
      (lg.m_Cfg.to_console = true →
        Event.console (lg.format { w with ticks := k } .ERROR e).1 ∈ new)) ∧
    (lg.m_Cfg.level.position < ELevel.ERROR.position →
      ∀ text', lg.write w .ERROR text' = .returned lg w) := by
  constructor
  · obtain ⟨lg', w', h1, _, h3⟩ :=
      write_emitted lg w S text hflag ((position_le_iff _ _).mp hle)
    have hmem : (i, cb) ∈ lg.m_Cfg.callbacks.enumFrom 0 :=
      List.mk_mem_enum_iff_getElem?.mpr hcb
    have hsub : ∀ ev ∈ one_callback_events lg w (emitted_message lg w S text) i cb
        (w.ticks + 2 + (returned_errors (lg.m_Cfg.callbacks.take i)
          (emitted_message lg w S text)).length),
        ev ∈ sink_events lg w (lg.line (w.clock w.ticks).timestamp S text) ++
          callback_events lg w (emitted_message lg w S text) lg.m_Cfg.callbacks 0
            (w.ticks + 2) := by
      intro ev hev
      rw [callback_events_flatMap]
      exact List.mem_append_right _ (List.mem_flatMap.mpr ⟨(i, cb), hmem, hev⟩)
    refine ⟨lg', w', _, w.ticks + 2 + (returned_errors (lg.m_Cfg.callbacks.take i)
      (emitted_message lg w S text)).length, h1, by rw [h3, List.append_assoc], ?_, ?_⟩
    · intro p hp ho
      apply hsub
      simp only [one_callback_events, herr]
      apply List.mem_cons_of_mem
      apply List.mem_append_left
      exact List.mem_map.mpr ⟨p, List.mem_filter.mpr ⟨hp, ho⟩, rfl⟩
    · intro hc
      apply hsub
      simp only [one_callback_events, herr]
      apply List.mem_cons_of_mem
      apply List.mem_append_right
      simp [hc]
  · intro hlt text'
    exact write_of_filtered lg w .ERROR text' ((position_lt_iff _ _).mp hlt)

/-- C21 under threshold `WARN`: the INFO call is emitted, its callback errs, and the
`ERROR` line reaches the file and the console although `error(.)` is filtered out. -/
theorem C21_error_line_not_filtered_witness :
    warn_callback_logger.bInCallbacks = false ∧
    ELevel.INFO.position ≤ warn_callback_logger.m_Cfg.level.position ∧
    warn_callback_logger.m_Cfg.level.position < ELevel.ERROR.position ∧
    warn_callback_logger.error sample_world "z" =
      .returned warn_callback_logger sample_world ∧
    ∃ lg' w', warn_callback_logger.write sample_world .INFO "x" = .returned lg' w' ∧
      Event.file_append "a.log" "[05-Jan-2024•09:08:07] [\x1b[31mERROR\x1b[0m] failed\n"
        ∈ w'.trace ∧
      Event.console "[05-Jan-2024•09:08:07] [\x1b[31mERROR\x1b[0m] failed\n" ∈ w'.trace :=
  ⟨rfl, by decide, by decide,
    (C21_error_line_not_filtered warn_callback_logger sample_world .INFO "x" 0
      (fun _ => some "failed") "failed" rfl (by decide) rfl rfl).2 (by decide) "z",
    by
      obtain ⟨lg', w', new, k, h1, h2, h3, h4⟩ :=
        (C21_error_line_not_filtered warn_callback_logger sample_world .INFO "x" 0
          (fun _ => some "failed") "failed" rfl (by decide) rfl rfl).1
      have hk : (warn_callback_logger.format { sample_world with ticks := k } .ERROR
          "failed").1 = "[05-Jan-2024•09:08:07] [\x1b[31mERROR\x1b[0m] failed\n" := by
        rw [format_fst]
        show warn_callback_logger.line sample_time.timestamp .ERROR "failed" = _
        rfl
      rw [hk] at h3 h4
      refine ⟨lg', w', h1, ?_, ?_⟩
      · rw [h2]
        exact List.mem_append_right _ (h3 "a.log" (by decide) rfl)
      · rw [h2]
        exact List.mem_append_right _ (h4 rfl)⟩

/-! ## C22: the two directions of a `BiMap` -/

theorem map_find_eq_none_iff {A B : Type} [DecidableEq A] (m : List (A × B)) (k : A) :
    map_find m k = none ↔ k ∉ m.map Prod.fst := by
  induction m with
  | nil => simp [map_find]
  | cons p rest ih =>
    obtain ⟨a, b⟩ := p
    by_cases h : a = k
    · simp [map_find, h]
    · simp [map_find, h, ih, Ne.symm h]

theorem map_assign_keys_of_new {A B : Type} [DecidableEq A] (m : List (A × B)) (k : A)
    (v : B) (h : map_find m k = none) :
    (map_assign m k v).map Prod.fst = m.map Prod.fst ++ [k] := by
  induction m with
  | nil => simp [map_assign]
  | cons p rest ih =>
    obtain ⟨a, b⟩ := p
    by_cases h1 : a = k
    · simp [map_find, h1] at h
    · simp only [map_find, h1, if_false] at h
      simp [map_assign, h1, ih h]

theorem unique_keys_assign {A B : Type} [DecidableEq A] (m : List (A × B)) (k : A) (v : B)
    (hu : unique_keys m) (h : map_find m k = none) : unique_keys (map_assign m k v) := by
  unfold unique_keys at hu ⊢
  rw [map_assign_keys_of_new _ _ _ h]
  have hk : k ∉ m.map Prod.fst := (map_find_eq_none_iff m k).mp h
  exact List.Nodup.append hu (List.nodup_singleton k) (by
    intro x hx hx'
    rw [List.mem_singleton] at hx'
    exact hk (hx' ▸ hx))

theorem map_erase_sublist {A B : Type} [DecidableEq A] (m : List (A × B)) (k : A) :
    List.Sublist (map_erase m k) m := by
  induction m with
  | nil => simp [map_erase]
  | cons p rest ih =>
    obtain ⟨a, b⟩ := p
    by_cases h : a = k
    · simp [map_erase, h]
    · simp only [map_erase, h, if_false]
      exact List.Sublist.cons₂ _ ih

theorem unique_keys_erase {A B : Type} [DecidableEq A] (m : List (A × B)) (k : A)
    (hu : unique_keys m) : unique_keys (map_erase m k) :=
  List.Nodup.sublist (List.Sublist.map Prod.fst (map_erase_sublist m k)) hu

theorem map_find_erase_self {A B : Type} [DecidableEq A] (m : List (A × B)) (k : A)
    (hu : unique_keys m) : map_find (map_erase m k) k = none := by
  induction m with
  | nil => simp [map_erase, map_find]
  | cons p rest ih =>
    obtain ⟨a, b⟩ := p
    have hu' : a ∉ rest.map Prod.fst ∧ unique_keys rest := by
      simpa [unique_keys] using hu
    by_cases h : a = k
    · subst h
      simp only [map_erase, if_true]
      exact (map_find_eq_none_iff rest a).mpr hu'.1
    · simp only [map_erase, h, if_false, map_find]
      exact ih hu'.2

theorem map_find_erase_of_ne {A B : Type} [DecidableEq A] (m : List (A × B)) (k j : A)
    (h : j ≠ k) : map_find (map_erase m k) j = map_find m j := by
  induction m with
  | nil => simp [map_erase]
  | cons p rest ih =>
    obtain ⟨a, b⟩ := p
    by_cases h1 : a = k
    · subst h1
      simp [map_erase, map_find, Ne.symm h]
    · by_cases h2 : a = j
      · subst h2
        simp [map_erase, map_find, h]
      · simp [map_erase, map_find, h1, h2, ih]

theorem map_erase_length {A B : Type} [DecidableEq A] (m : List (A × B)) (k : A) (v : B)
    (h : map_find m k = some v) : (map_erase m k).length + 1 = m.length := by
  induction m with
  | nil => simp [map_find] at h
  | cons p rest ih =>
    obtain ⟨a, b⟩ := p
    by_cases h1 : a = k
    · simp [map_erase, h1]
    · simp only [map_find, h1, if_false] at h
      simp [map_erase, h1, ih h]

theorem inverse_assign {A B : Type} [DecidableEq A] [DecidableEq B] (f : List (A × B))
    (r : List (B × A)) (hinv : ∀ a b, map_find f a = some b ↔ map_find r b = some a)
    (k : A) (v : B) (hk : map_find f k = none) (hv : map_find r v = none) :
    ∀ a b, map_find (map_assign f k v) a = some b ↔
      map_find (map_assign r v k) b = some a := by
  intro a b
  by_cases ha : a = k
  · subst ha
    rw [map_find_assign_self]
    by_cases hb : b = v
    · subst hb
      rw [map_find_assign_self]
      simp
    · rw [map_find_assign_of_ne _ _ _ _ hb]
      constructor
      · intro h
        exact absurd (Option.some.inj h).symm hb
      · intro h
        rw [(hinv a b).mpr h] at hk
        cases hk
  · rw [map_find_assign_of_ne _ _ _ _ ha]
    by_cases hb : b = v
    · subst hb
      rw [map_find_assign_self]
      constructor
      · intro h
        rw [(hinv a b).mp h] at hv
        cases hv
      · intro h
        exact absurd (Option.some.inj h).symm ha
    · rw [map_find_assign_of_ne _ _ _ _ hb]
      exact hinv a b

theorem inverse_erase {A B : Type} [DecidableEq A] [DecidableEq B] (f : List (A × B))
    (r : List (B × A)) (hf : unique_keys f) (hr : unique_keys r)
    (hinv : ∀ a b, map_find f a = some b ↔ map_find r b = some a)
    (k : A) (v : B) (h : map_find f k = some v) :
    ∀ a b, map_find (map_erase f k) a = some b ↔
      map_find (map_erase r v) b = some a := by
  intro a b
  by_cases ha : a = k
  · subst ha
    rw [map_find_erase_self _ _ hf]
    by_cases hb : b = v
    · subst hb
      rw [map_find_erase_self _ _ hr]
      simp
    · rw [map_find_erase_of_ne _ _ _ hb]
      constructor
      · intro h'
        cases h'
      · intro h'
        have h2 := (hinv a b).mpr h'
        rw [h] at h2
        exact absurd (Option.some.inj h2).symm hb
  · rw [map_find_erase_of_ne _ _ _ ha]
    by_cases hb : b = v
    · subst hb
      rw [map_find_erase_self _ _ hr]
      constructor
      · intro h'
        have h2 := (hinv a b).mp h'
        rw [(hinv k b).mp h] at h2
        exact absurd (Option.some.inj h2).symm ha
      · intro h'
        cases h'
    · rw [map_find_erase_of_ne _ _ _ hb]
      exact hinv a b

theorem in_sync_ctor {K V : Type} [DecidableEq K] [DecidableEq V] :
    (BiMap.ctor : BiMap K V).in_sync := by
  simp [BiMap.in_sync, BiMap.ctor, unique_keys, BiMap.mutually_inverse, map_find]

theorem in_sync_clear {K V : Type} [DecidableEq K] [DecidableEq V] (b : BiMap K V) :
    b.clear.in_sync := by
  simp [BiMap.in_sync, BiMap.clear, unique_keys, BiMap.mutually_inverse, map_find]

theorem in_sync_insert {K V : Type} [DecidableEq K] [DecidableEq V] (b : BiMap K V) (k : K)
    (v : V) (h : b.in_sync) : (b.insert k v).2.in_sync := by
  by_cases hc : (map_count b.m_Fwd k != 0 || map_count b.m_Rev v != 0) = true
  · simpa [BiMap.insert, hc] using h
  · have hk : map_find b.m_Fwd k = none := by
      apply (map_count_eq_zero_iff _ _).mp
      by_contra h0
      exact hc (by simp [h0])
    have hv : map_find b.m_Rev v = none := by
      apply (map_count_eq_zero_iff _ _).mp
      by_contra h0
      exact hc (by simp [h0])
    obtain ⟨h1, h2, h3, h4⟩ := h
    have e : (b.insert k v).2 =
        { m_Fwd := map_assign b.m_Fwd k v, m_Rev := map_assign b.m_Rev v k } := by
      simp [BiMap.insert, hc]
    rw [e]
    refine ⟨unique_keys_assign _ _ _ h1 hk, unique_keys_assign _ _ _ h2 hv,
      inverse_assign _ _ h3 k v hk hv, ?_⟩
    show (map_assign b.m_Fwd k v).length = (map_assign b.m_Rev v k).length
    rw [map_assign_length_of_new _ _ _ hk, map_assign_length_of_new _ _ _ hv, h4]

theorem in_sync_erase_key {K V : Type} [DecidableEq K] [DecidableEq V] (b : BiMap K V)
    (k : K) (h : b.in_sync) : (b.erase_key k).2.in_sync := by
  cases hf : map_find b.m_Fwd k with
  | none => simpa [BiMap.erase_key, hf] using h
  | some v =>
    obtain ⟨h1, h2, h3, h4⟩ := h
    have hr : map_find b.m_Rev v = some k := (h3 k v).mp hf
    have e : (b.erase_key k).2 =
        { m_Fwd := map_erase b.m_Fwd k, m_Rev := map_erase b.m_Rev v } := by
      simp [BiMap.erase_key, hf]
    rw [e]
    refine ⟨unique_keys_erase _ _ h1, unique_keys_erase _ _ h2,
      inverse_erase _ _ h1 h2 h3 k v hf, ?_⟩
    show (map_erase b.m_Fwd k).length = (map_erase b.m_Rev v).length
    have l1 := map_erase_length _ _ _ hf
    have l2 := map_erase_length _ _ _ hr
    omega

theorem in_sync_erase_value {K V : Type} [DecidableEq K] [DecidableEq V] (b : BiMap K V)
    (to_key : Option (V → K)) (v : V) (h : b.in_sync) :
    (b.erase_value to_key v).2.in_sync := by
  cases to_key with
  | some c => exact in_sync_erase_key b (c v) h
  | none =>
    cases hr : map_find b.m_Rev v with
    | none => simpa [BiMap.erase_value, hr] using h
    | some k =>
      obtain ⟨h1, h2, h3, h4⟩ := h
      have hf : map_find b.m_Fwd k = some v := (h3 k v).mpr hr
      have e : (b.erase_value none v).2 =
          { m_Fwd := map_erase b.m_Fwd k, m_Rev := map_erase b.m_Rev v } := by
        simp [BiMap.erase_value, hr]
      rw [e]
      refine ⟨unique_keys_erase _ _ h1, unique_keys_erase _ _ h2,
        inverse_erase _ _ h1 h2 h3 k v hf, ?_⟩
      show (map_erase b.m_Fwd k).length = (map_erase b.m_Rev v).length
      have l1 := map_erase_length _ _ _ hf
      have l2 := map_erase_length _ _ _ hr
      omega

theorem in_sync_run {K V : Type} [DecidableEq K] [DecidableEq V] [Inhabited K]
    [Inhabited V] (to_key : Option (V → K)) (ops : List (BiMapOp K V))
    (hops : ∀ op ∈ ops, op.is_index = false) (b : BiMap K V) (h : b.in_sync) :
    (run_bimap_ops to_key ops b).in_sync := by
  induction ops generalizing b with
  | nil => exact h
  | cons op rest ih =>
    have hop : op.is_index = false := hops op (List.mem_cons_self _ _)
    have hrest : ∀ o ∈ rest, o.is_index = false := fun o ho =>
      hops o (List.mem_cons_of_mem _ ho)
    show (run_bimap_ops to_key rest (op.run to_key b)).in_sync
    apply ih hrest
    cases op with
    | insert k v => exact in_sync_insert b k v h
    | erase_key k => exact in_sync_erase_key b k h
    | erase_value v => exact in_sync_erase_value b to_key v h
    | clear => exact in_sync_clear b
    | index_key k => simp [BiMapOp.is_index] at hop
    | index_value v => simp [BiMapOp.is_index] at hop

theorem sync_ops_run :
    run_bimap_ops none sync_ops BiMap.ctor =
      { m_Fwd := [(4, "four"), (5, "five")], m_Rev := [("four", 4), ("five", 5)] } := rfl

theorem in_sync_contains_agree {K V : Type} [DecidableEq K] [DecidableEq V] (b : BiMap K V)
    (h : b.in_sync) (k : K) : b.contains_agree none k = true := by
  unfold BiMap.contains_agree BiMap.at_key
  cases hf : map_find b.m_Fwd k with
  | none => rfl
  | some v =>
    have hr : map_find b.m_Rev v = some k := (h.2.2.1 k v).mp hf
    simp [BiMap.contains_key, BiMap.contains_value, map_count, hf, hr]

theorem filter_not_index {K V : Type} (ops : List (BiMapOp K V)) :
    ∀ op ∈ ops.filter (fun o => !o.is_index), op.is_index = false := by
  intro op hop
  simpa using (List.mem_filter.mp hop).2

/-- C22 (code defect): after `b[1]` on an empty `BiMap<int, std::string>` the forward map
sends 1 to the empty string while the reverse map has no entry, so the two directions are
not mutually inverse, `size()` is 1 against `right_map().size()` 0, and `contains(1)`
holds while `contains(at(1))` does not; `b["x"]` gives the mirrored state. Without the
two `operator[]` the claim holds: after every sequence of `insert`, `erase` by key, `erase`
by value and `clear` from the empty map the two directions are mutually inverse and the
two sizes are equal, whether or not the value type converts to the key type, and
`contains(k)` agrees with `contains(at(k))` on every key with an entry when the value
type does not convert to the key type: a `std::string` does not convert to an `int`. -/
theorem C22_index_breaks_inverse {K V : Type} [DecidableEq K] [DecidableEq V] [Inhabited K]
    [Inhabited V] (to_key : Option (V → K)) (ops : List (BiMapOp K V)) :
    ((run_bimap_ops none index_only_ops BiMap.ctor).at_key 1 = some "" ∧
      (run_bimap_ops none index_only_ops BiMap.ctor).at_value none "" = none ∧
      ¬ (run_bimap_ops none index_only_ops BiMap.ctor).mutually_inverse ∧
      (run_bimap_ops none index_only_ops BiMap.ctor).size = 1 ∧
      (run_bimap_ops none index_only_ops BiMap.ctor).right_map.length = 0 ∧
      (run_bimap_ops none index_only_ops BiMap.ctor).contains_key 1 = true ∧
      (run_bimap_ops none index_only_ops BiMap.ctor).contains_value none "" = false ∧
      (run_bimap_ops none index_only_ops BiMap.ctor).contains_agree none 1 = false) ∧
    ((run_bimap_ops none index_value_ops BiMap.ctor).at_value none "x" = some (.inl 0) ∧
      (run_bimap_ops none index_value_ops BiMap.ctor).at_key 0 = none ∧
      ¬ (run_bimap_ops none index_value_ops BiMap.ctor).mutually_inverse ∧
      (run_bimap_ops none index_value_ops BiMap.ctor).size = 0 ∧
      (run_bimap_ops none index_value_ops BiMap.ctor).right_map.length = 1) ∧
    ((run_bimap_ops to_key (ops.filter (fun o => !o.is_index)) BiMap.ctor).mutually_inverse ∧
      (run_bimap_ops to_key (ops.filter (fun o => !o.is_index)) BiMap.ctor).size =
        (run_bimap_ops to_key (ops.filter (fun o => !o.is_index))
          BiMap.ctor).right_map.length ∧
      ∀ k, (run_bimap_ops none (ops.filter (fun o => !o.is_index))
        BiMap.ctor).contains_agree none k = true) := by
  have hs := in_sync_run to_key (ops.filter (fun o => !o.is_index)) (filter_not_index ops)
    BiMap.ctor in_sync_ctor
  have hn := in_sync_run none (ops.filter (fun o => !o.is_index)) (filter_not_index ops)
    BiMap.ctor in_sync_ctor
  refine ⟨⟨rfl, rfl, ?_, rfl, rfl, rfl, rfl, rfl⟩, ⟨rfl, rfl, ?_, rfl, rfl⟩,
    hs.2.2.1, hs.2.2.2, in_sync_contains_agree _ hn⟩
  · intro h
    have h1 := (h 1 "").mp rfl
    cases h1
  · intro h
    have h1 := (h 0 "x").mpr rfl
    cases h1

end Aby
